import Mathlib

/-!
# fnnfast: a single-hidden-layer feedforward network in one memory block

Shallow embedding of `fnnfast.c` / `fnnfast.h`.

* `neuron` (a C `double` or `float`) is modelled by an arbitrary field `K`; the
  arithmetic of the program is carried out exactly in `K`.  The library functions
  `exp_neuron` and `pow_neuron` are parameters `exp_neuron : K → K` and
  `pow_neuron : K → K → K`; the C library generator is a parameter `rand_stream`.
* `size_t` values are natural numbers; every `size_t` addition and multiplication of
  the program is reduced modulo `2 ^ size_bits`.
* The block returned by `malloc` is a header (the fields of `struct fnnfast_data`)
  followed by trailing storage for `neuron`s.  The trailing storage is `mem : Nat → K`,
  indexed in elements; a `neuron *` into the block is the element index it points at,
  so `(neuron *)((char *)data + sizeof(struct fnnfast_data))` is index `0`.
* Buffers owned by the caller (`input`, `output`, `training_output_buf`) are functions
  `Nat → K` that are separate from the block.
* A `for` loop whose bound is a header field is `for_loop`; no loop body writes the header.
  The two pointer-walking `while` loops take fuel and return `none` when it runs out.
* The allocator is a parameter `malloc` of `fnnfast_new`; a call ends in an `Outcome`.
* The `_checked` functions are a second translation with bounds-checked indexing.
* The `_ext` functions are a second translation of the forward engine and of
  `fnnfast_mean_squared_deviation` over `xneuron`, the finite numbers of `K` together with
  the infinities and NaN; `lift_data` and `lift_values` embed finite storage in it.
-/

namespace Fnnfast

/-- Target-dependent constants: the width of `size_t`, `sizeof(neuron)` and
`sizeof(struct fnnfast_data)`. -/
structure Abi where
  size_bits : Nat
  sizeof_neuron : Nat
  sizeof_fnnfast_data : Nat

/-- The `__x86_64__` branch of `fnnfast.h`: `neuron` is `double`, eight 8-byte header fields. -/
def x86_64 : Abi := ⟨64, 8, 64⟩

/-- Addition of two `size_t` values. -/
def size_add (abi : Abi) (a b : Nat) : Nat := (a + b) % 2 ^ abi.size_bits

/-- Multiplication of two `size_t` values. -/
def size_mul (abi : Abi) (a b : Nat) : Nat := (a * b) % 2 ^ abi.size_bits

/-- The header of the block (`struct fnnfast_data`) together with the trailing storage. -/
structure fnnfast_data (K : Type) where
  num_input : Nat
  num_hidden : Nat
  num_output : Nat
  p_hidden_neurons : Nat
  p_delta_input_hidden : Nat
  p_delta_hidden_output : Nat
  p_input_weights : Nat
  p_hidden_weights : Nat
  mem : Nat → K

/-- The assignment `*p = v` on a `neuron` store. -/
def store {K : Type} (mem : Nat → K) (p : Nat) (v : K) : Nat → K :=
  fun q => if q = p then v else mem q

/-- The loop `for (size_t i = 0; i < n; ++i) body(i)` acting on a state. -/
def for_loop {σ : Type} : Nat → (Nat → σ → σ) → σ → σ
  | 0, _, s => s
  | n + 1, body, s => body n (for_loop n body s)

/-- Translation of `fnnfast_size`. -/
def fnnfast_size {K : Type} (abi : Abi) (data : fnnfast_data K) : Nat :=
  let bytes := 0
  let bytes := size_add abi bytes data.num_hidden
  let bytes := size_add abi bytes (size_mul abi (size_add abi data.num_input 1) data.num_hidden)
  let bytes := size_add abi bytes (size_mul abi (size_add abi data.num_hidden 1) data.num_output)
  let bytes := size_add abi bytes (size_mul abi (size_add abi data.num_input 1) data.num_hidden)
  let bytes := size_add abi bytes (size_mul abi (size_add abi data.num_hidden 1) data.num_output)
  let bytes := size_mul abi bytes abi.sizeof_neuron
  let bytes := size_add abi bytes abi.sizeof_fnnfast_data
  bytes

/-- Translation of `fnnfast_fix_pointers`.  Adding a `size_t` to a `neuron *` moves the
element index by that amount. -/
def fnnfast_fix_pointers {K : Type} (abi : Abi) (data : fnnfast_data K) : fnnfast_data K :=
  let data := { data with p_hidden_neurons := 0 }
  let data := { data with p_delta_input_hidden := data.p_hidden_neurons + data.num_hidden }
  let data := { data with
    p_delta_hidden_output :=
      data.p_delta_input_hidden + size_mul abi (size_add abi data.num_input 1) data.num_hidden }
  let data := { data with
    p_input_weights :=
      data.p_delta_hidden_output + size_mul abi (size_add abi data.num_hidden 1) data.num_output }
  let data := { data with
    p_hidden_weights :=
      data.p_input_weights + size_mul abi (size_add abi data.num_input 1) data.num_hidden }
  data

/-- Number of `neuron` elements of the five regions of a network of dimensions `(I, H, O)`,
as a natural number. -/
def region_elems (I H O : Nat) : Nat := H + 2 * (I + 1) * H + 2 * (H + 1) * O

/-- Byte count of header plus regions, as a natural number (no reduction). -/
def alloc_bytes (abi : Abi) (I H O : Nat) : Nat :=
  abi.sizeof_fnnfast_data + region_elems I H O * abi.sizeof_neuron

/-- The block of a network of dimensions `(I, H, O)` is representable: its byte count fits
in `size_t` (and a `neuron` occupies at least one byte). -/
def fits (abi : Abi) (I H O : Nat) : Prop :=
  0 < abi.sizeof_neuron ∧ alloc_bytes abi I H O < 2 ^ abi.size_bits

instance (abi : Abi) (I H O : Nat) : Decidable (fits abi I H O) := by
  unfold fits
  infer_instance

/-- Byte offset, from the start of the block, of the element a `neuron *` points at. -/
def byte_offset (abi : Abi) (p : Nat) : Nat := abi.sizeof_fnnfast_data + p * abi.sizeof_neuron

/-- The half-open element ranges `[p, p + n)` and `[q, q + m)` have no element in common. -/
def disjoint_range (p n q m : Nat) : Prop := ∀ a, ¬ (p ≤ a ∧ a < p + n ∧ q ≤ a ∧ a < q + m)

/-- A header with the given dimensions, pointers not yet set. -/
def header_of (K : Type) [Zero K] (I H O : Nat) : fnnfast_data K :=
  ⟨I, H, O, 0, 0, 0, 0, 0, fun _ => 0⟩

/-! ## Initialisation -/

/-- The loop `while (cur != end) { *cur = NEURON_ZERO; ++cur; }` of `fnnfast_zero`, run for at
most `fuel` iterations; `none` when the loop has not reached `end` by then. -/
def fnnfast_zero_loop {K : Type} [Field K] (endp : Nat) :
    Nat → Nat → (Nat → K) → Option (Nat → K)
  | 0, cur, mem => if cur = endp then some mem else none
  | fuel + 1, cur, mem =>
    if cur = endp then some mem else fnnfast_zero_loop endp fuel (cur + 1) (store mem cur 0)

/-- Translation of `fnnfast_zero`. -/
def fnnfast_zero {K : Type} [Field K] (abi : Abi) (fuel : Nat) (data : fnnfast_data K) :
    Option (fnnfast_data K) :=
  let endp := data.p_hidden_weights + size_mul abi (size_add abi data.num_hidden 1) data.num_output
  let cur := data.p_hidden_neurons
  (fnnfast_zero_loop endp fuel cur data.mem).map (fun mem => { data with mem := mem })

/-- The loop of `fnnfast_randomize`; `draws k` is the value returned by the `k`-th call of
`rand()` after `srand(seed)`, and `k` counts the calls made so far. -/
def fnnfast_randomize_loop {K : Type} [Field K] (RAND_MAX : Nat) (draws : Nat → Nat)
    (endp : Nat) : Nat → Nat → Nat → (Nat → K) → Option (Nat → K)
  | 0, cur, _, mem => if cur = endp then some mem else none
  | fuel + 1, cur, k, mem =>
    if cur = endp then some mem
    else fnnfast_randomize_loop RAND_MAX draws endp fuel (cur + 1) (k + 1)
      (store mem cur ((draws k : K) / (RAND_MAX : K) - 1 / 2))

/-- Translation of `fnnfast_randomize`.  The generator of the C library is the parameter
`rand_stream`: `rand_stream seed k` is the `k`-th value `rand()` returns after `srand(seed)`. -/
def fnnfast_randomize {K : Type} [Field K] (abi : Abi) (RAND_MAX : Nat)
    (rand_stream : Nat → Nat → Nat) (fuel : Nat) (data : fnnfast_data K) (seed : Nat) :
    Option (fnnfast_data K) :=
  let endp := data.p_hidden_weights + size_mul abi (size_add abi data.num_hidden 1) data.num_output
  let cur := data.p_input_weights
  (fnnfast_randomize_loop RAND_MAX (rand_stream seed) endp fuel cur 0 data.mem).map
    (fun mem => { data with mem := mem })

/-! ## Forward engine -/

/-- Translation of `fnnfast_activate`. -/
def fnnfast_activate {K : Type} [Field K] (exp_neuron : K → K) (n : K) : K :=
  1 / (1 + exp_neuron (-n))

/-- Body of the first loop of `fnnfast_feedforward` for hidden unit `i`. -/
def feedforward_hidden_unit {K : Type} [Field K] (exp_neuron : K → K) (abi : Abi)
    (data : fnnfast_data K) (input : Nat → K) (i : Nat) (mem : Nat → K) : Nat → K :=
  let mem := store mem (data.p_hidden_neurons + i) 0
  let mem := for_loop data.num_input (fun j mem =>
    store mem (data.p_hidden_neurons + i)
      (mem (data.p_hidden_neurons + i)
        + input j * mem (data.p_input_weights + size_add abi (size_mul abi j data.num_hidden) i)))
    mem
  let mem := store mem (data.p_hidden_neurons + i)
    (mem (data.p_hidden_neurons + i)
      + -1 * mem (data.p_input_weights
          + size_add abi (size_mul abi data.num_input data.num_hidden) i))
  store mem (data.p_hidden_neurons + i) (fnnfast_activate exp_neuron (mem (data.p_hidden_neurons + i)))

/-- Body of the second loop of `fnnfast_feedforward` for output unit `i`; `mem` is the
storage of the block after the first loop. -/
def feedforward_output_unit {K : Type} [Field K] (exp_neuron : K → K) (abi : Abi)
    (data : fnnfast_data K) (mem : Nat → K) (i : Nat) (output : Nat → K) : Nat → K :=
  let output := store output i 0
  let output := for_loop data.num_hidden (fun j output =>
    store output i
      (output i + mem (data.p_hidden_neurons + j)
        * mem (data.p_hidden_weights + size_add abi (size_mul abi j data.num_output) i)))
    output
  let output := store output i
    (output i + -1 * mem (data.p_hidden_weights
        + size_add abi (size_mul abi data.num_hidden data.num_output) i))
  store output i (fnnfast_activate exp_neuron (output i))

/-- Translation of `fnnfast_feedforward`: the block and the `output` buffer after the call. -/
def fnnfast_feedforward {K : Type} [Field K] (exp_neuron : K → K) (abi : Abi)
    (data : fnnfast_data K) (input output : Nat → K) : fnnfast_data K × (Nat → K) :=
  let mem := for_loop data.num_hidden (feedforward_hidden_unit exp_neuron abi data input) data.mem
  let output := for_loop data.num_output (feedforward_output_unit exp_neuron abi data mem) output
  ({ data with mem := mem }, output)

/-- Body of the loop of `fnnfast_mean_squared_deviation` for example `i`; the state is the
block, the `output` buffer and `sq_deviation`. -/
def mean_squared_deviation_step {K : Type} [Field K] (exp_neuron : K → K)
    (pow_neuron : K → K → K) (abi : Abi) (input_set output_set : Nat → Nat → K) (i : Nat)
    (s : fnnfast_data K × (Nat → K) × K) : fnnfast_data K × (Nat → K) × K :=
  let r := fnnfast_feedforward exp_neuron abi s.1 (input_set i) s.2.1
  let sq_deviation := for_loop r.1.num_output (fun j sq_deviation =>
    sq_deviation + pow_neuron (r.2 j - output_set i j) 2) s.2.2
  (r.1, r.2, sq_deviation)

/-- Translation of `fnnfast_mean_squared_deviation`: the block after the call and the
returned value.  `pow_neuron` is the library function of that name, `output` is the buffer
returned by `malloc(data->num_output * sizeof(neuron))`, whose contents are indeterminate;
the divisor is the `size_t` product `data->num_output * num` converted to `neuron`. -/
def fnnfast_mean_squared_deviation {K : Type} [Field K] (exp_neuron : K → K)
    (pow_neuron : K → K → K) (abi : Abi) (data : fnnfast_data K)
    (input_set output_set : Nat → Nat → K) (num : Nat) (output : Nat → K) :
    fnnfast_data K × K :=
  let sq_deviation : K := 0
  let s := for_loop num
    (mean_squared_deviation_step exp_neuron pow_neuron abi input_set output_set)
    (data, output, sq_deviation)
  (s.1, s.2.2 / ((size_mul abi s.1.num_output num : Nat) : K))

/-! ## Trainer -/

/-- Translation of `fnnfast_output_error_gradient`. -/
def fnnfast_output_error_gradient {K : Type} [Field K] (target output : K) : K :=
  output * (1 - output) * (target - output)

/-- Translation of `fnnfast_hidden_error_gradient`. -/
def fnnfast_hidden_error_gradient {K : Type} [Field K] (abi : Abi) (data : fnnfast_data K)
    (h : Nat) (target output : Nat → K) : K :=
  let sum := for_loop data.num_output (fun i sum =>
    sum + data.mem (data.p_hidden_weights + size_add abi (size_mul abi h data.num_output) i)
      * fnnfast_output_error_gradient (target i) (output i)) 0
  data.mem (data.p_hidden_neurons + h) * (1 - data.mem (data.p_hidden_neurons + h)) * sum

/-- Body of the first loop of `fnnfast_backpropogate` for output unit `i`. -/
def backpropogate_output_unit {K : Type} [Field K] (abi : Abi) (data : fnnfast_data K)
    (training_output target_output : Nat → K) (rate momentum : K) (i : Nat) (mem : Nat → K) :
    Nat → K :=
  let correction := fnnfast_output_error_gradient (target_output i) (training_output i)
  let mem := for_loop data.num_hidden (fun j mem =>
    let mem := store mem
      (data.p_delta_hidden_output + size_add abi (size_mul abi j data.num_output) i)
      (rate * mem (data.p_hidden_neurons + j) * correction
        + momentum * mem (data.p_delta_hidden_output
            + size_add abi (size_mul abi j data.num_output) i))
    store mem (data.p_hidden_weights + size_add abi (size_mul abi j data.num_output) i)
      (mem (data.p_hidden_weights + size_add abi (size_mul abi j data.num_output) i)
        + mem (data.p_delta_hidden_output + size_add abi (size_mul abi j data.num_output) i)))
    mem
  let mem := store mem
    (data.p_delta_hidden_output + size_add abi (size_mul abi data.num_hidden data.num_output) i)
    (rate * (-1) * correction
      + momentum * mem (data.p_delta_hidden_output
          + size_add abi (size_mul abi data.num_hidden data.num_output) i))
  store mem (data.p_hidden_weights + size_add abi (size_mul abi data.num_hidden data.num_output) i)
    (mem (data.p_hidden_weights + size_add abi (size_mul abi data.num_hidden data.num_output) i)
      + mem (data.p_delta_hidden_output
          + size_add abi (size_mul abi data.num_hidden data.num_output) i))

/-- Body of the second loop of `fnnfast_backpropogate` for hidden unit `i`. -/
def backpropogate_hidden_unit {K : Type} [Field K] (abi : Abi) (data : fnnfast_data K)
    (input training_output target_output : Nat → K) (rate momentum : K) (i : Nat)
    (mem : Nat → K) : Nat → K :=
  let correction :=
    fnnfast_hidden_error_gradient abi { data with mem := mem } i target_output training_output
  let mem := for_loop data.num_input (fun j mem =>
    let mem := store mem
      (data.p_delta_input_hidden + size_add abi (size_mul abi j data.num_hidden) i)
      (rate * input j * correction
        + momentum * mem (data.p_delta_input_hidden
            + size_add abi (size_mul abi j data.num_hidden) i))
    store mem (data.p_input_weights + size_add abi (size_mul abi j data.num_hidden) i)
      (mem (data.p_input_weights + size_add abi (size_mul abi j data.num_hidden) i)
        + mem (data.p_delta_input_hidden + size_add abi (size_mul abi j data.num_hidden) i)))
    mem
  let mem := store mem
    (data.p_delta_input_hidden + size_add abi (size_mul abi data.num_input data.num_hidden) i)
    (rate * (-1) * correction
      + momentum * mem (data.p_delta_input_hidden
          + size_add abi (size_mul abi data.num_input data.num_hidden) i))
  store mem (data.p_input_weights + size_add abi (size_mul abi data.num_input data.num_hidden) i)
    (mem (data.p_input_weights + size_add abi (size_mul abi data.num_input data.num_hidden) i)
      + mem (data.p_delta_input_hidden
          + size_add abi (size_mul abi data.num_input data.num_hidden) i))

/-- Translation of `fnnfast_backpropogate`. -/
def fnnfast_backpropogate {K : Type} [Field K] (abi : Abi) (data : fnnfast_data K)
    (input training_output target_output : Nat → K) (rate momentum : K) : fnnfast_data K :=
  let mem := for_loop data.num_output
    (backpropogate_output_unit abi data training_output target_output rate momentum) data.mem
  let mem := for_loop data.num_hidden
    (backpropogate_hidden_unit abi data input training_output target_output rate momentum) mem
  { data with mem := mem }

/-- Translation of `fnnfast_train`: the block and `training_output_buf` after the call. -/
def fnnfast_train {K : Type} [Field K] (exp_neuron : K → K) (abi : Abi) (data : fnnfast_data K)
    (input output : Nat → K) (rate momentum : K) (training_output_buf : Nat → K) :
    fnnfast_data K × (Nat → K) :=
  let r := fnnfast_feedforward exp_neuron abi data input training_output_buf
  (fnnfast_backpropogate abi r.1 input r.2 output rate momentum, r.2)

/-! ## Views of the regions -/

/-- Element `k` of the region `hidden_activations`. -/
def hidden_activations {K : Type} (data : fnnfast_data K) (k : Nat) : K :=
  data.mem (data.p_hidden_neurons + k)

/-- Element `k` of the region `delta_input_hidden`. -/
def delta_input_hidden {K : Type} (data : fnnfast_data K) (k : Nat) : K :=
  data.mem (data.p_delta_input_hidden + k)

/-- Element `k` of the region `delta_hidden_output`. -/
def delta_hidden_output {K : Type} (data : fnnfast_data K) (k : Nat) : K :=
  data.mem (data.p_delta_hidden_output + k)

/-- Element `k` of the region `input_weights`. -/
def input_weights {K : Type} (data : fnnfast_data K) (k : Nat) : K :=
  data.mem (data.p_input_weights + k)

/-- Element `k` of the region `hidden_weights`. -/
def hidden_weights {K : Type} (data : fnnfast_data K) (k : Nat) : K :=
  data.mem (data.p_hidden_weights + k)

/-- Weighted input of destination unit `i` of a layer with `M` source units and `N`
destination units: the sum of `src j * w (j * N + i)` over the sources `j < M`, minus the
bias weight `w (M * N + i)`. -/
def net_input {K : Type} [Field K] (M N : Nat) (src w : Nat → K) (i : Nat) : K :=
  (∑ j in Finset.range M, src j * w (j * N + i)) - w (M * N + i)

/-- A `(2, 2, 1)` network on `x86_64` whose element `q` of the trailing storage holds
`q / 16`. -/
def sample_net (K : Type) [Field K] : fnnfast_data K :=
  { fnnfast_fix_pointers x86_64 (header_of K 2 2 1) with mem := fun q => (q : K) / 16 }

/-- The input vector `[1, 0]`. -/
def sample_input (K : Type) [Field K] : Nat → K := fun j => if j = 0 then 1 else 0

/-- The pair of assignments that `fnnfast_backpropogate` performs for one weight: the delta
at `pd + k` becomes `rate * s * c + momentum * delta`, and is then added to the weight at
`pw + k`. -/
def weight_step {K : Type} [Field K] (pd pw k : Nat) (rate momentum s c : K) (mem : Nat → K) :
    Nat → K :=
  let mem := store mem (pd + k) (rate * s * c + momentum * mem (pd + k))
  store mem (pw + k) (mem (pw + k) + mem (pd + k))

/-- Common shape of the bodies of the two loops of `fnnfast_backpropogate`, for destination
unit `i` of a layer with `M` source units and `N` destination units: `corr i` is the
gradient of the unit and `src j` the activation of source `j`, both read from the storage. -/
def layer_unit {K : Type} [Field K] (pd pw M N : Nat) (rate momentum : K)
    (src corr : Nat → (Nat → K) → K) (i : Nat) (mem : Nat → K) : Nat → K :=
  let c := corr i mem
  let mem := for_loop M
    (fun j mem => weight_step pd pw (j * N + i) rate momentum (src j mem) c mem) mem
  weight_step pd pw (M * N + i) rate momentum (-1) c mem

/-- The delta that one training step stores for the weight from source `j` (the bias for
`j = M`) to destination `i`, computed from the storage `mem` before the layer is updated. -/
def new_delta {K : Type} [Field K] (pd M N : Nat) (rate momentum : K)
    (src corr : Nat → (Nat → K) → K) (mem : Nat → K) (j i : Nat) : K :=
  rate * (if j < M then src j mem else -1) * corr i mem + momentum * mem (pd + (j * N + i))

/-- The storages `m` and `m'` agree outside the ranges `[pd, pd + R)` and `[pw, pw + R)`. -/
def agree_outside {K : Type} (pd pw R : Nat) (m m' : Nat → K) : Prop :=
  ∀ q, ¬ (pd ≤ q ∧ q < pd + R) → ¬ (pw ≤ q ∧ q < pw + R) → m q = m' q

/-- The network of dimensions `(I, H, O)` on `x86_64` with all trailing storage zero. -/
def zero_net (K : Type) [Field K] (I H O : Nat) : fnnfast_data K :=
  fnnfast_fix_pointers x86_64 (header_of K I H O)

/-! ## Infinities and NaN

A second translation of the forward engine and of `fnnfast_mean_squared_deviation`, over
`neuron` values that can also be an infinity or a NaN.  Operations on finite numbers are
exact; operations with an infinity or a NaN follow the rules of IEEE 754 arithmetic.  The
sign of a zero is not represented: the only divisors that can be zero are sums
`1 + exp_neuron x` and converted `size_t` values, neither of which is a negative zero. -/

/-- A `neuron` value: a finite number, an infinity (`true` for the negative one) or a NaN. -/
inductive xneuron (K : Type) where
  | num : K → xneuron K
  | inf : Bool → xneuron K
  | nan : xneuron K

/-- Unary minus of `neuron` values. -/
def xneuron.neg {K : Type} [LinearOrderedField K] : xneuron K → xneuron K
  | xneuron.num a => xneuron.num (-a)
  | xneuron.inf s => xneuron.inf (!s)
  | xneuron.nan => xneuron.nan

/-- Sum of `neuron` values: infinities of opposite sign add up to a NaN. -/
def xneuron.add {K : Type} [LinearOrderedField K] : xneuron K → xneuron K → xneuron K
  | xneuron.num a, xneuron.num b => xneuron.num (a + b)
  | xneuron.num _, xneuron.inf t => xneuron.inf t
  | xneuron.inf s, xneuron.num _ => xneuron.inf s
  | xneuron.inf s, xneuron.inf t => if s = t then xneuron.inf s else xneuron.nan
  | xneuron.nan, _ => xneuron.nan
  | _, xneuron.nan => xneuron.nan

/-- Difference of `neuron` values: infinities of the same sign subtract to a NaN. -/
def xneuron.sub {K : Type} [LinearOrderedField K] : xneuron K → xneuron K → xneuron K
  | xneuron.num a, xneuron.num b => xneuron.num (a - b)
  | xneuron.num _, xneuron.inf t => xneuron.inf (!t)
  | xneuron.inf s, xneuron.num _ => xneuron.inf s
  | xneuron.inf s, xneuron.inf t => if s = t then xneuron.nan else xneuron.inf s
  | xneuron.nan, _ => xneuron.nan
  | _, xneuron.nan => xneuron.nan

/-- Product of `neuron` values: an infinity times zero is a NaN. -/
def xneuron.mul {K : Type} [LinearOrderedField K] : xneuron K → xneuron K → xneuron K
  | xneuron.num a, xneuron.num b => xneuron.num (a * b)
  | xneuron.num a, xneuron.inf t =>
    if a = 0 then xneuron.nan else xneuron.inf (xor (decide (a < 0)) t)
  | xneuron.inf s, xneuron.num b =>
    if b = 0 then xneuron.nan else xneuron.inf (xor s (decide (b < 0)))
  | xneuron.inf s, xneuron.inf t => xneuron.inf (xor s t)
  | xneuron.nan, _ => xneuron.nan
  | _, xneuron.nan => xneuron.nan

/-- Quotient of `neuron` values: zero by zero and an infinity by an infinity are a NaN, a
non-zero number by zero is an infinity. -/
def xneuron.div {K : Type} [LinearOrderedField K] : xneuron K → xneuron K → xneuron K
  | xneuron.num a, xneuron.num b =>
    if b = 0 then (if a = 0 then xneuron.nan else xneuron.inf (decide (a < 0)))
    else xneuron.num (a / b)
  | xneuron.num _, xneuron.inf _ => xneuron.num 0
  | xneuron.inf s, xneuron.num b => xneuron.inf (xor s (decide (b < 0)))
  | xneuron.inf _, xneuron.inf _ => xneuron.nan
  | xneuron.nan, _ => xneuron.nan
  | _, xneuron.nan => xneuron.nan

/-- The library function `exp_neuron` on `neuron` values; `exp_neuron` is its restriction to
finite arguments. -/
def xneuron.exp {K : Type} [LinearOrderedField K] (exp_neuron : K → K) : xneuron K → xneuron K
  | xneuron.num a => xneuron.num (exp_neuron a)
  | xneuron.inf false => xneuron.inf false
  | xneuron.inf true => xneuron.num 0
  | xneuron.nan => xneuron.nan

/-- The call `pow_neuron(x, NEURON_TWO)` on `neuron` values. -/
def xneuron.pow_two {K : Type} [LinearOrderedField K] (pow_neuron : K → K → K) :
    xneuron K → xneuron K
  | xneuron.num a => xneuron.num (pow_neuron a 2)
  | xneuron.inf _ => xneuron.inf false
  | xneuron.nan => xneuron.nan

/-- The comparison `x >= 0` of C: false for a NaN. -/
def xneuron.nonneg {K : Type} [LinearOrderedField K] : xneuron K → Prop
  | xneuron.num a => 0 ≤ a
  | xneuron.inf s => s = false
  | xneuron.nan => False

/-- A store of finite numbers as a store of `neuron` values. -/
def lift_values {K : Type} (m : Nat → K) : Nat → xneuron K := fun q => xneuron.num (m q)

/-- A block whose trailing storage holds finite numbers only. -/
def lift_data {K : Type} (data : fnnfast_data K) : fnnfast_data (xneuron K) :=
  { num_input := data.num_input
    num_hidden := data.num_hidden
    num_output := data.num_output
    p_hidden_neurons := data.p_hidden_neurons
    p_delta_input_hidden := data.p_delta_input_hidden
    p_delta_hidden_output := data.p_delta_hidden_output
    p_input_weights := data.p_input_weights
    p_hidden_weights := data.p_hidden_weights
    mem := lift_values data.mem }

/-- The loop of `fnnfast_zero` over `xneuron`: `NEURON_ZERO` is the finite number `0`. -/
def fnnfast_zero_loop_ext {K : Type} [LinearOrderedField K] (endp : Nat) :
    Nat → Nat → (Nat → xneuron K) → Option (Nat → xneuron K)
  | 0, cur, mem => if cur = endp then some mem else none
  | fuel + 1, cur, mem =>
    if cur = endp then some mem
    else fnnfast_zero_loop_ext endp fuel (cur + 1) (store mem cur (xneuron.num 0))

/-- Translation of `fnnfast_zero` over `xneuron`. -/
def fnnfast_zero_ext {K : Type} [LinearOrderedField K] (abi : Abi) (fuel : Nat)
    (data : fnnfast_data (xneuron K)) : Option (fnnfast_data (xneuron K)) :=
  let endp := data.p_hidden_weights + size_mul abi (size_add abi data.num_hidden 1) data.num_output
  let cur := data.p_hidden_neurons
  (fnnfast_zero_loop_ext endp fuel cur data.mem).map (fun mem => { data with mem := mem })

/-- Translation of `fnnfast_activate` over `xneuron`. -/
def fnnfast_activate_ext {K : Type} [LinearOrderedField K] (exp_neuron : K → K)
    (n : xneuron K) : xneuron K :=
  xneuron.div (xneuron.num 1)
    (xneuron.add (xneuron.num 1) (xneuron.exp exp_neuron (xneuron.neg n)))

/-- The statement `data->p_hidden_neurons[i] += input[j] * data->p_input_weights[j *
data->num_hidden + i];` over `xneuron`. -/
def feedforward_hidden_step_ext {K : Type} [LinearOrderedField K] (abi : Abi)
    (data : fnnfast_data (xneuron K)) (input : Nat → xneuron K) (i j : Nat)
    (mem : Nat → xneuron K) : Nat → xneuron K :=
  store mem (data.p_hidden_neurons + i)
    (xneuron.add (mem (data.p_hidden_neurons + i))
      (xneuron.mul (input j)
        (mem (data.p_input_weights + size_add abi (size_mul abi j data.num_hidden) i))))

/-- Body of the first loop of `fnnfast_feedforward` for hidden unit `i`, over `xneuron`. -/
def feedforward_hidden_unit_ext {K : Type} [LinearOrderedField K] (exp_neuron : K → K)
    (abi : Abi) (data : fnnfast_data (xneuron K)) (input : Nat → xneuron K) (i : Nat)
    (mem : Nat → xneuron K) : Nat → xneuron K :=
  let mem := store mem (data.p_hidden_neurons + i) (xneuron.num 0)
  let mem := for_loop data.num_input (feedforward_hidden_step_ext abi data input i) mem
  let mem := store mem (data.p_hidden_neurons + i)
    (xneuron.add (mem (data.p_hidden_neurons + i))
      (xneuron.mul (xneuron.neg (xneuron.num 1))
        (mem (data.p_input_weights
          + size_add abi (size_mul abi data.num_input data.num_hidden) i))))
  store mem (data.p_hidden_neurons + i)
    (fnnfast_activate_ext exp_neuron (mem (data.p_hidden_neurons + i)))

/-- The statement `output[i] += data->p_hidden_neurons[j] * data->p_hidden_weights[j *
data->num_output + i];` over `xneuron`. -/
def feedforward_output_step_ext {K : Type} [LinearOrderedField K] (abi : Abi)
    (data : fnnfast_data (xneuron K)) (mem : Nat → xneuron K) (i j : Nat)
    (output : Nat → xneuron K) : Nat → xneuron K :=
  store output i
    (xneuron.add (output i)
      (xneuron.mul (mem (data.p_hidden_neurons + j))
        (mem (data.p_hidden_weights + size_add abi (size_mul abi j data.num_output) i))))

/-- Body of the second loop of `fnnfast_feedforward` for output unit `i`, over `xneuron`. -/
def feedforward_output_unit_ext {K : Type} [LinearOrderedField K] (exp_neuron : K → K)
    (abi : Abi) (data : fnnfast_data (xneuron K)) (mem : Nat → xneuron K) (i : Nat)
    (output : Nat → xneuron K) : Nat → xneuron K :=
  let output := store output i (xneuron.num 0)
  let output := for_loop data.num_hidden (feedforward_output_step_ext abi data mem i) output
  let output := store output i
    (xneuron.add (output i)
      (xneuron.mul (xneuron.neg (xneuron.num 1))
        (mem (data.p_hidden_weights
          + size_add abi (size_mul abi data.num_hidden data.num_output) i))))
  store output i (fnnfast_activate_ext exp_neuron (output i))

/-- Translation of `fnnfast_feedforward` over `xneuron`: the block and the `output` buffer
after the call. -/
def fnnfast_feedforward_ext {K : Type} [LinearOrderedField K] (exp_neuron : K → K) (abi : Abi)
    (data : fnnfast_data (xneuron K)) (input output : Nat → xneuron K) :
    fnnfast_data (xneuron K) × (Nat → xneuron K) :=
  let mem := for_loop data.num_hidden (feedforward_hidden_unit_ext exp_neuron abi data input)
    data.mem
  let output := for_loop data.num_output (feedforward_output_unit_ext exp_neuron abi data mem)
    output
  ({ data with mem := mem }, output)

/-- The statement `sq_deviation += pow_neuron(output[j] - output_set[i][j], NEURON_TWO);`
over `xneuron`. -/
def mean_squared_deviation_add_ext {K : Type} [LinearOrderedField K] (pow_neuron : K → K → K)
    (output target : Nat → xneuron K) (j : Nat) (sq_deviation : xneuron K) : xneuron K :=
  xneuron.add sq_deviation (xneuron.pow_two pow_neuron (xneuron.sub (output j) (target j)))

/-- Body of the loop of `fnnfast_mean_squared_deviation` for example `i`, over `xneuron`. -/
def mean_squared_deviation_step_ext {K : Type} [LinearOrderedField K] (exp_neuron : K → K)
    (pow_neuron : K → K → K) (abi : Abi) (input_set output_set : Nat → Nat → xneuron K)
    (i : Nat) (s : fnnfast_data (xneuron K) × (Nat → xneuron K) × xneuron K) :
    fnnfast_data (xneuron K) × (Nat → xneuron K) × xneuron K :=
  let r := fnnfast_feedforward_ext exp_neuron abi s.1 (input_set i) s.2.1
  let sq_deviation := for_loop r.1.num_output
    (mean_squared_deviation_add_ext pow_neuron r.2 (output_set i)) s.2.2
  (r.1, r.2, sq_deviation)

/-- Translation of `fnnfast_mean_squared_deviation` over `xneuron`: the block after the call
and the returned value.  `output` is the buffer returned by `malloc`, with any contents. -/
def fnnfast_mean_squared_deviation_ext {K : Type} [LinearOrderedField K] (exp_neuron : K → K)
    (pow_neuron : K → K → K) (abi : Abi) (data : fnnfast_data (xneuron K))
    (input_set output_set : Nat → Nat → xneuron K) (num : Nat) (output : Nat → xneuron K) :
    fnnfast_data (xneuron K) × xneuron K :=
  let sq_deviation : xneuron K := xneuron.num 0
  let s := for_loop num
    (mean_squared_deviation_step_ext exp_neuron pow_neuron abi input_set output_set)
    (data, output, sq_deviation)
  (s.1, xneuron.div s.2.2 (xneuron.num ((size_mul abi s.1.num_output num : Nat) : K)))

/-- How a call ends: it returns a value, or it stores through the null pointer (undefined
behaviour, nothing is returned to the caller), or its loop has not finished within the
fuel. -/
inductive Outcome (α : Type) where
  | returned : α → Outcome α
  | null_dereference : Outcome α
  | out_of_fuel : Outcome α

/-- Translation of `fnnfast_new`.  `malloc sz` is `none` when the allocator returns the null
pointer and otherwise the allocated block, whose contents are indeterminate.  The local
`temp` is only read by `fnnfast_size`, which reads its three dimensions.  A returned pointer
is `some` block; a returned null pointer would be `none`. -/
def fnnfast_new {K : Type} [Field K] (abi : Abi) (malloc : Nat → Option (fnnfast_data K))
    (fuel : Nat) (num_input num_hidden num_output : Nat) :
    Outcome (Option (fnnfast_data K)) :=
  let temp : fnnfast_data K := header_of K num_input num_hidden num_output
  let sz := fnnfast_size abi temp
  match malloc sz with
  | none => Outcome.null_dereference
  | some data =>
    let data := { data with num_input := num_input }
    let data := { data with num_hidden := num_hidden }
    let data := { data with num_output := num_output }
    let data := fnnfast_fix_pointers abi data
    match fnnfast_zero abi fuel data with
    | none => Outcome.out_of_fuel
    | some data => Outcome.returned (some data)

/-- The block of dimensions `(I, H, O)` with the region pointers of the data model and the
trailing storage `mem`. -/
def laid_out_net {K : Type} (I H O : Nat) (mem : Nat → K) : fnnfast_data K :=
  { num_input := I, num_hidden := H, num_output := O, p_hidden_neurons := 0,
    p_delta_input_hidden := H, p_delta_hidden_output := H + (I + 1) * H,
    p_input_weights := H + (I + 1) * H + (H + 1) * O,
    p_hidden_weights := H + (I + 1) * H + (H + 1) * O + (I + 1) * H, mem := mem }

/-- The block at the moment `fnnfast_backpropogate`, called by `fnnfast_train`, computes the
gradient of hidden unit `h`: after the forward pass, the whole first loop (all output units)
and the first `h` iterations of the second loop. -/
def state_before_hidden_unit {K : Type} [Field K] (exp_neuron : K → K) (abi : Abi)
    (data : fnnfast_data K) (input output : Nat → K) (rate momentum : K)
    (training_output_buf : Nat → K) (h : Nat) : fnnfast_data K :=
  let r := fnnfast_feedforward exp_neuron abi data input training_output_buf
  { r.1 with
    mem := for_loop h
      (backpropogate_hidden_unit abi r.1 input r.2 output rate momentum)
      (for_loop r.1.num_output
        (backpropogate_output_unit abi r.1 r.2 output rate momentum) r.1.mem) }

/-! ## Bounds-checked indexing

A second translation of `fnnfast_feedforward` and `fnnfast_train` in which every indexing
expression `a[k]` first tests `k` against the number of elements of the array `a` (the
region of the data model, or the caller's buffer) and yields `none` when `k` is out of
bounds. -/

/-- Checked read of element `k` of the region of `len` elements that starts at `p`. -/
def load_checked {K : Type} (mem : Nat → K) (p len k : Nat) : Option K :=
  if k < len then some (mem (p + k)) else none

/-- Checked write of element `k` of the region of `len` elements that starts at `p`. -/
def store_checked {K : Type} (mem : Nat → K) (p len k : Nat) (v : K) : Option (Nat → K) :=
  if k < len then some (store mem (p + k) v) else none

/-- Checked read of element `k` of a caller's buffer of `len` elements. -/
def buffer_load {K : Type} (buf : Nat → K) (len k : Nat) : Option K :=
  if k < len then some (buf k) else none

/-- Checked write of element `k` of a caller's buffer of `len` elements. -/
def buffer_store {K : Type} (buf : Nat → K) (len k : Nat) (v : K) : Option (Nat → K) :=
  if k < len then some (store buf k v) else none

/-- The loop `for (size_t i = 0; i < n; ++i) body(i)` with a body that may fail. -/
def for_loop_checked {σ : Type} : Nat → (Nat → σ → Option σ) → σ → Option σ
  | 0, _, s => some s
  | n + 1, body, s => (for_loop_checked n body s).bind (body n)

/-- Inner statement of the first loop of `fnnfast_feedforward`, checked. -/
def feedforward_hidden_step_checked {K : Type} [Field K] (abi : Abi) (data : fnnfast_data K)
    (input : Nat → K) (i j : Nat) (mem : Nat → K) : Option (Nat → K) :=
  (load_checked mem data.p_hidden_neurons data.num_hidden i).bind fun a =>
  (buffer_load input data.num_input j).bind fun x =>
  (load_checked mem data.p_input_weights ((data.num_input + 1) * data.num_hidden)
    (size_add abi (size_mul abi j data.num_hidden) i)).bind fun w =>
  store_checked mem data.p_hidden_neurons data.num_hidden i (a + x * w)

/-- Body of the first loop of `fnnfast_feedforward`, checked. -/
def feedforward_hidden_unit_checked {K : Type} [Field K] (exp_neuron : K → K) (abi : Abi)
    (data : fnnfast_data K) (input : Nat → K) (i : Nat) (mem : Nat → K) : Option (Nat → K) :=
  (store_checked mem data.p_hidden_neurons data.num_hidden i 0).bind fun mem =>
  (for_loop_checked data.num_input (feedforward_hidden_step_checked abi data input i)
    mem).bind fun mem =>
  (load_checked mem data.p_hidden_neurons data.num_hidden i).bind fun a =>
  (load_checked mem data.p_input_weights ((data.num_input + 1) * data.num_hidden)
    (size_add abi (size_mul abi data.num_input data.num_hidden) i)).bind fun w =>
  (store_checked mem data.p_hidden_neurons data.num_hidden i (a + -1 * w)).bind fun mem =>
  (load_checked mem data.p_hidden_neurons data.num_hidden i).bind fun a =>
  store_checked mem data.p_hidden_neurons data.num_hidden i (fnnfast_activate exp_neuron a)

/-- Inner statement of the second loop of `fnnfast_feedforward`, checked. -/
def feedforward_output_step_checked {K : Type} [Field K] (abi : Abi) (data : fnnfast_data K)
    (mem : Nat → K) (i j : Nat) (output : Nat → K) : Option (Nat → K) :=
  (buffer_load output data.num_output i).bind fun a =>
  (load_checked mem data.p_hidden_neurons data.num_hidden j).bind fun h =>
  (load_checked mem data.p_hidden_weights ((data.num_hidden + 1) * data.num_output)
    (size_add abi (size_mul abi j data.num_output) i)).bind fun w =>
  buffer_store output data.num_output i (a + h * w)

/-- Body of the second loop of `fnnfast_feedforward`, checked. -/
def feedforward_output_unit_checked {K : Type} [Field K] (exp_neuron : K → K) (abi : Abi)
    (data : fnnfast_data K) (mem : Nat → K) (i : Nat) (output : Nat → K) :
    Option (Nat → K) :=
  (buffer_store output data.num_output i 0).bind fun output =>
  (for_loop_checked data.num_hidden (feedforward_output_step_checked abi data mem i)
    output).bind fun output =>
  (buffer_load output data.num_output i).bind fun a =>
  (load_checked mem data.p_hidden_weights ((data.num_hidden + 1) * data.num_output)
    (size_add abi (size_mul abi data.num_hidden data.num_output) i)).bind fun w =>
  (buffer_store output data.num_output i (a + -1 * w)).bind fun output =>
  (buffer_load output data.num_output i).bind fun a =>
  buffer_store output data.num_output i (fnnfast_activate exp_neuron a)

/-- Checked `fnnfast_feedforward`. -/
def fnnfast_feedforward_checked {K : Type} [Field K] (exp_neuron : K → K) (abi : Abi)
    (data : fnnfast_data K) (input output : Nat → K) :
    Option (fnnfast_data K × (Nat → K)) :=
  (for_loop_checked data.num_hidden (feedforward_hidden_unit_checked exp_neuron abi data input)
    data.mem).bind fun mem =>
  (for_loop_checked data.num_output (feedforward_output_unit_checked exp_neuron abi data mem)
    output).bind fun output =>
  some ({ data with mem := mem }, output)

/-- Inner statement of the loop of `fnnfast_hidden_error_gradient`, checked. -/
def hidden_error_gradient_step_checked {K : Type} [Field K] (abi : Abi)
    (data : fnnfast_data K) (h : Nat) (target output : Nat → K) (i : Nat) (sum : K) :
    Option K :=
  (load_checked data.mem data.p_hidden_weights ((data.num_hidden + 1) * data.num_output)
    (size_add abi (size_mul abi h data.num_output) i)).bind fun w =>
  (buffer_load target data.num_output i).bind fun t =>
  (buffer_load output data.num_output i).bind fun o =>
  some (sum + w * fnnfast_output_error_gradient t o)

/-- Checked `fnnfast_hidden_error_gradient`. -/
def fnnfast_hidden_error_gradient_checked {K : Type} [Field K] (abi : Abi)
    (data : fnnfast_data K) (h : Nat) (target output : Nat → K) : Option K :=
  (for_loop_checked data.num_output
    (hidden_error_gradient_step_checked abi data h target output) 0).bind fun sum =>
  (load_checked data.mem data.p_hidden_neurons data.num_hidden h).bind fun a =>
  (load_checked data.mem data.p_hidden_neurons data.num_hidden h).bind fun b =>
  some (a * (1 - b) * sum)

/-- The two assignments of `fnnfast_backpropogate` for the weight `k` of a layer whose delta
and weight regions have `len` elements and start at `pd` and `pw`, checked. -/
def weight_step_checked {K : Type} [Field K] (pd pw len k : Nat) (rate momentum s c : K)
    (mem : Nat → K) : Option (Nat → K) :=
  (load_checked mem pd len k).bind fun d =>
  (store_checked mem pd len k (rate * s * c + momentum * d)).bind fun mem =>
  (load_checked mem pw len k).bind fun w =>
  (load_checked mem pd len k).bind fun d =>
  store_checked mem pw len k (w + d)

/-- Inner statement of the first loop of `fnnfast_backpropogate`, checked. -/
def backpropogate_output_step_checked {K : Type} [Field K] (abi : Abi)
    (data : fnnfast_data K) (rate momentum correction : K) (i j : Nat) (mem : Nat → K) :
    Option (Nat → K) :=
  (load_checked mem data.p_hidden_neurons data.num_hidden j).bind fun s =>
  weight_step_checked data.p_delta_hidden_output data.p_hidden_weights
    ((data.num_hidden + 1) * data.num_output)
    (size_add abi (size_mul abi j data.num_output) i) rate momentum s correction mem

/-- Body of the first loop of `fnnfast_backpropogate`, checked. -/
def backpropogate_output_unit_checked {K : Type} [Field K] (abi : Abi) (data : fnnfast_data K)
    (training_output target_output : Nat → K) (rate momentum : K) (i : Nat) (mem : Nat → K) :
    Option (Nat → K) :=
  (buffer_load target_output data.num_output i).bind fun t =>
  (buffer_load training_output data.num_output i).bind fun o =>
  (for_loop_checked data.num_hidden
    (backpropogate_output_step_checked abi data rate momentum
      (fnnfast_output_error_gradient t o) i) mem).bind fun mem =>
  weight_step_checked data.p_delta_hidden_output data.p_hidden_weights
    ((data.num_hidden + 1) * data.num_output)
    (size_add abi (size_mul abi data.num_hidden data.num_output) i) rate momentum (-1)
    (fnnfast_output_error_gradient t o) mem

/-- Inner statement of the second loop of `fnnfast_backpropogate`, checked. -/
def backpropogate_hidden_step_checked {K : Type} [Field K] (abi : Abi)
    (data : fnnfast_data K) (input : Nat → K) (rate momentum correction : K) (i j : Nat)
    (mem : Nat → K) : Option (Nat → K) :=
  (buffer_load input data.num_input j).bind fun s =>
  weight_step_checked data.p_delta_input_hidden data.p_input_weights
    ((data.num_input + 1) * data.num_hidden)
    (size_add abi (size_mul abi j data.num_hidden) i) rate momentum s correction mem

/-- Body of the second loop of `fnnfast_backpropogate`, checked. -/
def backpropogate_hidden_unit_checked {K : Type} [Field K] (abi : Abi) (data : fnnfast_data K)
    (input training_output target_output : Nat → K) (rate momentum : K) (i : Nat)
    (mem : Nat → K) : Option (Nat → K) :=
  (fnnfast_hidden_error_gradient_checked abi { data with mem := mem } i target_output
    training_output).bind fun correction =>
  (for_loop_checked data.num_input
    (backpropogate_hidden_step_checked abi data input rate momentum correction i)
    mem).bind fun mem =>
  weight_step_checked data.p_delta_input_hidden data.p_input_weights
    ((data.num_input + 1) * data.num_hidden)
    (size_add abi (size_mul abi data.num_input data.num_hidden) i) rate momentum (-1)
    correction mem

/-- Checked `fnnfast_backpropogate`. -/
def fnnfast_backpropogate_checked {K : Type} [Field K] (abi : Abi) (data : fnnfast_data K)
    (input training_output target_output : Nat → K) (rate momentum : K) :
    Option (fnnfast_data K) :=
  (for_loop_checked data.num_output
    (backpropogate_output_unit_checked abi data training_output target_output rate momentum)
    data.mem).bind fun mem =>
  (for_loop_checked data.num_hidden
    (backpropogate_hidden_unit_checked abi data input training_output target_output rate
      momentum) mem).bind fun mem =>
  some { data with mem := mem }

/-- Checked `fnnfast_train`. -/
def fnnfast_train_checked {K : Type} [Field K] (exp_neuron : K → K) (abi : Abi)
    (data : fnnfast_data K) (input output : Nat → K) (rate momentum : K)
    (training_output_buf : Nat → K) : Option (fnnfast_data K × (Nat → K)) :=
  (fnnfast_feedforward_checked exp_neuron abi data input training_output_buf).bind fun r =>
  (fnnfast_backpropogate_checked abi r.1 input r.2 output rate momentum).bind fun d =>
  some (d, r.2)

/-- The five regions of the data model as `(start, length)` pairs, in the order
`hidden_activations`, `delta_input_hidden`, `delta_hidden_output`, `input_weights`,
`hidden_weights`. -/
def regions {K : Type} (data : fnnfast_data K) : List (Nat × Nat) :=
  [ (data.p_hidden_neurons, data.num_hidden),
    (data.p_delta_input_hidden, (data.num_input + 1) * data.num_hidden),
    (data.p_delta_hidden_output, (data.num_hidden + 1) * data.num_output),
    (data.p_input_weights, (data.num_input + 1) * data.num_hidden),
    (data.p_hidden_weights, (data.num_hidden + 1) * data.num_output) ]

/-- The block `d` differs from the block `data` at most in the region `hidden_activations`:
same dimensions, same region pointers, same elements of `delta_input_hidden`,
`delta_hidden_output`, `input_weights` and `hidden_weights`, and the same storage at every
element outside `hidden_activations`. -/
def same_except_hidden_activations {K : Type} (data d : fnnfast_data K) : Prop :=
  d.num_input = data.num_input ∧ d.num_hidden = data.num_hidden
    ∧ d.num_output = data.num_output ∧ regions d = regions data
    ∧ (∀ k, k < (data.num_input + 1) * data.num_hidden →
        delta_input_hidden d k = delta_input_hidden data k)
    ∧ (∀ k, k < (data.num_hidden + 1) * data.num_output →
        delta_hidden_output d k = delta_hidden_output data k)
    ∧ (∀ k, k < (data.num_input + 1) * data.num_hidden →
        input_weights d k = input_weights data k)
    ∧ (∀ k, k < (data.num_hidden + 1) * data.num_output →
        hidden_weights d k = hidden_weights data k)
    ∧ (∀ q, ¬ (data.p_hidden_neurons ≤ q ∧ q < data.p_hidden_neurons + data.num_hidden) →
        d.mem q = data.mem q)

/-- The pointers of the header are the ones `fnnfast_fix_pointers` sets. -/
def laid_out {K : Type} (abi : Abi) (data : fnnfast_data K) : Prop :=
  fnnfast_fix_pointers abi data = data

/-- A network: a block whose byte count is representable and whose region pointers were
set by `fnnfast_fix_pointers`. -/
def is_network {K : Type} (abi : Abi) (data : fnnfast_data K) : Prop :=
  laid_out abi data ∧ fits abi data.num_input data.num_hidden data.num_output

/-! ## Layout -/

theorem size_add_eq (abi : Abi) (a b : Nat) (h : a + b < 2 ^ abi.size_bits) :
    size_add abi a b = a + b := Nat.mod_eq_of_lt h

theorem size_mul_eq (abi : Abi) (a b : Nat) (h : a * b < 2 ^ abi.size_bits) :
    size_mul abi a b = a * b := Nat.mod_eq_of_lt h

theorem size_add_modEq (abi : Abi) {a b a' b' : Nat}
    (ha : a ≡ a' [MOD 2 ^ abi.size_bits]) (hb : b ≡ b' [MOD 2 ^ abi.size_bits]) :
    size_add abi a b ≡ a' + b' [MOD 2 ^ abi.size_bits] :=
  (Nat.mod_modEq _ _).trans (ha.add hb)

theorem size_mul_modEq (abi : Abi) {a b a' b' : Nat}
    (ha : a ≡ a' [MOD 2 ^ abi.size_bits]) (hb : b ≡ b' [MOD 2 ^ abi.size_bits]) :
    size_mul abi a b ≡ a' * b' [MOD 2 ^ abi.size_bits] :=
  (Nat.mod_modEq _ _).trans (ha.mul hb)

theorem fnnfast_size_modEq {K : Type} (abi : Abi) (data : fnnfast_data K) :
    fnnfast_size abi data
      ≡ alloc_bytes abi data.num_input data.num_hidden data.num_output
        [MOD 2 ^ abi.size_bits] := by
  have r := fun (a : Nat) => @Nat.ModEq.refl (2 ^ abi.size_bits) a
  have hIH := size_mul_modEq abi (size_add_modEq abi (r data.num_input) (r 1)) (r data.num_hidden)
  have hHO := size_mul_modEq abi (size_add_modEq abi (r data.num_hidden) (r 1)) (r data.num_output)
  have h1 := size_add_modEq abi (r 0) (r data.num_hidden)
  have h2 := size_add_modEq abi h1 hIH
  have h3 := size_add_modEq abi h2 hHO
  have h4 := size_add_modEq abi h3 hIH
  have h5 := size_add_modEq abi h4 hHO
  have h6 := size_mul_modEq abi h5 (r abi.sizeof_neuron)
  have h7 := size_add_modEq abi h6 (r abi.sizeof_fnnfast_data)
  have e : alloc_bytes abi data.num_input data.num_hidden data.num_output
      = (0 + data.num_hidden + (data.num_input + 1) * data.num_hidden
          + (data.num_hidden + 1) * data.num_output + (data.num_input + 1) * data.num_hidden
          + (data.num_hidden + 1) * data.num_output) * abi.sizeof_neuron
        + abi.sizeof_fnnfast_data := by
    simp only [alloc_bytes, region_elems]; ring
  rw [e]
  exact h7

theorem fnnfast_size_lt {K : Type} (abi : Abi) (data : fnnfast_data K) :
    fnnfast_size abi data < 2 ^ abi.size_bits :=
  Nat.mod_lt _ (Nat.two_pow_pos _)

theorem fnnfast_size_mod {K : Type} (abi : Abi) (data : fnnfast_data K) :
    fnnfast_size abi data
      = alloc_bytes abi data.num_input data.num_hidden data.num_output % 2 ^ abi.size_bits := by
  have h := fnnfast_size_modEq abi data
  unfold Nat.ModEq at h
  rw [← h, Nat.mod_eq_of_lt (fnnfast_size_lt abi data)]

/-- Claim C5. For every target and all dimensions `(I, H, O)` (in particular all with
`I, H, O ≥ 1`), `fnnfast_size` on a header holding `(I, H, O)` returns
`sizeof(struct fnnfast_data) + (H + 2*(I+1)*H + 2*(H+1)*O) * sizeof(neuron)` computed in
`size_t` arithmetic, that is, reduced modulo `2 ^ size_bits`; whenever that byte count is
below `2 ^ size_bits` the returned value is the byte count itself. -/
theorem fnnfast_size_spec {K : Type} (abi : Abi) (data : fnnfast_data K) :
    fnnfast_size abi data
        = (abi.sizeof_fnnfast_data
            + (data.num_hidden + 2 * (data.num_input + 1) * data.num_hidden
                + 2 * (data.num_hidden + 1) * data.num_output) * abi.sizeof_neuron)
          % 2 ^ abi.size_bits
      ∧ (abi.sizeof_fnnfast_data
            + (data.num_hidden + 2 * (data.num_input + 1) * data.num_hidden
                + 2 * (data.num_hidden + 1) * data.num_output) * abi.sizeof_neuron
          < 2 ^ abi.size_bits →
        fnnfast_size abi data
          = abi.sizeof_fnnfast_data
            + (data.num_hidden + 2 * (data.num_input + 1) * data.num_hidden
                + 2 * (data.num_hidden + 1) * data.num_output) * abi.sizeof_neuron) := by
  have h := fnnfast_size_mod abi data
  simp only [alloc_bytes, region_elems] at h
  refine ⟨h, fun hlt => ?_⟩
  rw [h, Nat.mod_eq_of_lt hlt]

theorem size_mul_succ_eq (abi : Abi) (a b : Nat) (h : (a + 1) * b < 2 ^ abi.size_bits) :
    size_mul abi (size_add abi a 1) b = (a + 1) * b := by
  have r := fun (a : Nat) => @Nat.ModEq.refl (2 ^ abi.size_bits) a
  have e := size_mul_modEq abi (size_add_modEq abi (r a) (r 1)) (r b)
  unfold Nat.ModEq at e
  rw [Nat.mod_eq_of_lt h] at e
  rw [← e]
  exact (Nat.mod_eq_of_lt (Nat.mod_lt _ (Nat.two_pow_pos _))).symm

theorem fits_elems {abi : Abi} {I H O : Nat} (h : fits abi I H O) :
    region_elems I H O < 2 ^ abi.size_bits := by
  obtain ⟨hpos, hlt⟩ := h
  have h1 : region_elems I H O ≤ region_elems I H O * abi.sizeof_neuron :=
    Nat.le_mul_of_pos_right _ hpos
  unfold alloc_bytes at hlt
  omega

theorem fits_input_layer {abi : Abi} {I H O : Nat} (h : fits abi I H O) :
    (I + 1) * H < 2 ^ abi.size_bits := by
  have h1 := fits_elems h
  unfold region_elems at h1
  have h2 : 2 * (I + 1) * H = 2 * ((I + 1) * H) := Nat.mul_assoc _ _ _
  omega

theorem fits_output_layer {abi : Abi} {I H O : Nat} (h : fits abi I H O) :
    (H + 1) * O < 2 ^ abi.size_bits := by
  have h1 := fits_elems h
  unfold region_elems at h1
  have h2 : 2 * (H + 1) * O = 2 * ((H + 1) * O) := Nat.mul_assoc _ _ _
  omega

/-- The pointers set by `fnnfast_fix_pointers` when the block is representable. -/
theorem fix_pointers_offsets {K : Type} (abi : Abi) (data : fnnfast_data K)
    (h : fits abi data.num_input data.num_hidden data.num_output) :
    fnnfast_fix_pointers abi data =
      { data with
        p_hidden_neurons := 0
        p_delta_input_hidden := data.num_hidden
        p_delta_hidden_output := data.num_hidden + (data.num_input + 1) * data.num_hidden
        p_input_weights := data.num_hidden + (data.num_input + 1) * data.num_hidden
          + (data.num_hidden + 1) * data.num_output
        p_hidden_weights := data.num_hidden + (data.num_input + 1) * data.num_hidden
          + (data.num_hidden + 1) * data.num_output + (data.num_input + 1) * data.num_hidden } := by
  simp only [fnnfast_fix_pointers, size_mul_succ_eq abi _ _ (fits_input_layer h),
    size_mul_succ_eq abi _ _ (fits_output_layer h), Nat.zero_add]

/-- The pointer fields of a network. -/
theorem is_network_pointers {K : Type} {abi : Abi} {data : fnnfast_data K}
    (h : is_network abi data) :
    data.p_hidden_neurons = 0 ∧ data.p_delta_input_hidden = data.num_hidden
      ∧ data.p_delta_hidden_output = data.num_hidden + (data.num_input + 1) * data.num_hidden
      ∧ data.p_input_weights = data.num_hidden + (data.num_input + 1) * data.num_hidden
          + (data.num_hidden + 1) * data.num_output
      ∧ data.p_hidden_weights = data.num_hidden + (data.num_input + 1) * data.num_hidden
          + (data.num_hidden + 1) * data.num_output + (data.num_input + 1) * data.num_hidden := by
  have e := fix_pointers_offsets abi data h.2
  have l : fnnfast_fix_pointers abi data = data := h.1
  rw [l] at e
  refine ⟨?_, ?_, ?_, ?_, ?_⟩
  · exact congrArg fnnfast_data.p_hidden_neurons e
  · exact congrArg fnnfast_data.p_delta_input_hidden e
  · exact congrArg fnnfast_data.p_delta_hidden_output e
  · exact congrArg fnnfast_data.p_input_weights e
  · exact congrArg fnnfast_data.p_hidden_weights e

/-- Claim C6, as amended. For all dimensions `(I, H, O)` whose block is representable
(`sizeof(struct fnnfast_data) + (H + 2*(I+1)*H + 2*(H+1)*O) * sizeof(neuron) < 2 ^ size_bits`),
`fnnfast_fix_pointers` keeps the dimensions and sets the five region starts, in elements
after the header, to `0`, `H`, `H+(I+1)*H`, `H+(I+1)*H+(H+1)*O` and `H+2*(I+1)*H+(H+1)*O`;
the five regions with their lengths `H`, `(I+1)*H`, `(H+1)*O`, `(I+1)*H`, `(H+1)*O` are
consecutive in that order and pairwise disjoint, and the byte offset of the end of the last
region is the value returned by `fnnfast_size`. -/
theorem fix_pointers_layout {K : Type} (abi : Abi) (data : fnnfast_data K)
    (h : fits abi data.num_input data.num_hidden data.num_output) :
    (fnnfast_fix_pointers abi data).num_input = data.num_input
      ∧ (fnnfast_fix_pointers abi data).num_hidden = data.num_hidden
      ∧ (fnnfast_fix_pointers abi data).num_output = data.num_output
      ∧ (fnnfast_fix_pointers abi data).p_hidden_neurons = 0
      ∧ (fnnfast_fix_pointers abi data).p_delta_input_hidden = data.num_hidden
      ∧ (fnnfast_fix_pointers abi data).p_delta_hidden_output
          = data.num_hidden + (data.num_input + 1) * data.num_hidden
      ∧ (fnnfast_fix_pointers abi data).p_input_weights
          = data.num_hidden + (data.num_input + 1) * data.num_hidden
            + (data.num_hidden + 1) * data.num_output
      ∧ (fnnfast_fix_pointers abi data).p_hidden_weights
          = data.num_hidden + 2 * (data.num_input + 1) * data.num_hidden
            + (data.num_hidden + 1) * data.num_output
      ∧ List.Chain' (fun r s => s.1 = r.1 + r.2) (regions (fnnfast_fix_pointers abi data))
      ∧ List.Pairwise (fun r s => disjoint_range r.1 r.2 s.1 s.2)
          (regions (fnnfast_fix_pointers abi data))
      ∧ byte_offset abi ((fnnfast_fix_pointers abi data).p_hidden_weights
            + (data.num_hidden + 1) * data.num_output)
          = fnnfast_size abi (fnnfast_fix_pointers abi data) := by
  have hsz : fnnfast_size abi (fnnfast_fix_pointers abi data)
      = alloc_bytes abi data.num_input data.num_hidden data.num_output := by
    rw [fnnfast_size_mod, fix_pointers_offsets abi data h]
    exact Nat.mod_eq_of_lt h.2
  rw [hsz, fix_pointers_offsets abi data h]
  simp only [regions, alloc_bytes, region_elems, byte_offset, disjoint_range,
    List.chain'_cons, List.chain'_singleton, List.pairwise_cons, List.mem_cons,
    List.mem_singleton, List.not_mem_nil, forall_eq_or_imp, forall_eq, List.Pairwise.nil,
    Nat.zero_add, and_true, true_and, false_imp_iff, implies_true]
  have e1 : 2 * (data.num_input + 1) * data.num_hidden
      = 2 * ((data.num_input + 1) * data.num_hidden) := Nat.mul_assoc _ _ _
  have e2 : 2 * (data.num_hidden + 1) * data.num_output
      = 2 * ((data.num_hidden + 1) * data.num_output) := Nat.mul_assoc _ _ _
  rw [e1, e2]
  generalize (data.num_input + 1) * data.num_hidden = a
  generalize (data.num_hidden + 1) * data.num_output = b
  refine ⟨by omega, ?_, ?_⟩
  · refine ⟨⟨?_, ?_, ?_, ?_⟩, ⟨?_, ?_, ?_⟩, ⟨?_, ?_⟩, ?_⟩ <;> intro x <;> omega
  · congr 1
    ring

/-- Witness for claim C6. The layout of the `(2, 2, 1)` network on `x86_64`. -/
theorem fix_pointers_layout_witness :
    (fnnfast_fix_pointers x86_64 (header_of ℚ 2 2 1)).p_hidden_weights = 17
      ∧ byte_offset x86_64 (17 + 3) = fnnfast_size x86_64 (fnnfast_fix_pointers x86_64 (header_of ℚ 2 2 1)) := by
  have h := fix_pointers_layout x86_64 (header_of ℚ 2 2 1) (by decide)
  exact ⟨h.2.2.2.2.2.2.2.1, h.2.2.2.2.2.2.2.2.2.2⟩

/-- Counterexample to claim C6 as stated. On `x86_64`, for the dimensions `(2^63 - 1, 2, 1)` the product
`(num_input + 1) * num_hidden` wraps to `0`: `fnnfast_fix_pointers` puts
`delta_hidden_output` at element `2`, not at `H + (I+1)*H`, and the range of
`delta_input_hidden` with its length `(I+1)*H` is not disjoint from `delta_hidden_output`. -/
theorem fix_pointers_layout_overflow :
    (fnnfast_fix_pointers x86_64 (header_of ℚ (2 ^ 63 - 1) 2 1)).p_delta_hidden_output = 2
      ∧ (fnnfast_fix_pointers x86_64 (header_of ℚ (2 ^ 63 - 1) 2 1)).p_delta_hidden_output
          ≠ 2 + (2 ^ 63 - 1 + 1) * 2
      ∧ ¬ disjoint_range
          (fnnfast_fix_pointers x86_64 (header_of ℚ (2 ^ 63 - 1) 2 1)).p_delta_input_hidden
          ((2 ^ 63 - 1 + 1) * 2)
          (fnnfast_fix_pointers x86_64 (header_of ℚ (2 ^ 63 - 1) 2 1)).p_delta_hidden_output
          ((2 + 1) * 1) := by
  have e : (fnnfast_fix_pointers x86_64 (header_of ℚ (2 ^ 63 - 1) 2 1)).p_delta_hidden_output = 2 := by
    decide
  have e' : (fnnfast_fix_pointers x86_64 (header_of ℚ (2 ^ 63 - 1) 2 1)).p_delta_input_hidden = 2 := by
    decide
  refine ⟨e, ?_, ?_⟩
  · rw [e]; decide
  · rw [e, e']
    intro hd
    exact hd 2 (by decide)

/-- Witness for claim C5. The `(2, 2, 1)` network on `x86_64` occupies `224` bytes. -/
theorem fnnfast_size_spec_witness :
    fnnfast_size x86_64 (header_of ℚ 2 2 1) = 64 + (2 + 2 * (2 + 1) * 2 + 2 * (2 + 1) * 1) * 8 :=
  (fnnfast_size_spec x86_64 (header_of ℚ 2 2 1)).2 (by decide)

/-! ## Stores and loops -/

theorem store_same {K : Type} (mem : Nat → K) (p : Nat) (v : K) : store mem p v p = v := by
  simp [store]

theorem store_other {K : Type} (mem : Nat → K) (p q : Nat) (v : K) (h : q ≠ p) :
    store mem p v q = mem q := by
  simp [store, h]

theorem store_store {K : Type} (mem : Nat → K) (p : Nat) (v w : K) :
    store (store mem p v) p w = store mem p w := by
  funext q
  by_cases h : q = p <;> simp [store, h]

theorem for_loop_congr {σ : Type} (n : Nat) (f g : Nat → σ → σ) (s : σ)
    (h : ∀ j, j < n → ∀ t, f j t = g j t) : for_loop n f s = for_loop n g s := by
  induction n with
  | zero => rfl
  | succ n ih =>
    simp only [for_loop]
    rw [ih (fun j hj => h j (Nat.lt_succ_of_lt hj)), h n (Nat.lt_succ_self n)]

/-- A loop that adds a term to the element at `a` in every iteration, the terms not
depending on that element. -/
theorem for_loop_acc {K : Type} [Field K] (a : Nat) (t : Nat → (Nat → K) → K) (n : Nat)
    (mem : Nat → K) (ht : ∀ j, j < n → ∀ v, t j (store mem a v) = t j mem) :
    for_loop n (fun j m => store m a (m a + t j m)) mem
      = store mem a (mem a + ∑ j in Finset.range n, t j mem) := by
  induction n with
  | zero =>
    funext q
    by_cases h : q = a <;> simp [for_loop, store, h]
  | succ n ih =>
    simp only [for_loop]
    rw [ih (fun j hj => ht j (Nat.lt_succ_of_lt hj)), store_store, store_same,
      ht n (Nat.lt_succ_self n), Finset.sum_range_succ, add_assoc]

/-- A loop that adds a term to a local accumulator in every iteration. -/
theorem for_loop_sum {K : Type} [Field K] (t : Nat → K) (n : Nat) (s : K) :
    for_loop n (fun j acc => acc + t j) s = s + ∑ j in Finset.range n, t j := by
  induction n with
  | zero => simp [for_loop]
  | succ n ih => simp only [for_loop, ih, Finset.sum_range_succ, add_assoc]

theorem idx_lt {M N j i : Nat} (hj : j ≤ M) (hi : i < N) : j * N + i < (M + 1) * N := by
  have h1 : j * N ≤ M * N := Nat.mul_le_mul_right N hj
  have h2 : (M + 1) * N = M * N + N := Nat.succ_mul M N
  omega

theorem idx_wrap_eq (abi : Abi) {M N j i : Nat} (h : (M + 1) * N < 2 ^ abi.size_bits)
    (hj : j ≤ M) (hi : i < N) : size_add abi (size_mul abi j N) i = j * N + i := by
  have h1 := idx_lt hj hi
  have h2 : j * N < 2 ^ abi.size_bits := by omega
  rw [size_mul_eq abi _ _ h2, size_add_eq abi _ _ (by omega)]

theorem idx_inj {N j i j' i' : Nat} (hi : i < N) (hi' : i' < N)
    (h : j * N + i = j' * N + i') : j = j' ∧ i = i' := by
  have hN : 0 < N := by omega
  have h1 : (j * N + i) / N = j := by
    rw [Nat.add_comm, Nat.add_mul_div_right _ _ hN, Nat.div_eq_of_lt hi, Nat.zero_add]
  have h2 : (j' * N + i') / N = j' := by
    rw [Nat.add_comm, Nat.add_mul_div_right _ _ hN, Nat.div_eq_of_lt hi', Nat.zero_add]
  have hjj : j = j' := by rw [← h1, ← h2, h]
  subst hjj
  exact ⟨rfl, by omega⟩

/-! ## Forward engine -/

/-- Effect of one iteration of the first loop of `fnnfast_feedforward`. -/
theorem feedforward_hidden_unit_eq {K : Type} [Field K] (exp_neuron : K → K) {abi : Abi}
    {data : fnnfast_data K} (hnet : is_network abi data) (input : Nat → K) {i : Nat}
    (hi : i < data.num_hidden) (mem : Nat → K) :
    feedforward_hidden_unit exp_neuron abi data input i mem
      = store mem (data.p_hidden_neurons + i)
          (1 / (1 + exp_neuron (-(net_input data.num_input data.num_hidden input
            (fun k => mem (data.p_input_weights + k)) i)))) := by
  obtain ⟨hP, -, -, hW, -⟩ := is_network_pointers hnet
  have hfit := fits_input_layer hnet.2
  have hne : ∀ j, j ≤ data.num_input →
      data.p_input_weights + (j * data.num_hidden + i) ≠ data.p_hidden_neurons + i := by
    intro j _
    rw [hP, hW]
    omega
  unfold feedforward_hidden_unit
  simp only
  rw [for_loop_congr data.num_input _
    (fun j m => store m (data.p_hidden_neurons + i) (m (data.p_hidden_neurons + i)
      + input j * m (data.p_input_weights + (j * data.num_hidden + i))))
    _ (fun j hj t => by rw [idx_wrap_eq abi hfit (Nat.le_of_lt hj) hi])]
  rw [for_loop_acc (data.p_hidden_neurons + i)
    (fun j m => input j * m (data.p_input_weights + (j * data.num_hidden + i)))
    _ _ (fun j hj v => by
      simp only
      rw [store_other _ _ _ _ (hne j (Nat.le_of_lt hj))])]
  rw [idx_wrap_eq abi hfit (Nat.le_refl _) hi]
  simp only [store_store, store_same]
  rw [store_other _ _ _ _ (hne _ (Nat.le_refl _))]
  have key : ∀ S w : K, 0 + S + -1 * w = S - w := fun S w => by ring
  unfold net_input fnnfast_activate
  have e : ∀ j, j ∈ Finset.range data.num_input →
      input j * store mem (data.p_hidden_neurons + i) 0
          (data.p_input_weights + (j * data.num_hidden + i))
        = input j * mem (data.p_input_weights + (j * data.num_hidden + i)) := by
    intro j hj
    rw [store_other _ _ _ _ (hne j (Nat.le_of_lt (Finset.mem_range.mp hj)))]
  rw [Finset.sum_congr rfl e, key]

theorem net_input_congr {K : Type} [Field K] (M N : Nat) (src src' w w' : Nat → K) {i : Nat}
    (hi : i < N) (hs : ∀ j, j < M → src j = src' j) (hw : ∀ k, k < (M + 1) * N → w k = w' k) :
    net_input M N src w i = net_input M N src' w' i := by
  unfold net_input
  rw [hw _ (idx_lt (Nat.le_refl M) hi)]
  congr 1
  apply Finset.sum_congr rfl
  intro j hj
  have hj' := Finset.mem_range.mp hj
  rw [hs j hj', hw _ (idx_lt (Nat.le_of_lt hj') hi)]

/-- Effect of the first `n` iterations of the first loop of `fnnfast_feedforward`. -/
theorem feedforward_hidden_loop {K : Type} [Field K] (exp_neuron : K → K) {abi : Abi}
    {data : fnnfast_data K} (hnet : is_network abi data) (input mem : Nat → K) (n : Nat)
    (hn : n ≤ data.num_hidden) :
    (∀ i, i < n →
        for_loop n (feedforward_hidden_unit exp_neuron abi data input) mem
            (data.p_hidden_neurons + i)
          = 1 / (1 + exp_neuron (-(net_input data.num_input data.num_hidden input
              (fun k => mem (data.p_input_weights + k)) i))))
      ∧ (∀ q, ¬ (data.p_hidden_neurons ≤ q ∧ q < data.p_hidden_neurons + n) →
          for_loop n (feedforward_hidden_unit exp_neuron abi data input) mem q = mem q) := by
  obtain ⟨hP, -, -, hW, -⟩ := is_network_pointers hnet
  induction n with
  | zero => exact ⟨fun i hi => absurd hi (Nat.not_lt_zero i), fun q _ => rfl⟩
  | succ n ih =>
    obtain ⟨ih1, ih2⟩ := ih (Nat.le_of_succ_le hn)
    have hlt : n < data.num_hidden := hn
    have hstep : for_loop (n + 1) (feedforward_hidden_unit exp_neuron abi data input) mem
        = store (for_loop n (feedforward_hidden_unit exp_neuron abi data input) mem)
            (data.p_hidden_neurons + n)
            (1 / (1 + exp_neuron (-(net_input data.num_input data.num_hidden input
              (fun k => mem (data.p_input_weights + k)) n)))) := by
      simp only [for_loop]
      rw [feedforward_hidden_unit_eq exp_neuron hnet input hlt]
      rw [net_input_congr data.num_input data.num_hidden input input
        (fun k => for_loop n (feedforward_hidden_unit exp_neuron abi data input) mem
          (data.p_input_weights + k))
        (fun k => mem (data.p_input_weights + k)) hlt (fun _ _ => rfl)
        (fun k _ => ih2 _ (by rw [hP, hW]; omega))]
    rw [hstep]
    constructor
    · intro i hi
      by_cases hin : i = n
      · subst hin
        rw [store_same]
      · rw [store_other _ _ _ _ (by omega)]
        exact ih1 i (by omega)
    · intro q hq
      rw [store_other _ _ _ _ (by omega)]
      exact ih2 q (by omega)

/-- Effect of one iteration of the second loop of `fnnfast_feedforward`. -/
theorem feedforward_output_unit_eq {K : Type} [Field K] (exp_neuron : K → K) {abi : Abi}
    {data : fnnfast_data K} (hnet : is_network abi data) (mem : Nat → K) {i : Nat}
    (hi : i < data.num_output) (output : Nat → K) :
    feedforward_output_unit exp_neuron abi data mem i output
      = store output i
          (1 / (1 + exp_neuron (-(net_input data.num_hidden data.num_output
            (fun j => mem (data.p_hidden_neurons + j))
            (fun k => mem (data.p_hidden_weights + k)) i)))) := by
  have hfit := fits_output_layer hnet.2
  unfold feedforward_output_unit
  simp only
  rw [for_loop_congr data.num_hidden _
    (fun j o => store o i (o i + mem (data.p_hidden_neurons + j)
      * mem (data.p_hidden_weights + (j * data.num_output + i))))
    _ (fun j hj t => by rw [idx_wrap_eq abi hfit (Nat.le_of_lt hj) hi])]
  rw [for_loop_acc i
    (fun j _ => mem (data.p_hidden_neurons + j)
      * mem (data.p_hidden_weights + (j * data.num_output + i)))
    _ _ (fun j hj v => rfl)]
  rw [idx_wrap_eq abi hfit (Nat.le_refl _) hi]
  simp only [store_store, store_same]
  have key : ∀ S w : K, 0 + S + -1 * w = S - w := fun S w => by ring
  unfold net_input fnnfast_activate
  rw [key]

/-- Effect of the first `n` iterations of the second loop of `fnnfast_feedforward`. -/
theorem feedforward_output_loop {K : Type} [Field K] (exp_neuron : K → K) {abi : Abi}
    {data : fnnfast_data K} (hnet : is_network abi data) (mem output : Nat → K) (n : Nat)
    (hn : n ≤ data.num_output) (q : Nat) :
    for_loop n (feedforward_output_unit exp_neuron abi data mem) output q
      = if q < n then
          1 / (1 + exp_neuron (-(net_input data.num_hidden data.num_output
            (fun j => mem (data.p_hidden_neurons + j))
            (fun k => mem (data.p_hidden_weights + k)) q)))
        else output q := by
  induction n with
  | zero => simp [for_loop]
  | succ n ih =>
    simp only [for_loop]
    rw [feedforward_output_unit_eq exp_neuron hnet mem (show n < data.num_output from hn)]
    by_cases hq : q = n
    · subst hq
      rw [store_same, if_pos (Nat.lt_succ_self q)]
    · rw [store_other _ _ _ _ hq, ih (Nat.le_of_succ_le hn)]
      by_cases hlt : q < n
      · rw [if_pos hlt, if_pos (Nat.lt_succ_of_lt hlt)]
      · rw [if_neg hlt, if_neg (by omega)]

/-- Effect of `fnnfast_feedforward` on the block and on the `output` buffer. -/
theorem feedforward_result {K : Type} [Field K] (exp_neuron : K → K) {abi : Abi}
    {data : fnnfast_data K} (hnet : is_network abi data) (input output : Nat → K) :
    (∀ i, i < data.num_hidden →
        (fnnfast_feedforward exp_neuron abi data input output).1.mem (data.p_hidden_neurons + i)
          = 1 / (1 + exp_neuron (-(net_input data.num_input data.num_hidden input
              (fun k => data.mem (data.p_input_weights + k)) i))))
      ∧ (∀ q, ¬ (data.p_hidden_neurons ≤ q ∧ q < data.p_hidden_neurons + data.num_hidden) →
          (fnnfast_feedforward exp_neuron abi data input output).1.mem q = data.mem q)
      ∧ (∀ q, (fnnfast_feedforward exp_neuron abi data input output).2 q
          = if q < data.num_output then
              1 / (1 + exp_neuron (-(net_input data.num_hidden data.num_output
                (fun j => (fnnfast_feedforward exp_neuron abi data input output).1.mem
                  (data.p_hidden_neurons + j))
                (fun k => data.mem (data.p_hidden_weights + k)) q)))
            else output q) := by
  obtain ⟨hP, -, -, -, hHW⟩ := is_network_pointers hnet
  obtain ⟨h1, h2⟩ := feedforward_hidden_loop exp_neuron hnet input data.mem data.num_hidden
    (Nat.le_refl _)
  refine ⟨h1, h2, fun q => ?_⟩
  have h3 := feedforward_output_loop exp_neuron hnet
    (for_loop data.num_hidden (feedforward_hidden_unit exp_neuron abi data input) data.mem)
    output data.num_output (Nat.le_refl _) q
  simp only [fnnfast_feedforward]
  rw [h3]
  by_cases hq : q < data.num_output
  · rw [if_pos hq, if_pos hq]
    rw [net_input_congr data.num_hidden data.num_output _
      (fun j => for_loop data.num_hidden (feedforward_hidden_unit exp_neuron abi data input)
        data.mem (data.p_hidden_neurons + j))
      _ (fun k => data.mem (data.p_hidden_weights + k)) hq (fun _ _ => rfl)
      (fun k _ => h2 _ (by rw [hP, hHW]; omega))]
  · rw [if_neg hq, if_neg hq]

theorem sample_net_is_network (K : Type) [Field K] : is_network x86_64 (sample_net K) :=
  ⟨rfl, (by decide : fits x86_64 2 2 1)⟩

/-- Claim C1. For every network with dimensions `(I, H, O)` and every input, after
`fnnfast_feedforward` the stored hidden activation of each hidden unit `i < H` equals
`1 / (1 + exp(-x))` with `x = (sum over j < I of input[j] * input_weights[j*H + i])
- input_weights[I*H + i]`, the weights being those held before the call. -/
theorem feedforward_hidden_activations {K : Type} [Field K] (exp_neuron : K → K) (abi : Abi)
    (data : fnnfast_data K) (hnet : is_network abi data) (input output : Nat → K) (i : Nat)
    (hi : i < data.num_hidden) :
    hidden_activations (fnnfast_feedforward exp_neuron abi data input output).1 i
      = 1 / (1 + exp_neuron (-((∑ j in Finset.range data.num_input,
            input j * input_weights data (j * data.num_hidden + i))
          - input_weights data (data.num_input * data.num_hidden + i)))) :=
  (feedforward_result exp_neuron hnet input output).1 i hi

/-- Witness for claim C1. Hidden unit `0` of the sample network on the input `[1, 0]`, with the
real exponential. -/
theorem feedforward_hidden_activations_witness :
    is_network x86_64 (sample_net ℝ) ∧ 0 < (sample_net ℝ).num_hidden
      ∧ hidden_activations
          (fnnfast_feedforward Real.exp x86_64 (sample_net ℝ) (sample_input ℝ) (fun _ => 0)).1 0
        = 1 / (1 + Real.exp (-((∑ j in Finset.range (sample_net ℝ).num_input,
              sample_input ℝ j * input_weights (sample_net ℝ) (j * (sample_net ℝ).num_hidden + 0))
            - input_weights (sample_net ℝ)
                ((sample_net ℝ).num_input * (sample_net ℝ).num_hidden + 0)))) :=
  ⟨sample_net_is_network ℝ, by decide,
    feedforward_hidden_activations Real.exp x86_64 (sample_net ℝ) (sample_net_is_network ℝ)
      (sample_input ℝ) (fun _ => 0) 0 (by decide)⟩

/-- Claim C2. For every network with dimensions `(I, H, O)` and every input,
`fnnfast_feedforward` writes into `output[i]`, for each `i < O`, the value
`1 / (1 + exp(-x))` with `x = (sum over j < H of hidden_activations[j] * hidden_weights[j*O + i])
- hidden_weights[H*O + i]`, where `hidden_activations` are the values stored by the hidden
stage of the same call. -/
theorem feedforward_output {K : Type} [Field K] (exp_neuron : K → K) (abi : Abi)
    (data : fnnfast_data K) (hnet : is_network abi data) (input output : Nat → K) (i : Nat)
    (hi : i < data.num_output) :
    (fnnfast_feedforward exp_neuron abi data input output).2 i
      = 1 / (1 + exp_neuron (-((∑ j in Finset.range data.num_hidden,
            hidden_activations (fnnfast_feedforward exp_neuron abi data input output).1 j
              * hidden_weights data (j * data.num_output + i))
          - hidden_weights data (data.num_hidden * data.num_output + i)))) := by
  have h := (feedforward_result exp_neuron hnet input output).2.2 i
  rw [if_pos hi] at h
  exact h

/-- Witness for claim C2. Output unit `0` of the sample network on the input `[1, 0]`, with the
real exponential. -/
theorem feedforward_output_witness :
    is_network x86_64 (sample_net ℝ) ∧ 0 < (sample_net ℝ).num_output
      ∧ (fnnfast_feedforward Real.exp x86_64 (sample_net ℝ) (sample_input ℝ) (fun _ => 0)).2 0
        = 1 / (1 + Real.exp (-((∑ j in Finset.range (sample_net ℝ).num_hidden,
              hidden_activations
                  (fnnfast_feedforward Real.exp x86_64 (sample_net ℝ) (sample_input ℝ)
                    (fun _ => 0)).1 j
                * hidden_weights (sample_net ℝ) (j * (sample_net ℝ).num_output + 0))
            - hidden_weights (sample_net ℝ)
                ((sample_net ℝ).num_hidden * (sample_net ℝ).num_output + 0)))) :=
  ⟨sample_net_is_network ℝ, by decide,
    feedforward_output Real.exp x86_64 (sample_net ℝ) (sample_net_is_network ℝ)
      (sample_input ℝ) (fun _ => 0) 0 (by decide)⟩

/-! ## Trainer -/

theorem idx_ne {N j i j' i' : Nat} (hi : i < N) (hi' : i' < N) (h : j ≠ j' ∨ i ≠ i') :
    j * N + i ≠ j' * N + i' := by
  intro e
  obtain ⟨h1, h2⟩ := idx_inj hi hi' e
  rcases h with h | h
  · exact h h1
  · exact h h2

theorem weight_step_delta {K : Type} [Field K] (pd pw k : Nat) (rate momentum s c : K)
    (mem : Nat → K) (h : pd + k ≠ pw + k) :
    weight_step pd pw k rate momentum s c mem (pd + k)
      = rate * s * c + momentum * mem (pd + k) := by
  simp only [weight_step]
  rw [store_other _ _ _ _ h, store_same]

theorem weight_step_weight {K : Type} [Field K] (pd pw k : Nat) (rate momentum s c : K)
    (mem : Nat → K) (h : pd + k ≠ pw + k) :
    weight_step pd pw k rate momentum s c mem (pw + k)
      = mem (pw + k) + (rate * s * c + momentum * mem (pd + k)) := by
  simp only [weight_step]
  rw [store_same, store_other _ _ _ _ (Ne.symm h), store_same]

theorem weight_step_other {K : Type} [Field K] (pd pw k : Nat) (rate momentum s c : K)
    (mem : Nat → K) (q : Nat) (h1 : q ≠ pd + k) (h2 : q ≠ pw + k) :
    weight_step pd pw k rate momentum s c mem q = mem q := by
  simp only [weight_step]
  rw [store_other _ _ _ _ h2, store_other _ _ _ _ h1]

/-- Effect of the first `n` iterations of the inner loop of a layer update. -/
theorem layer_inner {K : Type} [Field K] (pd pw M N : Nat) (rate momentum c : K)
    (src : Nat → (Nat → K) → K) (i : Nat) (hi : i < N) (hsep : pd + (M + 1) * N ≤ pw)
    (hsrc : ∀ j, j < M → ∀ m m', agree_outside pd pw ((M + 1) * N) m m' → src j m = src j m')
    (mem : Nat → K) (n : Nat) (hn : n ≤ M) :
    (∀ j, j < n →
        for_loop n (fun j mem => weight_step pd pw (j * N + i) rate momentum (src j mem) c mem)
            mem (pd + (j * N + i))
          = rate * src j mem * c + momentum * mem (pd + (j * N + i))
        ∧ for_loop n (fun j mem => weight_step pd pw (j * N + i) rate momentum (src j mem) c mem)
            mem (pw + (j * N + i))
          = mem (pw + (j * N + i)) + (rate * src j mem * c + momentum * mem (pd + (j * N + i))))
      ∧ (∀ q, (∀ j, j < n → q ≠ pd + (j * N + i) ∧ q ≠ pw + (j * N + i)) →
          for_loop n (fun j mem => weight_step pd pw (j * N + i) rate momentum (src j mem) c mem)
            mem q = mem q) := by
  induction n with
  | zero => exact ⟨fun j hj => absurd hj (Nat.not_lt_zero j), fun q _ => rfl⟩
  | succ n ih =>
    obtain ⟨ih1, ih2⟩ := ih (Nat.le_of_succ_le hn)
    have hnM : n < M := hn
    have hkn := idx_lt (Nat.le_of_lt hnM) hi
    have hagree : agree_outside pd pw ((M + 1) * N)
        (for_loop n (fun j mem => weight_step pd pw (j * N + i) rate momentum (src j mem) c mem)
          mem) mem := by
      intro q hq1 hq2
      apply ih2
      intro j hj
      have := idx_lt (show j ≤ M by omega) hi
      constructor <;> omega
    have hd : for_loop n
        (fun j mem => weight_step pd pw (j * N + i) rate momentum (src j mem) c mem) mem
        (pd + (n * N + i)) = mem (pd + (n * N + i)) := by
      apply ih2
      intro j hj
      have := idx_lt (show j ≤ M by omega) hi
      have := idx_ne hi hi (Or.inl (show n ≠ j by omega))
      constructor <;> omega
    have hw : for_loop n
        (fun j mem => weight_step pd pw (j * N + i) rate momentum (src j mem) c mem) mem
        (pw + (n * N + i)) = mem (pw + (n * N + i)) := by
      apply ih2
      intro j hj
      have := idx_lt (show j ≤ M by omega) hi
      have := idx_ne hi hi (Or.inl (show n ≠ j by omega))
      constructor <;> omega
    simp only [for_loop]
    rw [hsrc n hnM _ _ hagree]
    constructor
    · intro j hj
      by_cases hjn : j = n
      · subst hjn
        rw [weight_step_delta _ _ _ _ _ _ _ _ (by omega),
          weight_step_weight _ _ _ _ _ _ _ _ (by omega), hd, hw]
        exact ⟨rfl, rfl⟩
      · have hj' : j < n := by omega
        have := idx_lt (show j ≤ M by omega) hi
        have := idx_ne hi hi (Or.inl hjn)
        rw [weight_step_other _ _ _ _ _ _ _ _ _ (by omega) (by omega),
          weight_step_other _ _ _ _ _ _ _ _ _ (by omega) (by omega)]
        exact ih1 j hj'
    · intro q hq
      obtain ⟨hq1, hq2⟩ := hq n (Nat.lt_succ_self n)
      rw [weight_step_other _ _ _ _ _ _ _ _ _ hq1 hq2]
      exact ih2 q (fun j hj => hq j (Nat.lt_succ_of_lt hj))

/-- Effect of a layer update for one destination unit. -/
theorem layer_unit_spec {K : Type} [Field K] (pd pw M N : Nat) (rate momentum : K)
    (src corr : Nat → (Nat → K) → K) (i : Nat) (hi : i < N) (hsep : pd + (M + 1) * N ≤ pw)
    (hsrc : ∀ j, j < M → ∀ m m', agree_outside pd pw ((M + 1) * N) m m' → src j m = src j m')
    (mem : Nat → K) :
    (∀ j, j ≤ M →
        layer_unit pd pw M N rate momentum src corr i mem (pd + (j * N + i))
          = new_delta pd M N rate momentum src corr mem j i
        ∧ layer_unit pd pw M N rate momentum src corr i mem (pw + (j * N + i))
          = mem (pw + (j * N + i)) + new_delta pd M N rate momentum src corr mem j i)
      ∧ (∀ q, (∀ j, j ≤ M → q ≠ pd + (j * N + i) ∧ q ≠ pw + (j * N + i)) →
          layer_unit pd pw M N rate momentum src corr i mem q = mem q) := by
  obtain ⟨in1, in2⟩ := layer_inner pd pw M N rate momentum (corr i mem) src i hi hsep hsrc mem M
    (Nat.le_refl M)
  have hkM := idx_lt (Nat.le_refl M) hi
  have hd : for_loop M
      (fun j m => weight_step pd pw (j * N + i) rate momentum (src j m) (corr i mem) m) mem
      (pd + (M * N + i)) = mem (pd + (M * N + i)) := by
    apply in2
    intro j hj
    have := idx_lt (Nat.le_of_lt hj) hi
    have := idx_ne hi hi (Or.inl (show M ≠ j by omega))
    constructor <;> omega
  have hw : for_loop M
      (fun j m => weight_step pd pw (j * N + i) rate momentum (src j m) (corr i mem) m) mem
      (pw + (M * N + i)) = mem (pw + (M * N + i)) := by
    apply in2
    intro j hj
    have := idx_lt (Nat.le_of_lt hj) hi
    have := idx_ne hi hi (Or.inl (show M ≠ j by omega))
    constructor <;> omega
  simp only [layer_unit, new_delta]
  constructor
  · intro j hj
    by_cases hjM : j = M
    · subst hjM
      rw [weight_step_delta _ _ _ _ _ _ _ _ (by omega),
        weight_step_weight _ _ _ _ _ _ _ _ (by omega), hd, hw, if_neg (Nat.lt_irrefl j)]
      exact ⟨rfl, rfl⟩
    · have hj' : j < M := by omega
      have := idx_lt hj hi
      have := idx_ne hi hi (Or.inl hjM)
      rw [weight_step_other _ _ _ _ _ _ _ _ _ (by omega) (by omega),
        weight_step_other _ _ _ _ _ _ _ _ _ (by omega) (by omega), if_pos hj']
      exact in1 j hj'
  · intro q hq
    obtain ⟨hq1, hq2⟩ := hq M (Nat.le_refl M)
    rw [weight_step_other _ _ _ _ _ _ _ _ _ hq1 hq2]
    exact in2 q (fun j hj => hq j (Nat.le_of_lt hj))

theorem new_delta_congr {K : Type} [Field K] (pd pw M N : Nat) (rate momentum : K)
    (src corr : Nat → (Nat → K) → K) {i j : Nat} (hi : i < N)
    (hsrc : ∀ j, j < M → ∀ m m', agree_outside pd pw ((M + 1) * N) m m' → src j m = src j m')
    (hcorr : ∀ i, i < N → ∀ m m', agree_outside pd pw ((M + 1) * N) m m' → corr i m = corr i m')
    (m m' : Nat → K) (hag : agree_outside pd pw ((M + 1) * N) m m')
    (hd : m (pd + (j * N + i)) = m' (pd + (j * N + i))) :
    new_delta pd M N rate momentum src corr m j i
      = new_delta pd M N rate momentum src corr m' j i := by
  unfold new_delta
  rw [hcorr i hi m m' hag, hd]
  by_cases hj : j < M
  · rw [if_pos hj, if_pos hj, hsrc j hj m m' hag]
  · rw [if_neg hj, if_neg hj]

/-- Effect of the first `n` iterations of a layer update: the weights of the destination
units `i < n` have received their new deltas, everything else is as before. -/
theorem layer_loop_spec {K : Type} [Field K] (pd pw M N : Nat) (rate momentum : K)
    (src corr : Nat → (Nat → K) → K) (hsep : pd + (M + 1) * N ≤ pw)
    (hsrc : ∀ j, j < M → ∀ m m', agree_outside pd pw ((M + 1) * N) m m' → src j m = src j m')
    (hcorr : ∀ i, i < N → ∀ m m', agree_outside pd pw ((M + 1) * N) m m' → corr i m = corr i m')
    (mem : Nat → K) (n : Nat) (hn : n ≤ N) :
    (∀ i, i < n → ∀ j, j ≤ M →
        for_loop n (layer_unit pd pw M N rate momentum src corr) mem (pd + (j * N + i))
          = new_delta pd M N rate momentum src corr mem j i
        ∧ for_loop n (layer_unit pd pw M N rate momentum src corr) mem (pw + (j * N + i))
          = mem (pw + (j * N + i)) + new_delta pd M N rate momentum src corr mem j i)
      ∧ (∀ q, (∀ i, i < n → ∀ j, j ≤ M → q ≠ pd + (j * N + i) ∧ q ≠ pw + (j * N + i)) →
          for_loop n (layer_unit pd pw M N rate momentum src corr) mem q = mem q) := by
  induction n with
  | zero => exact ⟨fun i hi => absurd hi (Nat.not_lt_zero i), fun q _ => rfl⟩
  | succ n ih =>
    obtain ⟨ih1, ih2⟩ := ih (Nat.le_of_succ_le hn)
    have hnN : n < N := hn
    obtain ⟨u1, u2⟩ := layer_unit_spec pd pw M N rate momentum src corr n hnN hsep hsrc
      (for_loop n (layer_unit pd pw M N rate momentum src corr) mem)
    have hagree : agree_outside pd pw ((M + 1) * N)
        (for_loop n (layer_unit pd pw M N rate momentum src corr) mem) mem := by
      intro q hq1 hq2
      apply ih2
      intro i hi j hj
      have := idx_lt hj (show i < N by omega)
      constructor <;> omega
    have hold : ∀ j, j ≤ M →
        for_loop n (layer_unit pd pw M N rate momentum src corr) mem (pd + (j * N + n))
            = mem (pd + (j * N + n))
          ∧ for_loop n (layer_unit pd pw M N rate momentum src corr) mem (pw + (j * N + n))
            = mem (pw + (j * N + n)) := by
      intro j hj
      have hk := idx_lt hj hnN
      constructor <;>
      · apply ih2
        intro i hi j' hj'
        have := idx_lt hj' (show i < N by omega)
        have := @idx_ne N j n j' i hnN (show i < N by omega) (Or.inr (show n ≠ i by omega))
        constructor <;> omega
    simp only [for_loop]
    constructor
    · intro i hi j hj
      by_cases hin : i = n
      · subst hin
        obtain ⟨a, b⟩ := u1 j hj
        rw [a, b, (hold j hj).2,
          new_delta_congr pd pw M N rate momentum src corr hnN hsrc hcorr _ mem hagree
            (hold j hj).1]
        exact ⟨rfl, rfl⟩
      · have hi' : i < n := by omega
        have hk := idx_lt hj (show i < N by omega)
        have hne : ∀ j', j' ≤ M →
            pd + (j * N + i) ≠ pd + (j' * N + n) ∧ pd + (j * N + i) ≠ pw + (j' * N + n) := by
          intro j' hj'
          have := idx_lt hj' hnN
          have := @idx_ne N j i j' n (show i < N by omega) hnN (Or.inr hin)
          constructor <;> omega
        have hne' : ∀ j', j' ≤ M →
            pw + (j * N + i) ≠ pd + (j' * N + n) ∧ pw + (j * N + i) ≠ pw + (j' * N + n) := by
          intro j' hj'
          have := idx_lt hj' hnN
          have := @idx_ne N j i j' n (show i < N by omega) hnN (Or.inr hin)
          constructor <;> omega
        rw [u2 _ hne, u2 _ hne']
        exact ih1 i hi' j hj
    · intro q hq
      rw [u2 q (fun j hj => hq n (Nat.lt_succ_self n) j hj)]
      exact ih2 q (fun i hi j hj => hq i (Nat.lt_succ_of_lt hi) j hj)

theorem backpropogate_output_unit_eq {K : Type} [Field K] {abi : Abi} {data : fnnfast_data K}
    (hnet : is_network abi data) (training_output target_output : Nat → K) (rate momentum : K)
    {i : Nat} (hi : i < data.num_output) (mem : Nat → K) :
    backpropogate_output_unit abi data training_output target_output rate momentum i mem
      = layer_unit data.p_delta_hidden_output data.p_hidden_weights data.num_hidden
          data.num_output rate momentum (fun j m => m (data.p_hidden_neurons + j))
          (fun i _ => fnnfast_output_error_gradient (target_output i) (training_output i))
          i mem := by
  have hfit := fits_output_layer hnet.2
  have e1 : backpropogate_output_unit abi data training_output target_output rate momentum i mem
      = weight_step data.p_delta_hidden_output data.p_hidden_weights
          (size_add abi (size_mul abi data.num_hidden data.num_output) i) rate momentum (-1)
          (fnnfast_output_error_gradient (target_output i) (training_output i))
          (for_loop data.num_hidden (fun j m =>
            weight_step data.p_delta_hidden_output data.p_hidden_weights
              (size_add abi (size_mul abi j data.num_output) i) rate momentum
              (m (data.p_hidden_neurons + j))
              (fnnfast_output_error_gradient (target_output i) (training_output i)) m) mem) :=
    rfl
  rw [e1, idx_wrap_eq abi hfit (Nat.le_refl _) hi,
    for_loop_congr data.num_hidden _
      (fun j m => weight_step data.p_delta_hidden_output data.p_hidden_weights
        (j * data.num_output + i) rate momentum (m (data.p_hidden_neurons + j))
        (fnnfast_output_error_gradient (target_output i) (training_output i)) m)
      mem (fun j hj t => by rw [idx_wrap_eq abi hfit (Nat.le_of_lt hj) hi])]
  rfl

theorem backpropogate_hidden_unit_eq {K : Type} [Field K] {abi : Abi} {data : fnnfast_data K}
    (hnet : is_network abi data) (input training_output target_output : Nat → K)
    (rate momentum : K) {i : Nat} (hi : i < data.num_hidden) (mem : Nat → K) :
    backpropogate_hidden_unit abi data input training_output target_output rate momentum i mem
      = layer_unit data.p_delta_input_hidden data.p_input_weights data.num_input
          data.num_hidden rate momentum (fun j _ => input j)
          (fun i m => fnnfast_hidden_error_gradient abi { data with mem := m } i
            target_output training_output)
          i mem := by
  have hfit := fits_input_layer hnet.2
  have e1 : backpropogate_hidden_unit abi data input training_output target_output rate
        momentum i mem
      = weight_step data.p_delta_input_hidden data.p_input_weights
          (size_add abi (size_mul abi data.num_input data.num_hidden) i) rate momentum (-1)
          (fnnfast_hidden_error_gradient abi { data with mem := mem } i target_output
            training_output)
          (for_loop data.num_input (fun j m =>
            weight_step data.p_delta_input_hidden data.p_input_weights
              (size_add abi (size_mul abi j data.num_hidden) i) rate momentum (input j)
              (fnnfast_hidden_error_gradient abi { data with mem := mem } i target_output
                training_output) m) mem) :=
    rfl
  rw [e1, idx_wrap_eq abi hfit (Nat.le_refl _) hi,
    for_loop_congr data.num_input _
      (fun j m => weight_step data.p_delta_input_hidden data.p_input_weights
        (j * data.num_hidden + i) rate momentum (input j)
        (fnnfast_hidden_error_gradient abi { data with mem := mem } i target_output
          training_output) m)
      mem (fun j hj t => by rw [idx_wrap_eq abi hfit (Nat.le_of_lt hj) hi])]
  rfl

/-- Value of `fnnfast_hidden_error_gradient` for a hidden unit of a network. -/
theorem hidden_error_gradient_eq {K : Type} [Field K] {abi : Abi} {data : fnnfast_data K}
    (hnet : is_network abi data) {h : Nat} (hh : h < data.num_hidden)
    (target output : Nat → K) :
    fnnfast_hidden_error_gradient abi data h target output
      = data.mem (data.p_hidden_neurons + h) * (1 - data.mem (data.p_hidden_neurons + h))
        * ∑ i in Finset.range data.num_output,
            data.mem (data.p_hidden_weights + (h * data.num_output + i))
              * (output i * (1 - output i) * (target i - output i)) := by
  have hfit := fits_output_layer hnet.2
  simp only [fnnfast_hidden_error_gradient, fnnfast_output_error_gradient]
  rw [for_loop_congr data.num_output _
    (fun i acc => acc + data.mem (data.p_hidden_weights + (h * data.num_output + i))
      * (output i * (1 - output i) * (target i - output i)))
    _ (fun i hi t => by rw [idx_wrap_eq abi hfit (Nat.le_of_lt hh) hi])]
  rw [for_loop_sum, zero_add]

theorem is_network_with_mem {K : Type} {abi : Abi} {data : fnnfast_data K}
    (hnet : is_network abi data) (m : Nat → K) : is_network abi { data with mem := m } := by
  obtain ⟨hl, hf⟩ := hnet
  refine ⟨?_, hf⟩
  have e : fnnfast_fix_pointers abi { data with mem := m }
      = { fnnfast_fix_pointers abi data with mem := m } := rfl
  unfold laid_out at hl ⊢
  rw [e, hl]

/-- Effect of `fnnfast_backpropogate` on the storage of a network, in terms of the storage
before the call. -/
theorem backpropogate_result {K : Type} [Field K] {abi : Abi} {data : fnnfast_data K}
    (hnet : is_network abi data) (input training_output target_output : Nat → K)
    (rate momentum : K) :
    (∀ i, i < data.num_output → ∀ j, j ≤ data.num_hidden →
        (fnnfast_backpropogate abi data input training_output target_output rate momentum).mem
            (data.p_delta_hidden_output + (j * data.num_output + i))
          = rate * (if j < data.num_hidden then data.mem (data.p_hidden_neurons + j) else -1)
              * (training_output i * (1 - training_output i)
                  * (target_output i - training_output i))
            + momentum * data.mem (data.p_delta_hidden_output + (j * data.num_output + i))
        ∧ (fnnfast_backpropogate abi data input training_output target_output rate momentum).mem
            (data.p_hidden_weights + (j * data.num_output + i))
          = data.mem (data.p_hidden_weights + (j * data.num_output + i))
            + (fnnfast_backpropogate abi data input training_output target_output rate
                momentum).mem (data.p_delta_hidden_output + (j * data.num_output + i)))
      ∧ (∀ i, i < data.num_hidden → ∀ j, j ≤ data.num_input →
        (fnnfast_backpropogate abi data input training_output target_output rate momentum).mem
            (data.p_delta_input_hidden + (j * data.num_hidden + i))
          = rate * (if j < data.num_input then input j else -1)
              * (data.mem (data.p_hidden_neurons + i) * (1 - data.mem (data.p_hidden_neurons + i))
                  * ∑ k in Finset.range data.num_output,
                      (fnnfast_backpropogate abi data input training_output target_output rate
                          momentum).mem (data.p_hidden_weights + (i * data.num_output + k))
                        * (training_output k * (1 - training_output k)
                            * (target_output k - training_output k)))
            + momentum * data.mem (data.p_delta_input_hidden + (j * data.num_hidden + i))
        ∧ (fnnfast_backpropogate abi data input training_output target_output rate momentum).mem
            (data.p_input_weights + (j * data.num_hidden + i))
          = data.mem (data.p_input_weights + (j * data.num_hidden + i))
            + (fnnfast_backpropogate abi data input training_output target_output rate
                momentum).mem (data.p_delta_input_hidden + (j * data.num_hidden + i)))
      ∧ (∀ q, q < data.num_hidden →
        (fnnfast_backpropogate abi data input training_output target_output rate momentum).mem
            (data.p_hidden_neurons + q)
          = data.mem (data.p_hidden_neurons + q)) := by
  obtain ⟨hP, hDIH, hDHO, hIW, hHW⟩ := is_network_pointers hnet
  have e1 : for_loop data.num_output
      (backpropogate_output_unit abi data training_output target_output rate momentum) data.mem
      = for_loop data.num_output
          (layer_unit data.p_delta_hidden_output data.p_hidden_weights data.num_hidden
            data.num_output rate momentum (fun j m => m (data.p_hidden_neurons + j))
            (fun i _ => fnnfast_output_error_gradient (target_output i) (training_output i)))
          data.mem :=
    for_loop_congr _ _ _ _
      (fun i hi t => backpropogate_output_unit_eq hnet training_output target_output rate
        momentum hi t)
  obtain ⟨a1, a2⟩ := layer_loop_spec data.p_delta_hidden_output data.p_hidden_weights
    data.num_hidden data.num_output rate momentum (fun j m => m (data.p_hidden_neurons + j))
    (fun i _ => fnnfast_output_error_gradient (target_output i) (training_output i))
    (by rw [hHW, hDHO]; omega)
    (fun j hj m m' hag => hag _ (by rw [hP, hDHO]; omega) (by rw [hP, hHW]; omega))
    (fun i _ m m' _ => rfl) data.mem data.num_output (Nat.le_refl _)
  rw [← e1] at a1 a2
  have hcorr : ∀ i, i < data.num_hidden → ∀ m m' : Nat → K,
      agree_outside data.p_delta_input_hidden data.p_input_weights
        ((data.num_input + 1) * data.num_hidden) m m' →
      fnnfast_hidden_error_gradient abi { data with mem := m } i target_output training_output
        = fnnfast_hidden_error_gradient abi { data with mem := m' } i target_output
            training_output := by
    intro i hi m m' hag
    rw [hidden_error_gradient_eq (is_network_with_mem hnet m) hi,
      hidden_error_gradient_eq (is_network_with_mem hnet m') hi]
    simp only
    rw [hag (data.p_hidden_neurons + i) (by rw [hP, hDIH]; omega) (by rw [hP, hIW]; omega)]
    congr 1
    apply Finset.sum_congr rfl
    intro k _
    rw [hag (data.p_hidden_weights + (i * data.num_output + k))
      (by rw [hHW, hDIH]; omega) (by rw [hHW, hIW]; omega)]
  have e2 : ∀ mem1 : Nat → K, for_loop data.num_hidden
      (backpropogate_hidden_unit abi data input training_output target_output rate momentum) mem1
      = for_loop data.num_hidden
          (layer_unit data.p_delta_input_hidden data.p_input_weights data.num_input
            data.num_hidden rate momentum (fun j _ => input j)
            (fun i m => fnnfast_hidden_error_gradient abi { data with mem := m } i
              target_output training_output))
          mem1 := fun mem1 =>
    for_loop_congr _ _ _ _
      (fun i hi t => backpropogate_hidden_unit_eq hnet input training_output target_output rate
        momentum hi t)
  obtain ⟨b1, b2⟩ := layer_loop_spec data.p_delta_input_hidden data.p_input_weights
    data.num_input data.num_hidden rate momentum (fun j _ => input j)
    (fun i m => fnnfast_hidden_error_gradient abi { data with mem := m } i
      target_output training_output)
    (by rw [hIW, hDIH]; omega)
    (fun j _ m m' _ => rfl) hcorr
    (for_loop data.num_output
      (backpropogate_output_unit abi data training_output target_output rate momentum) data.mem)
    data.num_hidden (Nat.le_refl _)
  rw [← e2] at b1 b2
  have hbp : (fnnfast_backpropogate abi data input training_output target_output rate
      momentum).mem
      = for_loop data.num_hidden
          (backpropogate_hidden_unit abi data input training_output target_output rate momentum)
          (for_loop data.num_output
            (backpropogate_output_unit abi data training_output target_output rate momentum)
            data.mem) := rfl
  rw [hbp]
  -- addresses of the output layer are not written by the second loop
  have out2 : ∀ k, k < (data.num_hidden + 1) * data.num_output →
      (∀ i, i < data.num_hidden → ∀ j, j ≤ data.num_input →
        data.p_delta_hidden_output + k ≠ data.p_delta_input_hidden + (j * data.num_hidden + i)
          ∧ data.p_delta_hidden_output + k ≠ data.p_input_weights + (j * data.num_hidden + i))
      ∧ (∀ i, i < data.num_hidden → ∀ j, j ≤ data.num_input →
        data.p_hidden_weights + k ≠ data.p_delta_input_hidden + (j * data.num_hidden + i)
          ∧ data.p_hidden_weights + k ≠ data.p_input_weights + (j * data.num_hidden + i)) := by
    intro k hk
    constructor <;>
    · intro i hi j hj
      have := idx_lt hj hi
      constructor <;> omega
  -- addresses of the input layer are not written by the first loop
  have in1 : ∀ k, k < (data.num_input + 1) * data.num_hidden →
      (∀ i, i < data.num_output → ∀ j, j ≤ data.num_hidden →
        data.p_delta_input_hidden + k ≠ data.p_delta_hidden_output + (j * data.num_output + i)
          ∧ data.p_delta_input_hidden + k ≠ data.p_hidden_weights + (j * data.num_output + i))
      ∧ (∀ i, i < data.num_output → ∀ j, j ≤ data.num_hidden →
        data.p_input_weights + k ≠ data.p_delta_hidden_output + (j * data.num_output + i)
          ∧ data.p_input_weights + k ≠ data.p_hidden_weights + (j * data.num_output + i)) := by
    intro k hk
    constructor <;>
    · intro i hi j hj
      have := idx_lt hj hi
      constructor <;> omega
  -- the hidden activations are written by neither loop
  have hid : ∀ q, q < data.num_hidden →
      (∀ i, i < data.num_output → ∀ j, j ≤ data.num_hidden →
        data.p_hidden_neurons + q ≠ data.p_delta_hidden_output + (j * data.num_output + i)
          ∧ data.p_hidden_neurons + q ≠ data.p_hidden_weights + (j * data.num_output + i))
      ∧ (∀ i, i < data.num_hidden → ∀ j, j ≤ data.num_input →
        data.p_hidden_neurons + q ≠ data.p_delta_input_hidden + (j * data.num_hidden + i)
          ∧ data.p_hidden_neurons + q ≠ data.p_input_weights + (j * data.num_hidden + i)) := by
    intro q hq
    constructor <;>
    · intro i hi j hj
      have := idx_lt hj hi
      constructor <;> omega
  refine ⟨?_, ?_, ?_⟩
  · intro i hi j hj
    have hk := idx_lt hj hi
    obtain ⟨x1, x2⟩ := a1 i hi j hj
    rw [b2 _ (out2 _ hk).1, b2 _ (out2 _ hk).2, x1, x2]
    exact ⟨rfl, rfl⟩
  · intro i hi j hj
    have hk := idx_lt hj hi
    obtain ⟨y1, y2⟩ := b1 i hi j hj
    rw [y1, y2, a2 _ (in1 _ hk).2]
    refine ⟨?_, rfl⟩
    have hg := hidden_error_gradient_eq
      (is_network_with_mem hnet (for_loop data.num_output
        (backpropogate_output_unit abi data training_output target_output rate momentum)
        data.mem)) hi target_output training_output
    simp only [new_delta]
    rw [a2 _ (in1 _ hk).1, hg]
    simp only
    rw [a2 _ (hid i hi).1]
    congr 3
    apply Finset.sum_congr rfl
    intro k hkO
    have hk' := idx_lt (Nat.le_of_lt hi) (Finset.mem_range.mp hkO)
    rw [b2 _ (out2 _ hk').2]
  · intro q hq
    rw [b2 _ (hid q hq).2, a2 _ (hid q hq).1]

theorem idx_decomp {M N k : Nat} (h : k < (M + 1) * N) :
    ∃ j i, j ≤ M ∧ i < N ∧ k = j * N + i := by
  have hN : 0 < N := by
    rcases Nat.eq_zero_or_pos N with h0 | h0
    · rw [h0, Nat.mul_zero] at h
      exact absurd h (Nat.not_lt_zero k)
    · exact h0
  refine ⟨k / N, k % N, ?_, Nat.mod_lt k hN, ?_⟩
  · have : k / N < M + 1 := Nat.div_lt_of_lt_mul (by rw [Nat.mul_comm]; exact h)
    omega
  · rw [Nat.mul_comm]
    exact (Nat.div_add_mod k N).symm

/-- Effect of `fnnfast_train` on the two delta regions and the two weight regions, in terms
of the block before the call and of the forward pass of the call. -/
theorem train_result {K : Type} [Field K] (exp_neuron : K → K) {abi : Abi}
    {data : fnnfast_data K} (hnet : is_network abi data) (input target : Nat → K)
    (rate momentum : K) (buf : Nat → K) :
    (∀ i, i < data.num_output → ∀ j, j ≤ data.num_hidden →
        delta_hidden_output (fnnfast_train exp_neuron abi data input target rate momentum buf).1
            (j * data.num_output + i)
          = rate * (if j < data.num_hidden then
                hidden_activations (fnnfast_feedforward exp_neuron abi data input buf).1 j
              else -1)
              * ((fnnfast_feedforward exp_neuron abi data input buf).2 i
                  * (1 - (fnnfast_feedforward exp_neuron abi data input buf).2 i)
                  * (target i - (fnnfast_feedforward exp_neuron abi data input buf).2 i))
            + momentum * delta_hidden_output data (j * data.num_output + i)
        ∧ hidden_weights (fnnfast_train exp_neuron abi data input target rate momentum buf).1
            (j * data.num_output + i)
          = hidden_weights data (j * data.num_output + i)
            + delta_hidden_output
                (fnnfast_train exp_neuron abi data input target rate momentum buf).1
                (j * data.num_output + i))
      ∧ (∀ i, i < data.num_hidden → ∀ j, j ≤ data.num_input →
        delta_input_hidden (fnnfast_train exp_neuron abi data input target rate momentum buf).1
            (j * data.num_hidden + i)
          = rate * (if j < data.num_input then input j else -1)
              * (hidden_activations (fnnfast_feedforward exp_neuron abi data input buf).1 i
                  * (1 - hidden_activations
                      (fnnfast_feedforward exp_neuron abi data input buf).1 i)
                  * ∑ k in Finset.range data.num_output,
                      hidden_weights
                          (fnnfast_train exp_neuron abi data input target rate momentum buf).1
                          (i * data.num_output + k)
                        * ((fnnfast_feedforward exp_neuron abi data input buf).2 k
                            * (1 - (fnnfast_feedforward exp_neuron abi data input buf).2 k)
                            * (target k - (fnnfast_feedforward exp_neuron abi data input buf).2 k)))
            + momentum * delta_input_hidden data (j * data.num_hidden + i)
        ∧ input_weights (fnnfast_train exp_neuron abi data input target rate momentum buf).1
            (j * data.num_hidden + i)
          = input_weights data (j * data.num_hidden + i)
            + delta_input_hidden
                (fnnfast_train exp_neuron abi data input target rate momentum buf).1
                (j * data.num_hidden + i)) := by
  obtain ⟨hP, hDIH, hDHO, hIW, hHW⟩ := is_network_pointers hnet
  obtain ⟨-, f2, -⟩ := feedforward_result exp_neuron hnet input buf
  have hnet1 : is_network abi (fnnfast_feedforward exp_neuron abi data input buf).1 :=
    is_network_with_mem hnet _
  obtain ⟨b1, b2, -⟩ := backpropogate_result hnet1 input
    (fnnfast_feedforward exp_neuron abi data input buf).2 target rate momentum
  constructor
  · intro i hi j hj
    have hk := idx_lt hj hi
    obtain ⟨x1, x2⟩ := b1 i hi j hj
    have y1 : (fnnfast_feedforward exp_neuron abi data input buf).1.mem
          (data.p_delta_hidden_output + (j * data.num_output + i))
        = delta_hidden_output data (j * data.num_output + i) := f2 _ (by omega)
    have y2 : (fnnfast_feedforward exp_neuron abi data input buf).1.mem
          (data.p_hidden_weights + (j * data.num_output + i))
        = hidden_weights data (j * data.num_output + i) := f2 _ (by omega)
    exact ⟨x1.trans (by rw [← y1]; rfl), x2.trans (by rw [← y2]; rfl)⟩
  · intro i hi j hj
    have hk := idx_lt hj hi
    obtain ⟨x1, x2⟩ := b2 i hi j hj
    have y1 : (fnnfast_feedforward exp_neuron abi data input buf).1.mem
          (data.p_delta_input_hidden + (j * data.num_hidden + i))
        = delta_input_hidden data (j * data.num_hidden + i) := f2 _ (by omega)
    have y2 : (fnnfast_feedforward exp_neuron abi data input buf).1.mem
          (data.p_input_weights + (j * data.num_hidden + i))
        = input_weights data (j * data.num_hidden + i) := f2 _ (by omega)
    exact ⟨x1.trans (by rw [← y1]; rfl), x2.trans (by rw [← y2]; rfl)⟩

/-- Claim C3. For every network, input, target, rate and momentum, after `fnnfast_train`:
`delta_hidden_output'[j*O+i] = rate * h[j] * g_i + momentum * delta_hidden_output[j*O+i]`
for `j < H`, `delta_hidden_output'[H*O+i] = rate * (-1) * g_i + momentum *
delta_hidden_output[H*O+i]` for the bias row, where `h` is the hidden activation of the
forward pass of the call and `g_i = out[i] * (1 - out[i]) * (target[i] - out[i])` with `out`
the prediction of that forward pass; and every element of `hidden_weights` is increased by
exactly its new delta. -/
theorem train_hidden_output_update {K : Type} [Field K] (exp_neuron : K → K) (abi : Abi)
    (data : fnnfast_data K) (hnet : is_network abi data) (input target : Nat → K)
    (rate momentum : K) (buf : Nat → K) :
    (∀ i, i < data.num_output → ∀ j, j < data.num_hidden →
        delta_hidden_output (fnnfast_train exp_neuron abi data input target rate momentum buf).1 (j * data.num_output + i)
          = rate * hidden_activations (fnnfast_feedforward exp_neuron abi data input buf).1 j * ((fnnfast_feedforward exp_neuron abi data input buf).2 i * (1 - (fnnfast_feedforward exp_neuron abi data input buf).2 i) * (target i - (fnnfast_feedforward exp_neuron abi data input buf).2 i))
            + momentum * delta_hidden_output data (j * data.num_output + i))
      ∧ (∀ i, i < data.num_output →
        delta_hidden_output (fnnfast_train exp_neuron abi data input target rate momentum buf).1 (data.num_hidden * data.num_output + i)
          = rate * (-1) * ((fnnfast_feedforward exp_neuron abi data input buf).2 i * (1 - (fnnfast_feedforward exp_neuron abi data input buf).2 i) * (target i - (fnnfast_feedforward exp_neuron abi data input buf).2 i))
            + momentum * delta_hidden_output data (data.num_hidden * data.num_output + i))
      ∧ (∀ k, k < (data.num_hidden + 1) * data.num_output →
        hidden_weights (fnnfast_train exp_neuron abi data input target rate momentum buf).1 k = hidden_weights data k + delta_hidden_output (fnnfast_train exp_neuron abi data input target rate momentum buf).1 k) := by
  obtain ⟨t1, -⟩ := train_result exp_neuron hnet input target rate momentum buf
  refine ⟨?_, ?_, ?_⟩
  · intro i hi j hj
    have h := (t1 i hi j (Nat.le_of_lt hj)).1
    rw [if_pos hj] at h
    exact h
  · intro i hi
    have h := (t1 i hi data.num_hidden (Nat.le_refl _)).1
    rw [if_neg (Nat.lt_irrefl _)] at h
    exact h
  · intro k hk
    obtain ⟨j, i, hj, hi, rfl⟩ := idx_decomp hk
    exact (t1 i hi j hj).2

/-- Witness for claim C3. The delta of the weight from hidden unit `0` to output unit `0` of the
sample network after one training step with target `1`, rate `1/2` and momentum `1/4`. -/
theorem train_hidden_output_update_witness :
    is_network x86_64 (sample_net ℝ)
      ∧ delta_hidden_output (fnnfast_train Real.exp x86_64 (sample_net ℝ) (sample_input ℝ) (fun _ => 1) (1 / 2) (1 / 4) (fun _ => 0)).1 (0 * (sample_net ℝ).num_output + 0)
        = 1 / 2 * hidden_activations (fnnfast_feedforward Real.exp x86_64 (sample_net ℝ) (sample_input ℝ) (fun _ => 0)).1 0 * ((fnnfast_feedforward Real.exp x86_64 (sample_net ℝ) (sample_input ℝ) (fun _ => 0)).2 0 * (1 - (fnnfast_feedforward Real.exp x86_64 (sample_net ℝ) (sample_input ℝ) (fun _ => 0)).2 0) * (1 - (fnnfast_feedforward Real.exp x86_64 (sample_net ℝ) (sample_input ℝ) (fun _ => 0)).2 0))
          + 1 / 4 * delta_hidden_output (sample_net ℝ) (0 * (sample_net ℝ).num_output + 0) :=
  ⟨sample_net_is_network ℝ,
    (train_hidden_output_update Real.exp x86_64 (sample_net ℝ) (sample_net_is_network ℝ)
      (sample_input ℝ) (fun _ => 1) (1 / 2) (1 / 4) (fun _ => 0)).1 0 (by decide) 0 (by decide)⟩

/-- Claim C4, as amended. For every network and every `fnnfast_train` call, the hidden-unit
gradient used in the input-to-hidden update is computed from the hidden-to-output weights
as already updated by the call: the new `delta_input_hidden[j*H+i]` equals
`rate * input[j] * c_i + momentum * (old delta_input_hidden[j*H+i])` (source value `-1` for
the bias row `j = I`), where `c_i = h[i] * (1 - h[i]) * sum over k < O of
W_post[i*O+k] * out[k] * (1 - out[k]) * (target[k] - out[k])` and `W_post[i*O+k]` is the old
hidden weight plus its new delta, which is the value `hidden_weights` holds after the call. -/
theorem train_input_hidden_update {K : Type} [Field K] (exp_neuron : K → K) (abi : Abi)
    (data : fnnfast_data K) (hnet : is_network abi data) (input target : Nat → K)
    (rate momentum : K) (buf : Nat → K) :
    ∀ i, i < data.num_hidden →
      (∀ j, j < data.num_input →
          delta_input_hidden (fnnfast_train exp_neuron abi data input target rate momentum buf).1 (j * data.num_hidden + i)
            = rate * input j
              * (hidden_activations (fnnfast_feedforward exp_neuron abi data input buf).1 i * (1 - hidden_activations (fnnfast_feedforward exp_neuron abi data input buf).1 i)
                * ∑ k in Finset.range data.num_output,
                    (hidden_weights data (i * data.num_output + k)
                        + delta_hidden_output (fnnfast_train exp_neuron abi data input target rate momentum buf).1 (i * data.num_output + k))
                      * ((fnnfast_feedforward exp_neuron abi data input buf).2 k * (1 - (fnnfast_feedforward exp_neuron abi data input buf).2 k) * (target k - (fnnfast_feedforward exp_neuron abi data input buf).2 k)))
              + momentum * delta_input_hidden data (j * data.num_hidden + i))
        ∧ delta_input_hidden (fnnfast_train exp_neuron abi data input target rate momentum buf).1 (data.num_input * data.num_hidden + i)
            = rate * (-1)
              * (hidden_activations (fnnfast_feedforward exp_neuron abi data input buf).1 i * (1 - hidden_activations (fnnfast_feedforward exp_neuron abi data input buf).1 i)
                * ∑ k in Finset.range data.num_output,
                    (hidden_weights data (i * data.num_output + k)
                        + delta_hidden_output (fnnfast_train exp_neuron abi data input target rate momentum buf).1 (i * data.num_output + k))
                      * ((fnnfast_feedforward exp_neuron abi data input buf).2 k * (1 - (fnnfast_feedforward exp_neuron abi data input buf).2 k) * (target k - (fnnfast_feedforward exp_neuron abi data input buf).2 k)))
              + momentum * delta_input_hidden data (data.num_input * data.num_hidden + i)
        ∧ (∀ k, k < data.num_output →
            hidden_weights (fnnfast_train exp_neuron abi data input target rate momentum buf).1 (i * data.num_output + k)
              = hidden_weights data (i * data.num_output + k)
                + delta_hidden_output (fnnfast_train exp_neuron abi data input target rate momentum buf).1 (i * data.num_output + k)) := by
  obtain ⟨t1, t2⟩ := train_result exp_neuron hnet input target rate momentum buf
  intro i hi
  have hsum : ∑ k in Finset.range data.num_output,
        hidden_weights (fnnfast_train exp_neuron abi data input target rate momentum buf).1 (i * data.num_output + k) * ((fnnfast_feedforward exp_neuron abi data input buf).2 k * (1 - (fnnfast_feedforward exp_neuron abi data input buf).2 k) * (target k - (fnnfast_feedforward exp_neuron abi data input buf).2 k))
      = ∑ k in Finset.range data.num_output,
          (hidden_weights data (i * data.num_output + k)
              + delta_hidden_output (fnnfast_train exp_neuron abi data input target rate momentum buf).1 (i * data.num_output + k))
            * ((fnnfast_feedforward exp_neuron abi data input buf).2 k * (1 - (fnnfast_feedforward exp_neuron abi data input buf).2 k) * (target k - (fnnfast_feedforward exp_neuron abi data input buf).2 k)) := by
    apply Finset.sum_congr rfl
    intro k hk
    rw [(t1 k (Finset.mem_range.mp hk) i (Nat.le_of_lt hi)).2]
  refine ⟨?_, ?_, ?_⟩
  · intro j hj
    have h := (t2 i hi j (Nat.le_of_lt hj)).1
    rw [if_pos hj, hsum] at h
    exact h
  · have h := (t2 i hi data.num_input (Nat.le_refl _)).1
    rw [if_neg (Nat.lt_irrefl _), hsum] at h
    exact h
  · intro k hk
    exact (t1 k hk i (Nat.le_of_lt hi)).2

theorem net_input_zero {K : Type} [Field K] (M N : Nat) (src w : Nat → K) {i : Nat}
    (hi : i < N) (hw : ∀ k, k < (M + 1) * N → w k = 0) : net_input M N src w i = 0 := by
  unfold net_input
  rw [hw _ (idx_lt (Nat.le_refl M) hi), sub_zero]
  apply Finset.sum_eq_zero
  intro j hj
  rw [hw _ (idx_lt (Nat.le_of_lt (Finset.mem_range.mp hj)) hi), mul_zero]

/-- With all weights zero, every hidden activation and every output is `1/2`. -/
theorem feedforward_zero_weights {K : Type} [Field K] (exp_neuron : K → K) {abi : Abi}
    {data : fnnfast_data K} (hnet : is_network abi data) (hexp : exp_neuron 0 = 1)
    (hiw : ∀ k, k < (data.num_input + 1) * data.num_hidden → input_weights data k = 0)
    (hhw : ∀ k, k < (data.num_hidden + 1) * data.num_output → hidden_weights data k = 0)
    (input output : Nat → K) :
    (∀ i, i < data.num_hidden →
        hidden_activations (fnnfast_feedforward exp_neuron abi data input output).1 i = 1 / 2)
      ∧ (∀ i, i < data.num_output →
        (fnnfast_feedforward exp_neuron abi data input output).2 i = 1 / 2) := by
  obtain ⟨f1, -, f3⟩ := feedforward_result exp_neuron hnet input output
  have half : (1 : K) / (1 + exp_neuron (-0)) = 1 / 2 := by
    rw [neg_zero, hexp, one_add_one_eq_two]
  constructor
  · intro i hi
    have h := f1 i hi
    rw [net_input_zero data.num_input data.num_hidden input
      (fun k => data.mem (data.p_input_weights + k)) hi hiw] at h
    exact h.trans half
  · intro i hi
    have h := f3 i
    rw [if_pos hi, net_input_zero data.num_hidden data.num_output _
      (fun k => data.mem (data.p_hidden_weights + k)) hi hhw] at h
    exact h.trans half

theorem zero_net_is_network_111 (K : Type) [Field K] : is_network x86_64 (zero_net K 1 1 1) :=
  ⟨rfl, (by decide : fits x86_64 1 1 1)⟩

/-- Witness for claim C4. The delta of the weight from input `0` to hidden unit `0` of the
sample network after one training step with target `1`, rate `1/2` and momentum `1/4`. -/
theorem train_input_hidden_update_witness :
    is_network x86_64 (sample_net ℝ)
      ∧ delta_input_hidden (fnnfast_train Real.exp x86_64 (sample_net ℝ) (sample_input ℝ) (fun _ => 1) (1 / 2) (1 / 4) (fun _ => 0)).1 (0 * (sample_net ℝ).num_hidden + 0)
        = 1 / 2 * sample_input ℝ 0
          * (hidden_activations (fnnfast_feedforward Real.exp x86_64 (sample_net ℝ) (sample_input ℝ) (fun _ => 0)).1 0 * (1 - hidden_activations (fnnfast_feedforward Real.exp x86_64 (sample_net ℝ) (sample_input ℝ) (fun _ => 0)).1 0)
              * ∑ k in Finset.range (sample_net ℝ).num_output,
                  (hidden_weights (sample_net ℝ) (0 * (sample_net ℝ).num_output + k)
                      + delta_hidden_output (fnnfast_train Real.exp x86_64 (sample_net ℝ) (sample_input ℝ) (fun _ => 1) (1 / 2) (1 / 4) (fun _ => 0)).1 (0 * (sample_net ℝ).num_output + k))
                    * ((fnnfast_feedforward Real.exp x86_64 (sample_net ℝ) (sample_input ℝ) (fun _ => 0)).2 k * (1 - (fnnfast_feedforward Real.exp x86_64 (sample_net ℝ) (sample_input ℝ) (fun _ => 0)).2 k) * (1 - (fnnfast_feedforward Real.exp x86_64 (sample_net ℝ) (sample_input ℝ) (fun _ => 0)).2 k)))
          + 1 / 4 * delta_input_hidden (sample_net ℝ) (0 * (sample_net ℝ).num_hidden + 0) :=
  ⟨sample_net_is_network ℝ,
    ((train_input_hidden_update Real.exp x86_64 (sample_net ℝ) (sample_net_is_network ℝ)
      (sample_input ℝ) (fun _ => 1) (1 / 2) (1 / 4) (fun _ => 0)) 0 (by decide)).1 0
      (by decide)⟩

/-- Counterexample to claim C4 as stated. The zero-initialised `(1, 1, 1)` network, input `[1]`, target
`[1]`, rate `1`, momentum `0`, real exponential.  All hidden-to-output weights before the
call are `0`, so the gradient computed from them is `0`; the delta that `fnnfast_train`
stores for the weight from input `0` to hidden unit `0` is `1/512`. -/
theorem train_input_hidden_update_not_pre_update :
    delta_input_hidden (fnnfast_train Real.exp x86_64 (zero_net ℝ 1 1 1) (fun _ => 1) (fun _ => 1) 1 0 (fun _ => 0)).1 (0 * 1 + 0)
      ≠ 1 * (1 : ℝ)
          * (hidden_activations (fnnfast_feedforward Real.exp x86_64 (zero_net ℝ 1 1 1) (fun _ => 1) (fun _ => 0)).1 0 * (1 - hidden_activations (fnnfast_feedforward Real.exp x86_64 (zero_net ℝ 1 1 1) (fun _ => 1) (fun _ => 0)).1 0)
              * ∑ k in Finset.range 1,
                  hidden_weights (zero_net ℝ 1 1 1) (0 * 1 + k) * ((fnnfast_feedforward Real.exp x86_64 (zero_net ℝ 1 1 1) (fun _ => 1) (fun _ => 0)).2 k * (1 - (fnnfast_feedforward Real.exp x86_64 (zero_net ℝ 1 1 1) (fun _ => 1) (fun _ => 0)).2 k) * (1 - (fnnfast_feedforward Real.exp x86_64 (zero_net ℝ 1 1 1) (fun _ => 1) (fun _ => 0)).2 k)))
        + 0 * delta_input_hidden (zero_net ℝ 1 1 1) (0 * 1 + 0) := by
  have hnet := zero_net_is_network_111 ℝ
  have hz : ∀ k, (zero_net ℝ 1 1 1).mem k = 0 := fun _ => rfl
  obtain ⟨fh, fo⟩ := feedforward_zero_weights Real.exp hnet Real.exp_zero
    (fun k _ => hz _) (fun k _ => hz _) (fun _ => 1) (fun _ => 0)
  obtain ⟨t1, t2⟩ := train_result Real.exp hnet (fun _ => 1) (fun _ => 1) 1 0 (fun _ => 0)
  have hh := fh 0 (by decide)
  have ho := fo 0 (by decide)
  have a := t1 0 (by decide) 0 (by decide)
  have b := (t2 0 (by decide) 0 (by decide)).1
  have e1 : (zero_net ℝ 1 1 1).num_output = 1 := rfl
  have e2 : (zero_net ℝ 1 1 1).num_hidden = 1 := rfl
  have e3 : (zero_net ℝ 1 1 1).num_input = 1 := rfl
  have w0 : hidden_weights (zero_net ℝ 1 1 1) (0 * 1 + 0) = 0 := hz _
  have d0 : delta_hidden_output (zero_net ℝ 1 1 1) (0 * 1 + 0) = 0 := hz _
  have i0 : delta_input_hidden (zero_net ℝ 1 1 1) (0 * 1 + 0) = 0 := hz _
  simp only [e1, e2, e3] at a b
  rw [Finset.sum_range_one] at b
  rw [Finset.sum_range_one, b, a.2, a.1, hh, ho, w0, d0, i0]
  norm_num

/-! ## Initialisation -/

theorem zero_loop_spec {K : Type} [Field K] (endp : Nat) (fuel : Nat) :
    ∀ (cur : Nat) (mem : Nat → K), cur ≤ endp → endp - cur ≤ fuel →
      fnnfast_zero_loop endp fuel cur mem
        = some (fun q => if cur ≤ q ∧ q < endp then 0 else mem q) := by
  induction fuel with
  | zero =>
    intro cur mem h1 h2
    have hc : cur = endp := by omega
    simp only [fnnfast_zero_loop, if_pos hc]
    congr 1
    funext q
    rw [if_neg (by omega)]
  | succ fuel ih =>
    intro cur mem h1 h2
    by_cases hc : cur = endp
    · simp only [fnnfast_zero_loop, if_pos hc]
      congr 1
      funext q
      rw [if_neg (by omega)]
    · simp only [fnnfast_zero_loop, if_neg hc]
      rw [ih (cur + 1) (store mem cur 0) (by omega) (by omega)]
      congr 1
      funext q
      by_cases hq : q = cur
      · subst hq
        rw [if_neg (by omega), store_same, if_pos (by omega)]
      · rw [store_other _ _ _ _ hq]
        by_cases hq' : cur + 1 ≤ q ∧ q < endp
        · rw [if_pos hq', if_pos (by omega)]
        · rw [if_neg hq', if_neg (by omega)]

/-- The end pointer computed by `fnnfast_zero` and `fnnfast_randomize` for a network. -/
theorem end_pointer_eq {K : Type} {abi : Abi} {data : fnnfast_data K}
    (hnet : is_network abi data) :
    data.p_hidden_weights + size_mul abi (size_add abi data.num_hidden 1) data.num_output
      = region_elems data.num_input data.num_hidden data.num_output := by
  obtain ⟨-, -, -, -, hHW⟩ := is_network_pointers hnet
  rw [size_mul_succ_eq abi _ _ (fits_output_layer hnet.2), hHW]
  unfold region_elems
  ring

/-- Result of `fnnfast_zero` on a network, given enough fuel for the loop. -/
theorem zero_result {K : Type} [Field K] {abi : Abi} {data : fnnfast_data K}
    (hnet : is_network abi data) (fuel : Nat)
    (hfuel : region_elems data.num_input data.num_hidden data.num_output ≤ fuel) :
    fnnfast_zero abi fuel data
      = some { data with
          mem := fun q =>
            if q < region_elems data.num_input data.num_hidden data.num_output then 0
            else data.mem q } := by
  obtain ⟨hP, -, -, -, -⟩ := is_network_pointers hnet
  simp only [fnnfast_zero]
  rw [end_pointer_eq hnet, hP, zero_loop_spec _ _ _ _ (Nat.zero_le _) (by omega)]
  simp only [Option.map_some', Nat.zero_le, true_and]

/-- Claim C7. For every network (offsets set by `fnnfast_fix_pointers`), `fnnfast_zero` returns,
and afterwards every element of `hidden_activations`, `delta_input_hidden`,
`delta_hidden_output`, `input_weights` and `hidden_weights` equals `0`, whatever the regions
held before; the stored dimensions (and the region pointers) are unchanged. -/
theorem zero_spec {K : Type} [Field K] (abi : Abi) (data : fnnfast_data K)
    (hnet : is_network abi data) (fuel : Nat)
    (hfuel : region_elems data.num_input data.num_hidden data.num_output ≤ fuel) :
    ∃ d, fnnfast_zero abi fuel data = some d
      ∧ d.num_input = data.num_input ∧ d.num_hidden = data.num_hidden
      ∧ d.num_output = data.num_output
      ∧ regions d = regions data
      ∧ (∀ k, k < data.num_hidden → hidden_activations d k = 0)
      ∧ (∀ k, k < (data.num_input + 1) * data.num_hidden → delta_input_hidden d k = 0)
      ∧ (∀ k, k < (data.num_hidden + 1) * data.num_output → delta_hidden_output d k = 0)
      ∧ (∀ k, k < (data.num_input + 1) * data.num_hidden → input_weights d k = 0)
      ∧ (∀ k, k < (data.num_hidden + 1) * data.num_output → hidden_weights d k = 0) := by
  obtain ⟨hP, hDIH, hDHO, hIW, hHW⟩ := is_network_pointers hnet
  refine ⟨_, zero_result hnet fuel hfuel, rfl, rfl, rfl, rfl, ?_, ?_, ?_, ?_, ?_⟩ <;>
  · intro k hk
    simp only [hidden_activations, delta_input_hidden, delta_hidden_output, input_weights,
      hidden_weights]
    apply if_pos
    have e1 : 2 * (data.num_input + 1) * data.num_hidden
        = 2 * ((data.num_input + 1) * data.num_hidden) := Nat.mul_assoc _ _ _
    have e2 : 2 * (data.num_hidden + 1) * data.num_output
        = 2 * ((data.num_hidden + 1) * data.num_output) := Nat.mul_assoc _ _ _
    unfold region_elems
    omega

/-- Witness for claim C7. Zeroing the sample network, whose storage held `q / 16`. -/
theorem zero_spec_witness :
    is_network x86_64 (sample_net ℝ)
      ∧ ∃ d, fnnfast_zero x86_64 20 (sample_net ℝ) = some d
        ∧ d.num_input = (sample_net ℝ).num_input ∧ d.num_hidden = (sample_net ℝ).num_hidden
        ∧ d.num_output = (sample_net ℝ).num_output ∧ hidden_weights d 2 = 0 := by
  obtain ⟨d, h, h1, h2, h3, -, -, -, -, -, h9⟩ :=
    zero_spec x86_64 (sample_net ℝ) (sample_net_is_network ℝ) 20
      (by decide : region_elems 2 2 1 ≤ 20)
  exact ⟨sample_net_is_network ℝ, d, h, h1, h2, h3, h9 2 (by decide)⟩

/-- Claim C8, as amended. For every network of any dimensions `(I, H, O)` that has just been
zeroed by `fnnfast_zero`, and for any input vector of finite numbers, `fnnfast_feedforward`
yields exactly `1/2` for every stored hidden activation and for every output element
(`exp_neuron 0 = 1`).  The finite values of `neuron` are the elements of `K`. -/
theorem feedforward_after_zero {K : Type} [Field K] (exp_neuron : K → K)
    (hexp : exp_neuron 0 = 1) (abi : Abi) (data : fnnfast_data K) (hnet : is_network abi data)
    (fuel : Nat) (hfuel : region_elems data.num_input data.num_hidden data.num_output ≤ fuel) :
    ∃ d, fnnfast_zero abi fuel data = some d
      ∧ ∀ input output : Nat → K,
        (∀ i, i < data.num_hidden →
          hidden_activations (fnnfast_feedforward exp_neuron abi d input output).1 i = 1 / 2)
        ∧ (∀ i, i < data.num_output →
          (fnnfast_feedforward exp_neuron abi d input output).2 i = 1 / 2) := by
  obtain ⟨hP, hDIH, hDHO, hIW, hHW⟩ := is_network_pointers hnet
  have e1 : 2 * (data.num_input + 1) * data.num_hidden
      = 2 * ((data.num_input + 1) * data.num_hidden) := Nat.mul_assoc _ _ _
  have e2 : 2 * (data.num_hidden + 1) * data.num_output
      = 2 * ((data.num_hidden + 1) * data.num_output) := Nat.mul_assoc _ _ _
  have hd := is_network_with_mem hnet (fun q =>
    if q < region_elems data.num_input data.num_hidden data.num_output then 0 else data.mem q)
  have hiw : ∀ k, k < (data.num_input + 1) * data.num_hidden →
      (if data.p_input_weights + k < region_elems data.num_input data.num_hidden data.num_output
        then (0 : K) else data.mem (data.p_input_weights + k)) = 0 := by
    intro k hk
    apply if_pos
    unfold region_elems
    omega
  have hhw : ∀ k, k < (data.num_hidden + 1) * data.num_output →
      (if data.p_hidden_weights + k < region_elems data.num_input data.num_hidden data.num_output
        then (0 : K) else data.mem (data.p_hidden_weights + k)) = 0 := by
    intro k hk
    apply if_pos
    unfold region_elems
    omega
  exact ⟨_, zero_result hnet fuel hfuel, fun input output =>
    feedforward_zero_weights exp_neuron hd hexp hiw hhw input output⟩

/-- Witness for claim C8. The sample network, zeroed and run on the input `[1, 0]` with the real
exponential. -/
theorem feedforward_after_zero_witness :
    Real.exp 0 = 1 ∧ is_network x86_64 (sample_net ℝ)
      ∧ ∃ d, fnnfast_zero x86_64 20 (sample_net ℝ) = some d
        ∧ hidden_activations
            (fnnfast_feedforward Real.exp x86_64 d (sample_input ℝ) (fun _ => 0)).1 1 = 1 / 2
        ∧ (fnnfast_feedforward Real.exp x86_64 d (sample_input ℝ) (fun _ => 0)).2 0 = 1 / 2 := by
  obtain ⟨d, h, hall⟩ := feedforward_after_zero Real.exp Real.exp_zero x86_64 (sample_net ℝ)
    (sample_net_is_network ℝ) 20 (by decide : region_elems 2 2 1 ≤ 20)
  exact ⟨Real.exp_zero, sample_net_is_network ℝ, d, h,
    (hall (sample_input ℝ) (fun _ => 0)).1 1 (by decide),
    (hall (sample_input ℝ) (fun _ => 0)).2 0 (by decide)⟩

theorem randomize_loop_spec {K : Type} [Field K] (RAND_MAX : Nat) (draws : Nat → Nat)
    (endp : Nat) (fuel : Nat) :
    ∀ (cur k : Nat) (mem : Nat → K), cur ≤ endp → endp - cur ≤ fuel →
      fnnfast_randomize_loop RAND_MAX draws endp fuel cur k mem
        = some (fun q => if cur ≤ q ∧ q < endp then
            (draws (k + (q - cur)) : K) / (RAND_MAX : K) - 1 / 2 else mem q) := by
  induction fuel with
  | zero =>
    intro cur k mem h1 h2
    have hc : cur = endp := by omega
    simp only [fnnfast_randomize_loop, if_pos hc]
    congr 1
    funext q
    rw [if_neg (by omega)]
  | succ fuel ih =>
    intro cur k mem h1 h2
    by_cases hc : cur = endp
    · simp only [fnnfast_randomize_loop, if_pos hc]
      congr 1
      funext q
      rw [if_neg (by omega)]
    · simp only [fnnfast_randomize_loop, if_neg hc]
      rw [ih (cur + 1) (k + 1) _ (by omega) (by omega)]
      congr 1
      funext q
      by_cases hq : q = cur
      · subst hq
        rw [if_neg (by omega), store_same, if_pos (by omega), Nat.sub_self, Nat.add_zero]
      · rw [store_other _ _ _ _ hq]
        by_cases hq' : cur + 1 ≤ q ∧ q < endp
        · rw [if_pos hq', if_pos (by omega)]
          have e : k + 1 + (q - (cur + 1)) = k + (q - cur) := by omega
          rw [e]
        · rw [if_neg hq', if_neg (by omega)]

/-- Result of `fnnfast_randomize` on a network, given enough fuel for the loop: the element
at distance `n` from the start of `input_weights` receives the `n`-th draw. -/
theorem randomize_result {K : Type} [Field K] {abi : Abi} {data : fnnfast_data K}
    (hnet : is_network abi data) (RAND_MAX : Nat) (rand_stream : Nat → Nat → Nat) (seed : Nat)
    (fuel : Nat)
    (hfuel : (data.num_input + 1) * data.num_hidden + (data.num_hidden + 1) * data.num_output
      ≤ fuel) :
    fnnfast_randomize abi RAND_MAX rand_stream fuel data seed
      = some { data with
          mem := fun q =>
            if data.p_input_weights ≤ q
                ∧ q < region_elems data.num_input data.num_hidden data.num_output then
              (rand_stream seed (0 + (q - data.p_input_weights)) : K) / (RAND_MAX : K) - 1 / 2
            else data.mem q } := by
  obtain ⟨-, -, -, hIW, -⟩ := is_network_pointers hnet
  have e1 : 2 * (data.num_input + 1) * data.num_hidden
      = 2 * ((data.num_input + 1) * data.num_hidden) := Nat.mul_assoc _ _ _
  have e2 : 2 * (data.num_hidden + 1) * data.num_output
      = 2 * ((data.num_hidden + 1) * data.num_output) := Nat.mul_assoc _ _ _
  simp only [fnnfast_randomize]
  rw [end_pointer_eq hnet, randomize_loop_spec _ _ _ _ _ _ _
    (by unfold region_elems; omega) (by unfold region_elems; omega)]
  rfl

theorem draw_bounds {K : Type} [LinearOrderedField K] {RAND_MAX n : Nat} (hR : 0 < RAND_MAX)
    (hn : n ≤ RAND_MAX) :
    -(1 / 2) ≤ (n : K) / (RAND_MAX : K) - 1 / 2 ∧ (n : K) / (RAND_MAX : K) - 1 / 2 ≤ 1 / 2 := by
  have hR' : (0 : K) < (RAND_MAX : K) := Nat.cast_pos.mpr hR
  have h0 : (0 : K) ≤ (n : K) / (RAND_MAX : K) := div_nonneg (Nat.cast_nonneg n) (le_of_lt hR')
  have h1 : (n : K) / (RAND_MAX : K) ≤ 1 := (div_le_one hR').mpr (Nat.cast_le.mpr hn)
  constructor <;> linarith

/-- Claim C9, as amended. For every network and every seed, after `fnnfast_randomize` every
element `w` of `input_weights` and `hidden_weights` is the corresponding draw of `rand()`
divided by `RAND_MAX`, minus `1/2`, and satisfies `-0.5 <= w <= 0.5`, for every value the
generator may return (any integer in `0..RAND_MAX`). -/
theorem randomize_weight_bounds {K : Type} [LinearOrderedField K] (abi : Abi)
    (data : fnnfast_data K) (hnet : is_network abi data) (RAND_MAX : Nat)
    (rand_stream : Nat → Nat → Nat) (seed : Nat) (hR : 0 < RAND_MAX)
    (hdraw : ∀ k, rand_stream seed k ≤ RAND_MAX) (fuel : Nat)
    (hfuel : (data.num_input + 1) * data.num_hidden + (data.num_hidden + 1) * data.num_output
      ≤ fuel) :
    ∃ d, fnnfast_randomize abi RAND_MAX rand_stream fuel data seed = some d
      ∧ (∀ k, k < (data.num_input + 1) * data.num_hidden →
          input_weights d k = (rand_stream seed k : K) / (RAND_MAX : K) - 1 / 2
            ∧ -(1 / 2) ≤ input_weights d k ∧ input_weights d k ≤ 1 / 2)
      ∧ (∀ k, k < (data.num_hidden + 1) * data.num_output →
          hidden_weights d k
              = (rand_stream seed ((data.num_input + 1) * data.num_hidden + k) : K)
                  / (RAND_MAX : K) - 1 / 2
            ∧ -(1 / 2) ≤ hidden_weights d k ∧ hidden_weights d k ≤ 1 / 2) := by
  obtain ⟨hP, hDIH, hDHO, hIW, hHW⟩ := is_network_pointers hnet
  have e1 : 2 * (data.num_input + 1) * data.num_hidden
      = 2 * ((data.num_input + 1) * data.num_hidden) := Nat.mul_assoc _ _ _
  have e2 : 2 * (data.num_hidden + 1) * data.num_output
      = 2 * ((data.num_hidden + 1) * data.num_output) := Nat.mul_assoc _ _ _
  refine ⟨_, randomize_result hnet RAND_MAX rand_stream seed fuel hfuel, ?_, ?_⟩
  · intro k hk
    have hv : input_weights
        { data with
          mem := fun q =>
            if data.p_input_weights ≤ q
                ∧ q < region_elems data.num_input data.num_hidden data.num_output then
              (rand_stream seed (0 + (q - data.p_input_weights)) : K) / (RAND_MAX : K) - 1 / 2
            else data.mem q } k
        = (rand_stream seed k : K) / (RAND_MAX : K) - 1 / 2 := by
      simp only [input_weights]
      rw [if_pos (by unfold region_elems; omega)]
      have e : 0 + (data.p_input_weights + k - data.p_input_weights) = k := by omega
      rw [e]
    rw [hv]
    exact ⟨rfl, draw_bounds hR (hdraw _)⟩
  · intro k hk
    have hv : hidden_weights
        { data with
          mem := fun q =>
            if data.p_input_weights ≤ q
                ∧ q < region_elems data.num_input data.num_hidden data.num_output then
              (rand_stream seed (0 + (q - data.p_input_weights)) : K) / (RAND_MAX : K) - 1 / 2
            else data.mem q } k
        = (rand_stream seed ((data.num_input + 1) * data.num_hidden + k) : K)
            / (RAND_MAX : K) - 1 / 2 := by
      simp only [hidden_weights]
      rw [if_pos (by unfold region_elems; omega)]
      have e : 0 + (data.p_hidden_weights + k - data.p_input_weights)
          = (data.num_input + 1) * data.num_hidden + k := by omega
      rw [e]
    rw [hv]
    exact ⟨rfl, draw_bounds hR (hdraw _)⟩

/-- Witness for claim C9. Randomising the zero `(1, 1, 1)` network with `RAND_MAX = 32767` and a
generator whose `k`-th draw for seed `s` is `(s + k) % 32768`. -/
theorem randomize_weight_bounds_witness :
    is_network x86_64 (zero_net ℚ 1 1 1) ∧ 0 < 32767 ∧ (∀ k, (7 + k) % 32768 ≤ 32767)
      ∧ ∃ d, fnnfast_randomize x86_64 32767 (fun s k => (s + k) % 32768) 4
            (zero_net ℚ 1 1 1) 7 = some d
        ∧ -(1 / 2) ≤ input_weights d 0 ∧ input_weights d 0 ≤ 1 / 2 := by
  have hd : ∀ k, (7 + k) % 32768 ≤ 32767 := fun k => by omega
  obtain ⟨d, h, h1, -⟩ := randomize_weight_bounds x86_64 (zero_net ℚ 1 1 1)
    (zero_net_is_network_111 ℚ) 32767 (fun s k => (s + k) % 32768) 7 (by decide) hd 4
    (by decide : (1 + 1) * 1 + (1 + 1) * 1 ≤ 4)
  exact ⟨zero_net_is_network_111 ℚ, by decide, hd, d, h,
    (h1 0 (by decide : 0 < (1 + 1) * 1)).2⟩

/-- Counterexample to claim C9 as stated. A generator that returns `RAND_MAX` (a value `rand()` may
return): `fnnfast_randomize` stores `RAND_MAX / RAND_MAX - 1/2 = 1/2`, which is not below
`1/2`. -/
theorem randomize_weight_reaches_half :
    (∀ s k : Nat, (fun _ _ => 32767 : Nat → Nat → Nat) s k ≤ 32767)
      ∧ ∃ d, fnnfast_randomize x86_64 32767 (fun _ _ => 32767) 4 (zero_net ℚ 1 1 1) 0 = some d
        ∧ input_weights d 0 = 1 / 2 ∧ ¬ (input_weights d 0 < 1 / 2) := by
  refine ⟨fun _ _ => Nat.le_refl _, _,
    randomize_result (zero_net_is_network_111 ℚ) 32767 (fun _ _ => 32767) 0 4
      (by decide : (1 + 1) * 1 + (1 + 1) * 1 ≤ 4), ?_⟩
  have key : ∀ x : ℚ, x = 1 / 2 → x = 1 / 2 ∧ ¬ x < 1 / 2 :=
    fun x hx => ⟨hx, by rw [hx]; exact lt_irrefl _⟩
  apply key
  simp only [input_weights]
  rw [if_pos (by decide)]
  norm_num

/-! ## Mean squared deviation -/

/-- The outputs of `fnnfast_feedforward` do not depend on the previous contents of
`hidden_activations` nor on the previous contents of the output buffer. -/
theorem feedforward_agree {K : Type} [Field K] (exp_neuron : K → K) {abi : Abi}
    {data : fnnfast_data K} (hnet : is_network abi data) (m : Nat → K)
    (hm : ∀ q, ¬ (data.p_hidden_neurons ≤ q ∧ q < data.p_hidden_neurons + data.num_hidden) →
      m q = data.mem q)
    (input out out' : Nat → K) :
    (∀ q, ¬ (data.p_hidden_neurons ≤ q ∧ q < data.p_hidden_neurons + data.num_hidden) →
        (fnnfast_feedforward exp_neuron abi { data with mem := m } input out).1.mem q
          = data.mem q)
      ∧ (∀ j, j < data.num_output →
        (fnnfast_feedforward exp_neuron abi { data with mem := m } input out).2 j
          = (fnnfast_feedforward exp_neuron abi data input out').2 j) := by
  obtain ⟨hP, hDIH, hDHO, hIW, hHW⟩ := is_network_pointers hnet
  obtain ⟨f1, f2, f3⟩ := feedforward_result exp_neuron (is_network_with_mem hnet m) input out
  obtain ⟨g1, -, g3⟩ := feedforward_result exp_neuron hnet input out'
  constructor
  · intro q hq
    exact (f2 q hq).trans (hm q hq)
  · intro j hj
    have a := f3 j
    have b := g3 j
    simp only at a
    rw [if_pos hj] at a b
    rw [a, b]
    rw [net_input_congr data.num_hidden data.num_output
      (fun i => (fnnfast_feedforward exp_neuron abi { data with mem := m } input out).1.mem
        (data.p_hidden_neurons + i))
      (fun i => (fnnfast_feedforward exp_neuron abi data input out').1.mem
        (data.p_hidden_neurons + i))
      (fun k => m (data.p_hidden_weights + k)) (fun k => data.mem (data.p_hidden_weights + k))
      hj ?_ (fun k _ => hm _ (by omega))]
    intro i hi
    have c := f1 i hi
    simp only at c
    beta_reduce
    rw [c, g1 i hi]
    rw [net_input_congr data.num_input data.num_hidden input input
      (fun k => m (data.p_input_weights + k)) (fun k => data.mem (data.p_input_weights + k))
      hi (fun _ _ => rfl) (fun k _ => hm _ (by omega))]

/-- State of the loop of `fnnfast_mean_squared_deviation` after `n` examples. -/
theorem mean_squared_deviation_loop {K : Type} [Field K] (exp_neuron : K → K)
    (pow_neuron : K → K → K) {abi : Abi} {data : fnnfast_data K} (hnet : is_network abi data)
    (input_set output_set : Nat → Nat → K) (output : Nat → K) (n : Nat) :
    ∃ m : Nat → K,
      (for_loop n (mean_squared_deviation_step exp_neuron pow_neuron abi input_set output_set)
          (data, output, 0)).1 = { data with mem := m }
        ∧ (∀ q, ¬ (data.p_hidden_neurons ≤ q ∧ q < data.p_hidden_neurons + data.num_hidden) →
            m q = data.mem q)
        ∧ (for_loop n (mean_squared_deviation_step exp_neuron pow_neuron abi input_set output_set)
            (data, output, 0)).2.2
          = ∑ e in Finset.range n, ∑ j in Finset.range data.num_output,
              pow_neuron ((fnnfast_feedforward exp_neuron abi data (input_set e) output).2 j
                - output_set e j) 2 := by
  induction n with
  | zero => exact ⟨data.mem, rfl, fun _ _ => rfl, by simp [for_loop]⟩
  | succ n ih =>
    obtain ⟨m, hs, hag, hsum⟩ := ih
    obtain ⟨a1, a2⟩ := feedforward_agree exp_neuron hnet m hag (input_set n)
      (for_loop n (mean_squared_deviation_step exp_neuron pow_neuron abi input_set output_set)
        (data, output, 0)).2.1 output
    simp only [for_loop, mean_squared_deviation_step]
    rw [hs]
    refine ⟨_, rfl, a1, ?_⟩
    rw [for_loop_sum, hsum, Finset.sum_range_succ]
    congr 1
    apply Finset.sum_congr rfl
    intro j hj
    rw [a2 j (Finset.mem_range.mp hj)]

theorem store_lift {K : Type} (m : Nat → K) (p : Nat) (v : K) :
    store (lift_values m) p (xneuron.num v) = lift_values (store m p v) := by
  funext q
  simp only [store, lift_values]
  split <;> rfl

theorem for_loop_lift {σ τ : Type} (L : σ → τ) (f : Nat → σ → σ) (g : Nat → τ → τ) (n : Nat)
    (h : ∀ j, j < n → ∀ t, g j (L t) = L (f j t)) (s : σ) :
    for_loop n g (L s) = L (for_loop n f s) := by
  induction n with
  | zero => rfl
  | succ n ih =>
    simp only [for_loop]
    rw [ih (fun j hj => h j (Nat.lt_succ_of_lt hj)), h n (Nat.lt_succ_self n)]

/-- A loop that accumulates into one element of a store. -/
theorem for_loop_store_acc {α : Type} (op : α → α → α) (t : Nat → α) (i n : Nat)
    (o : Nat → α) :
    for_loop n (fun j o => store o i (op (o i) (t j))) o
      = store o i (for_loop n (fun j a => op a (t j)) (o i)) := by
  induction n with
  | zero =>
    funext q
    by_cases h : q = i <;> simp [for_loop, store, h]
  | succ n ih =>
    simp only [for_loop]
    rw [ih, store_store, store_same]

/-- On a finite argument `fnnfast_activate` yields the finite number of the exact
translation, the exponential being non-negative. -/
theorem activate_ext_num {K : Type} [LinearOrderedField K] (exp_neuron : K → K)
    (hexp : ∀ x, 0 ≤ exp_neuron x) (n : K) :
    fnnfast_activate_ext exp_neuron (xneuron.num n)
      = xneuron.num (fnnfast_activate exp_neuron n) := by
  have h : (1 : K) + exp_neuron (-n) ≠ 0 :=
    ne_of_gt (add_pos_of_pos_of_nonneg zero_lt_one (hexp _))
  simp only [fnnfast_activate_ext, fnnfast_activate, xneuron.neg, xneuron.exp, xneuron.add,
    xneuron.div, if_neg h]

/-- On finite storage and finite inputs the body of the first loop of `fnnfast_feedforward`
computes the finite numbers of the exact translation. -/
theorem feedforward_hidden_unit_ext_lift {K : Type} [LinearOrderedField K] (exp_neuron : K → K)
    (hexp : ∀ x, 0 ≤ exp_neuron x) (abi : Abi) (data : fnnfast_data K) (input : Nat → K)
    (i : Nat) (mem : Nat → K) :
    feedforward_hidden_unit_ext exp_neuron abi (lift_data data) (lift_values input) i
        (lift_values mem)
      = lift_values (feedforward_hidden_unit exp_neuron abi data input i mem) := by
  have hloop : ∀ m0 : Nat → K,
      for_loop data.num_input
          (feedforward_hidden_step_ext abi (lift_data data) (lift_values input) i)
          (lift_values m0)
        = lift_values (for_loop data.num_input (fun j mem =>
            store mem (data.p_hidden_neurons + i)
              (mem (data.p_hidden_neurons + i)
                + input j
                  * mem (data.p_input_weights + size_add abi (size_mul abi j data.num_hidden) i)))
            m0) :=
    fun m0 => for_loop_lift lift_values _ _ _ (fun j _ t => store_lift _ _ _) m0
  have e1 : feedforward_hidden_unit_ext exp_neuron abi (lift_data data) (lift_values input) i
        (lift_values mem)
      = store
          (store
            (for_loop data.num_input
              (feedforward_hidden_step_ext abi (lift_data data) (lift_values input) i)
              (store (lift_values mem) (data.p_hidden_neurons + i) (xneuron.num 0)))
            (data.p_hidden_neurons + i)
            (xneuron.add
              ((for_loop data.num_input
                (feedforward_hidden_step_ext abi (lift_data data) (lift_values input) i)
                (store (lift_values mem) (data.p_hidden_neurons + i) (xneuron.num 0)))
                (data.p_hidden_neurons + i))
              (xneuron.mul (xneuron.neg (xneuron.num 1))
                ((for_loop data.num_input
                  (feedforward_hidden_step_ext abi (lift_data data) (lift_values input) i)
                  (store (lift_values mem) (data.p_hidden_neurons + i) (xneuron.num 0)))
                  (data.p_input_weights
                    + size_add abi (size_mul abi data.num_input data.num_hidden) i)))))
          (data.p_hidden_neurons + i)
          (fnnfast_activate_ext exp_neuron
            ((store
              (for_loop data.num_input
                (feedforward_hidden_step_ext abi (lift_data data) (lift_values input) i)
                (store (lift_values mem) (data.p_hidden_neurons + i) (xneuron.num 0)))
              (data.p_hidden_neurons + i)
              (xneuron.add
                ((for_loop data.num_input
                  (feedforward_hidden_step_ext abi (lift_data data) (lift_values input) i)
                  (store (lift_values mem) (data.p_hidden_neurons + i) (xneuron.num 0)))
                  (data.p_hidden_neurons + i))
                (xneuron.mul (xneuron.neg (xneuron.num 1))
                  ((for_loop data.num_input
                    (feedforward_hidden_step_ext abi (lift_data data) (lift_values input) i)
                    (store (lift_values mem) (data.p_hidden_neurons + i) (xneuron.num 0)))
                    (data.p_input_weights
                      + size_add abi (size_mul abi data.num_input data.num_hidden) i)))))
              (data.p_hidden_neurons + i))) := rfl
  rw [e1, store_lift, hloop]
  have e2 : ∀ (m : Nat → K) (p q : Nat),
      xneuron.add (lift_values m p) (xneuron.mul (xneuron.neg (xneuron.num 1)) (lift_values m q))
        = xneuron.num (m p + -1 * m q) := fun _ _ _ => rfl
  rw [e2, store_lift]
  have e3 : ∀ (m : Nat → K) (p : Nat), lift_values m p = xneuron.num (m p) := fun _ _ => rfl
  rw [e3, activate_ext_num exp_neuron hexp, store_lift]
  rfl

/-- The body of the second loop of `fnnfast_feedforward` stores one value, which does not
depend on the `output` buffer. -/
theorem feedforward_output_unit_acc {K : Type} [Field K] (exp_neuron : K → K) (abi : Abi)
    (data : fnnfast_data K) (mem : Nat → K) (i : Nat) (output : Nat → K) :
    feedforward_output_unit exp_neuron abi data mem i output
      = store output i (fnnfast_activate exp_neuron
          (for_loop data.num_hidden (fun j a =>
              a + mem (data.p_hidden_neurons + j)
                * mem (data.p_hidden_weights + size_add abi (size_mul abi j data.num_output) i))
              0
            + -1 * mem (data.p_hidden_weights
                + size_add abi (size_mul abi data.num_hidden data.num_output) i))) := by
  have hacc := for_loop_store_acc (fun a b : K => a + b)
    (fun j => mem (data.p_hidden_neurons + j)
      * mem (data.p_hidden_weights + size_add abi (size_mul abi j data.num_output) i))
    i data.num_hidden (store output i 0)
  simp only [feedforward_output_unit]
  rw [hacc]
  simp only [store_store, store_same]

/-- On finite storage the body of the second loop of `fnnfast_feedforward` stores the finite
number of the exact translation, whatever the `output` buffer holds. -/
theorem feedforward_output_unit_ext_lift {K : Type} [LinearOrderedField K]
    (exp_neuron : K → K) (hexp : ∀ x, 0 ≤ exp_neuron x) (abi : Abi) (data : fnnfast_data K)
    (mem : Nat → K) (i : Nat) (output : Nat → xneuron K) (output' : Nat → K) :
    feedforward_output_unit_ext exp_neuron abi (lift_data data) (lift_values mem) i output
      = store output i
          (xneuron.num (feedforward_output_unit exp_neuron abi data mem i output' i)) := by
  have hacc := for_loop_store_acc (fun a b : xneuron K => xneuron.add a b)
    (fun j => xneuron.mul (lift_values mem (data.p_hidden_neurons + j))
      (lift_values mem (data.p_hidden_weights + size_add abi (size_mul abi j data.num_output) i)))
    i data.num_hidden (store output i (xneuron.num 0))
  have hL : for_loop (lift_data data).num_hidden
        (feedforward_output_step_ext abi (lift_data data) (lift_values mem) i)
        (store output i (xneuron.num 0))
      = store (store output i (xneuron.num 0)) i
          (for_loop data.num_hidden (fun j a => xneuron.add a
              (xneuron.mul (lift_values mem (data.p_hidden_neurons + j))
                (lift_values mem
                  (data.p_hidden_weights + size_add abi (size_mul abi j data.num_output) i))))
            (store output i (xneuron.num 0) i)) := hacc
  have hsum : for_loop data.num_hidden (fun j a => xneuron.add a
          (xneuron.mul (lift_values mem (data.p_hidden_neurons + j))
            (lift_values mem
              (data.p_hidden_weights + size_add abi (size_mul abi j data.num_output) i))))
        (xneuron.num 0)
      = xneuron.num (for_loop data.num_hidden (fun j a =>
          a + mem (data.p_hidden_neurons + j)
            * mem (data.p_hidden_weights + size_add abi (size_mul abi j data.num_output) i))
          0) :=
    for_loop_lift xneuron.num _ _ _ (fun _ _ _ => rfl) 0
  rw [feedforward_output_unit_acc, store_same]
  simp only [feedforward_output_unit_ext]
  rw [hL]
  simp only [store_store, store_same]
  rw [hsum]
  have e2 : ∀ (a : K) (q : Nat),
      xneuron.add (xneuron.num a) (xneuron.mul (xneuron.neg (xneuron.num 1)) (lift_values mem q))
        = xneuron.num (a + -1 * mem q) := fun _ _ => rfl
  have e3 : ∀ q, (lift_data data).p_hidden_weights
      + size_add abi (size_mul abi (lift_data data).num_hidden (lift_data data).num_output) q
      = data.p_hidden_weights + size_add abi (size_mul abi data.num_hidden data.num_output) q :=
    fun _ => rfl
  rw [e3, e2, activate_ext_num exp_neuron hexp]

/-- On finite storage the second loop of `fnnfast_feedforward` leaves in the elements it has
passed the finite numbers of the exact translation, whatever the buffers held. -/
theorem feedforward_output_loop_ext_lift {K : Type} [LinearOrderedField K]
    (exp_neuron : K → K) (hexp : ∀ x, 0 ≤ exp_neuron x) (abi : Abi) (data : fnnfast_data K)
    (mem : Nat → K) (output : Nat → xneuron K) (output' : Nat → K) (n q : Nat) (hq : q < n) :
    for_loop n (feedforward_output_unit_ext exp_neuron abi (lift_data data) (lift_values mem))
        output q
      = xneuron.num
          (for_loop n (feedforward_output_unit exp_neuron abi data mem) output' q) := by
  induction n with
  | zero => exact absurd hq (Nat.not_lt_zero _)
  | succ n ih =>
    simp only [for_loop]
    rw [feedforward_output_unit_ext_lift exp_neuron hexp abi data mem n _
      (for_loop n (feedforward_output_unit exp_neuron abi data mem) output')]
    by_cases h : q = n
    · subst h
      rw [store_same]
    · rw [store_other _ _ _ _ h, ih (by omega)]
      rw [feedforward_output_unit_acc, store_other _ _ _ _ h]

/-- On a block of finite numbers and a finite input, `fnnfast_feedforward` over `xneuron`
leaves the block of the exact translation and its outputs, whatever the `output` buffers
held. -/
theorem feedforward_ext_lift {K : Type} [LinearOrderedField K] (exp_neuron : K → K)
    (hexp : ∀ x, 0 ≤ exp_neuron x) (abi : Abi) (data : fnnfast_data K) (input : Nat → K)
    (output : Nat → xneuron K) (output' : Nat → K) :
    (fnnfast_feedforward_ext exp_neuron abi (lift_data data) (lift_values input) output).1
        = lift_data (fnnfast_feedforward exp_neuron abi data input output').1
      ∧ ∀ j, j < data.num_output →
        (fnnfast_feedforward_ext exp_neuron abi (lift_data data) (lift_values input) output).2 j
          = xneuron.num ((fnnfast_feedforward exp_neuron abi data input output').2 j) := by
  have hmem : for_loop data.num_hidden
        (feedforward_hidden_unit_ext exp_neuron abi (lift_data data) (lift_values input))
        (lift_values data.mem)
      = lift_values (for_loop data.num_hidden
          (feedforward_hidden_unit exp_neuron abi data input) data.mem) :=
    for_loop_lift lift_values _ _ _
      (fun i _ t => feedforward_hidden_unit_ext_lift exp_neuron hexp abi data input i t) _
  have e1 : (fnnfast_feedforward_ext exp_neuron abi (lift_data data) (lift_values input)
        output)
      = ({ lift_data data with mem := (for_loop data.num_hidden
            (feedforward_hidden_unit_ext exp_neuron abi (lift_data data) (lift_values input))
            (lift_values data.mem)) },
          for_loop data.num_output
            (feedforward_output_unit_ext exp_neuron abi (lift_data data)
              (for_loop data.num_hidden
                (feedforward_hidden_unit_ext exp_neuron abi (lift_data data)
                  (lift_values input))
                (lift_values data.mem))) output) := rfl
  rw [e1, hmem]
  constructor
  · rfl
  · intro j hj
    exact feedforward_output_loop_ext_lift exp_neuron hexp abi data _ output output' _ j hj

/-- State of the loop of `fnnfast_mean_squared_deviation` over `xneuron` after `n` examples,
for a block of finite numbers and finite inputs and targets. -/
theorem mean_squared_deviation_loop_ext_lift {K : Type} [LinearOrderedField K]
    (exp_neuron : K → K) (hexp : ∀ x, 0 ≤ exp_neuron x) (pow_neuron : K → K → K) (abi : Abi)
    (data : fnnfast_data K) (input_set output_set : Nat → Nat → K) (output : Nat → xneuron K)
    (output' : Nat → K) (n : Nat) :
    (for_loop n
        (mean_squared_deviation_step_ext exp_neuron pow_neuron abi
          (fun e => lift_values (input_set e)) (fun e => lift_values (output_set e)))
        (lift_data data, output, xneuron.num 0)).1
        = lift_data
            (for_loop n
              (mean_squared_deviation_step exp_neuron pow_neuron abi input_set output_set)
              (data, output', 0)).1
      ∧ (for_loop n
          (mean_squared_deviation_step_ext exp_neuron pow_neuron abi
            (fun e => lift_values (input_set e)) (fun e => lift_values (output_set e)))
          (lift_data data, output, xneuron.num 0)).2.2
        = xneuron.num
            (for_loop n
              (mean_squared_deviation_step exp_neuron pow_neuron abi input_set output_set)
              (data, output', 0)).2.2 := by
  induction n with
  | zero => exact ⟨rfl, rfl⟩
  | succ n ih =>
    simp only [for_loop]
    generalize for_loop n
      (mean_squared_deviation_step_ext exp_neuron pow_neuron abi
        (fun e => lift_values (input_set e)) (fun e => lift_values (output_set e)))
      (lift_data data, output, xneuron.num 0) = se at ih ⊢
    generalize for_loop n
      (mean_squared_deviation_step exp_neuron pow_neuron abi input_set output_set)
      (data, output', 0) = sf at ih ⊢
    obtain ⟨d, o, sq⟩ := se
    obtain ⟨d', o', sq'⟩ := sf
    obtain ⟨h1, h2⟩ := ih
    simp only at h1 h2
    subst h1 h2
    obtain ⟨a1, a2⟩ := feedforward_ext_lift exp_neuron hexp abi d' (input_set n) o o'
    constructor
    · exact a1
    · show for_loop
          (fnnfast_feedforward_ext exp_neuron abi (lift_data d') (lift_values (input_set n))
            o).1.num_output
          (mean_squared_deviation_add_ext pow_neuron
            (fnnfast_feedforward_ext exp_neuron abi (lift_data d') (lift_values (input_set n))
              o).2 (lift_values (output_set n))) (xneuron.num sq')
        = xneuron.num (for_loop d'.num_output (fun j sq_deviation =>
            sq_deviation + pow_neuron
              ((fnnfast_feedforward exp_neuron abi d' (input_set n) o').2 j - output_set n j) 2)
            sq')
      rw [a1]
      apply for_loop_lift xneuron.num
      intro j hj t
      simp only [mean_squared_deviation_add_ext]
      rw [a2 j hj]
      rfl

/-- Value returned by `fnnfast_mean_squared_deviation` over `xneuron` for a network of finite
numbers and finite inputs and targets: the quotient of two finite numbers. -/
theorem mean_squared_deviation_ext_lift {K : Type} [LinearOrderedField K] (exp_neuron : K → K)
    (hexp : ∀ x, 0 ≤ exp_neuron x) (pow_neuron : K → K → K) {abi : Abi}
    {data : fnnfast_data K} (hnet : is_network abi data)
    (input_set output_set : Nat → Nat → K) (num : Nat) (output : Nat → xneuron K)
    (output' : Nat → K) :
    (fnnfast_mean_squared_deviation_ext exp_neuron pow_neuron abi (lift_data data)
        (fun e => lift_values (input_set e)) (fun e => lift_values (output_set e)) num
        output).2
      = xneuron.div
          (xneuron.num (∑ e in Finset.range num, ∑ j in Finset.range data.num_output,
            pow_neuron ((fnnfast_feedforward exp_neuron abi data (input_set e) output').2 j
              - output_set e j) 2))
          (xneuron.num ((size_mul abi data.num_output num : Nat) : K)) := by
  obtain ⟨h1, h2⟩ := mean_squared_deviation_loop_ext_lift exp_neuron hexp pow_neuron abi data
    input_set output_set output output' num
  obtain ⟨m, hs, -, hsum⟩ := mean_squared_deviation_loop exp_neuron pow_neuron hnet input_set
    output_set output' num
  simp only [fnnfast_mean_squared_deviation_ext]
  rw [h1, h2, hsum, hs]
  rfl

theorem for_loop_invariant {σ : Type} (P : σ → Prop) (n : Nat) (f : Nat → σ → σ) (s : σ)
    (hs : P s) (h : ∀ j, j < n → ∀ t, P t → P (f j t)) : P (for_loop n f s) := by
  induction n with
  | zero => exact hs
  | succ n ih =>
    exact h n (Nat.lt_succ_self n) _ (ih (fun j hj => h j (Nat.lt_succ_of_lt hj)))

/-- A square computed by `pow_neuron(x, NEURON_TWO)` is a NaN or is `>= 0`. -/
theorem pow_two_nan_or_nonneg {K : Type} [LinearOrderedField K] (pow_neuron : K → K → K)
    (hpow : ∀ x, pow_neuron x 2 = x ^ 2) (x : xneuron K) :
    xneuron.pow_two pow_neuron x = xneuron.nan
      ∨ xneuron.nonneg (xneuron.pow_two pow_neuron x) := by
  cases x with
  | num a =>
    right
    show 0 ≤ pow_neuron a 2
    rw [hpow]
    exact sq_nonneg a
  | inf s => exact Or.inr rfl
  | nan => exact Or.inl rfl

/-- The sum of two values that are a NaN or `>= 0` is a NaN or `>= 0`. -/
theorem add_nan_or_nonneg {K : Type} [LinearOrderedField K] (x y : xneuron K)
    (hx : x = xneuron.nan ∨ xneuron.nonneg x) (hy : y = xneuron.nan ∨ xneuron.nonneg y) :
    xneuron.add x y = xneuron.nan ∨ xneuron.nonneg (xneuron.add x y) := by
  cases x with
  | nan => cases y <;> exact Or.inl rfl
  | num a =>
    cases y with
    | nan => exact Or.inl rfl
    | num b =>
      rcases hx with hx | hx
      · exact xneuron.noConfusion hx
      · rcases hy with hy | hy
        · exact xneuron.noConfusion hy
        · exact Or.inr (add_nonneg hx hy)
    | inf t =>
      rcases hy with hy | hy
      · exact xneuron.noConfusion hy
      · exact Or.inr hy
  | inf s =>
    rcases hx with hx | hx
    · exact xneuron.noConfusion hx
    · have hs : s = false := hx
      subst hs
      cases y with
      | nan => exact Or.inl rfl
      | num b => exact Or.inr rfl
      | inf t =>
        rcases hy with hy | hy
        · exact xneuron.noConfusion hy
        · have ht : t = false := hy
          subst ht
          exact Or.inr rfl

/-- The quotient of a value that is a NaN or `>= 0` by a converted `size_t` is a NaN or
`>= 0`. -/
theorem div_nan_or_nonneg {K : Type} [LinearOrderedField K] (x : xneuron K) (n : Nat)
    (hx : x = xneuron.nan ∨ xneuron.nonneg x) :
    xneuron.div x (xneuron.num (n : K)) = xneuron.nan
      ∨ xneuron.nonneg (xneuron.div x (xneuron.num (n : K))) := by
  have hn : ¬ ((n : K) < 0) := not_lt.mpr (Nat.cast_nonneg n)
  cases x with
  | nan => exact Or.inl rfl
  | num a =>
    rcases hx with hx | hx
    · exact xneuron.noConfusion hx
    · have ha : 0 ≤ a := hx
      by_cases hd : (n : K) = 0
      · by_cases ha0 : a = 0
        · left
          simp only [xneuron.div, if_pos hd, if_pos ha0]
        · right
          simp only [xneuron.div, if_pos hd, if_neg ha0]
          show decide (a < 0) = false
          exact decide_eq_false (not_lt.mpr ha)
      · right
        simp only [xneuron.div, if_neg hd]
        exact div_nonneg ha (Nat.cast_nonneg n)
  | inf s =>
    rcases hx with hx | hx
    · exact xneuron.noConfusion hx
    · have hs : s = false := hx
      subst hs
      right
      show xor false (decide ((n : K) < 0)) = false
      rw [decide_eq_false hn]
      rfl

/-- The value `fnnfast_mean_squared_deviation` returns is never negative, whatever the block,
the example set and the buffer hold: it is a NaN or is `>= 0`. -/
theorem mean_squared_deviation_ext_nan_or_nonneg {K : Type} [LinearOrderedField K]
    (exp_neuron : K → K) (pow_neuron : K → K → K) (hpow : ∀ x, pow_neuron x 2 = x ^ 2)
    (abi : Abi) (data : fnnfast_data (xneuron K))
    (input_set output_set : Nat → Nat → xneuron K) (num : Nat) (output : Nat → xneuron K) :
    (fnnfast_mean_squared_deviation_ext exp_neuron pow_neuron abi data input_set output_set
        num output).2 = xneuron.nan
      ∨ xneuron.nonneg (fnnfast_mean_squared_deviation_ext exp_neuron pow_neuron abi data
          input_set output_set num output).2 := by
  have hloop := for_loop_invariant
    (fun s : fnnfast_data (xneuron K) × (Nat → xneuron K) × xneuron K =>
      s.2.2 = xneuron.nan ∨ xneuron.nonneg s.2.2)
    num (mean_squared_deviation_step_ext exp_neuron pow_neuron abi input_set output_set)
    (data, output, xneuron.num 0) (Or.inr (le_refl (0 : K)))
    (fun e _ s hs => for_loop_invariant
      (fun sq : xneuron K => sq = xneuron.nan ∨ xneuron.nonneg sq)
      (fnnfast_feedforward_ext exp_neuron abi s.1 (input_set e) s.2.1).1.num_output
      (mean_squared_deviation_add_ext pow_neuron
        (fnnfast_feedforward_ext exp_neuron abi s.1 (input_set e) s.2.1).2 (output_set e))
      s.2.2 hs
      (fun j _ sq hsq =>
        add_nan_or_nonneg _ _ hsq (pow_two_nan_or_nonneg pow_neuron hpow _)))
  exact div_nan_or_nonneg _ _ hloop

/-- Claim C11, as amended. (a) Whatever the block, the example set and the buffer obtained
from `malloc` hold, the value `fnnfast_mean_squared_deviation` returns is never negative: it
is a NaN or is `>= 0`.  (b) For every network whose storage holds finite numbers, and any
input/output pair set of finite numbers whose divisor, the `size_t` product `O * num`, is not
zero, the value returned is a finite non-negative number, and that number is `0` whenever
`fnnfast_feedforward` on each input of the set produces exactly the corresponding target
vector; here the arithmetic on finite numbers is exact, so that no operation overflows to an
infinity.  (`pow_neuron x 2` is `x ^ 2` and `exp_neuron` is non-negative.) -/
theorem mean_squared_deviation_nonneg {K : Type} [LinearOrderedField K] (exp_neuron : K → K)
    (hexp : ∀ x, 0 ≤ exp_neuron x) (pow_neuron : K → K → K)
    (hpow : ∀ x, pow_neuron x 2 = x ^ 2) (abi : Abi) :
    (∀ (block : fnnfast_data (xneuron K)) (input_set output_set : Nat → Nat → xneuron K)
        (num : Nat) (output : Nat → xneuron K),
        (fnnfast_mean_squared_deviation_ext exp_neuron pow_neuron abi block input_set
            output_set num output).2 = xneuron.nan
          ∨ xneuron.nonneg (fnnfast_mean_squared_deviation_ext exp_neuron pow_neuron abi block
              input_set output_set num output).2)
      ∧ ∀ (data : fnnfast_data K) (input_set output_set : Nat → Nat → K) (num : Nat)
          (output : Nat → xneuron K),
          is_network abi data → size_mul abi data.num_output num ≠ 0 →
          ∃ v : K,
            (fnnfast_mean_squared_deviation_ext exp_neuron pow_neuron abi (lift_data data)
                (fun e => lift_values (input_set e)) (fun e => lift_values (output_set e)) num
                output).2 = xneuron.num v
            ∧ 0 ≤ v
            ∧ ((∀ e, e < num → ∀ j, j < data.num_output →
                  (fnnfast_feedforward_ext exp_neuron abi (lift_data data)
                    (lift_values (input_set e)) output).2 j = xneuron.num (output_set e j))
                → v = 0) := by
  refine ⟨fun block input_set output_set num output =>
    mean_squared_deviation_ext_nan_or_nonneg exp_neuron pow_neuron hpow abi block input_set
      output_set num output, ?_⟩
  intro data input_set output_set num output hnet hdiv
  have h := mean_squared_deviation_ext_lift exp_neuron hexp pow_neuron hnet input_set
    output_set num output (fun _ => 0)
  simp only [hpow] at h
  have hd : ((size_mul abi data.num_output num : Nat) : K) ≠ 0 := Nat.cast_ne_zero.mpr hdiv
  refine ⟨_, h.trans (if_neg hd), ?_, ?_⟩
  · apply div_nonneg _ (Nat.cast_nonneg _)
    apply Finset.sum_nonneg
    intro e _
    apply Finset.sum_nonneg
    intro j _
    exact sq_nonneg _
  · intro hexact
    have hz : ∑ e in Finset.range num, ∑ j in Finset.range data.num_output,
        ((fnnfast_feedforward exp_neuron abi data (input_set e) (fun _ => 0)).2 j
          - output_set e j) ^ 2 = 0 := by
      apply Finset.sum_eq_zero
      intro e he
      apply Finset.sum_eq_zero
      intro j hj
      have a := (feedforward_ext_lift exp_neuron hexp abi data (input_set e) output
        (fun _ => 0)).2 j (Finset.mem_range.mp hj)
      rw [hexact e (Finset.mem_range.mp he) j (Finset.mem_range.mp hj)] at a
      rw [← xneuron.num.inj a, sub_self]
      exact zero_pow (by decide)
    rw [hz, zero_div]

/-- Witness for claim C11. Two examples for the sample network, real exponential and real
power function, the buffer obtained from `malloc` holding NaNs. -/
theorem mean_squared_deviation_nonneg_witness :
    (∀ x : ℝ, 0 ≤ Real.exp x) ∧ (∀ x : ℝ, x ^ (2 : ℝ) = x ^ 2)
      ∧ is_network x86_64 (sample_net ℝ)
      ∧ size_mul x86_64 (sample_net ℝ).num_output 2 ≠ 0
      ∧ ∃ v : ℝ,
        (fnnfast_mean_squared_deviation_ext Real.exp (fun x y => x ^ y) x86_64
            (lift_data (sample_net ℝ)) (fun _ => lift_values (sample_input ℝ))
            (fun _ => lift_values (fun _ => 1)) 2 (fun _ => xneuron.nan)).2 = xneuron.num v
        ∧ 0 ≤ v := by
  have hd : size_mul x86_64 (sample_net ℝ).num_output 2 ≠ 0 := by decide
  obtain ⟨v, h1, h2, -⟩ := (mean_squared_deviation_nonneg Real.exp
    (fun x => (Real.exp_pos x).le) (fun x y => x ^ y) Real.rpow_two x86_64).2 (sample_net ℝ)
    (fun _ => sample_input ℝ) (fun _ _ => 1) 2 (fun _ => xneuron.nan)
    (sample_net_is_network ℝ) hd
  exact ⟨fun x => (Real.exp_pos x).le, Real.rpow_two, sample_net_is_network ℝ, hd, v, h1, h2⟩

theorem xneuron_sub_nan {K : Type} [LinearOrderedField K] (x : xneuron K) :
    xneuron.sub x xneuron.nan = xneuron.nan := by
  cases x <;> rfl

/-- Counterexample to claim C11 as stated. On the sample network, (a) for `num = 0` examples
the sum and the divisor `data->num_output * num` are both `0`, and the function returns
`0 / 0`, a NaN; (b) for one example whose target is a NaN, the difference
`output[0] - output_set[0][0]` is a NaN and so are its square, the sum and the returned
quotient.  A NaN is not `>= 0`, and it is not `0`. -/
theorem mean_squared_deviation_nan :
    (fnnfast_mean_squared_deviation_ext Real.exp (fun x y => x ^ y) x86_64
        (lift_data (sample_net ℝ)) (fun _ => lift_values (sample_input ℝ))
        (fun _ => lift_values (fun _ => 1)) 0 (fun _ => xneuron.num 0)).2 = xneuron.nan
      ∧ ¬ xneuron.nonneg (fnnfast_mean_squared_deviation_ext Real.exp (fun x y => x ^ y) x86_64
          (lift_data (sample_net ℝ)) (fun _ => lift_values (sample_input ℝ))
          (fun _ => lift_values (fun _ => 1)) 0 (fun _ => xneuron.num 0)).2
      ∧ (fnnfast_mean_squared_deviation_ext Real.exp (fun x y => x ^ y) x86_64
          (lift_data (sample_net ℝ)) (fun _ => lift_values (sample_input ℝ))
          (fun _ _ => xneuron.nan) 1 (fun _ => xneuron.num 0)).2 = xneuron.nan
      ∧ ¬ xneuron.nonneg (fnnfast_mean_squared_deviation_ext Real.exp (fun x y => x ^ y) x86_64
          (lift_data (sample_net ℝ)) (fun _ => lift_values (sample_input ℝ))
          (fun _ _ => xneuron.nan) 1 (fun _ => xneuron.num 0)).2 := by
  have h0 : (fnnfast_mean_squared_deviation_ext Real.exp (fun x y => x ^ y) x86_64
        (lift_data (sample_net ℝ)) (fun _ => lift_values (sample_input ℝ))
        (fun _ => lift_values (fun _ => 1)) 0 (fun _ => xneuron.num 0)).2 = xneuron.nan := by
    have hw : size_mul x86_64 (lift_data (sample_net ℝ)).num_output 0 = 0 := by decide
    simp only [fnnfast_mean_squared_deviation_ext, for_loop]
    rw [hw]
    simp [xneuron.div]
  have h1 : (fnnfast_mean_squared_deviation_ext Real.exp (fun x y => x ^ y) x86_64
        (lift_data (sample_net ℝ)) (fun _ => lift_values (sample_input ℝ))
        (fun _ _ => xneuron.nan) 1 (fun _ => xneuron.num 0)).2 = xneuron.nan := by
    have hw : size_mul x86_64 (lift_data (sample_net ℝ)).num_output 1 = 1 := by decide
    have e1 : (fnnfast_mean_squared_deviation_ext Real.exp (fun x y => x ^ y) x86_64
          (lift_data (sample_net ℝ)) (fun _ => lift_values (sample_input ℝ))
          (fun _ _ => xneuron.nan) 1 (fun _ => xneuron.num 0)).2
        = xneuron.div
            (xneuron.add (xneuron.num 0)
              (xneuron.pow_two (fun x y => x ^ y)
                (xneuron.sub
                  ((fnnfast_feedforward_ext Real.exp x86_64 (lift_data (sample_net ℝ))
                    (lift_values (sample_input ℝ)) (fun _ => xneuron.num 0)).2 0)
                  xneuron.nan)))
            (xneuron.num ((size_mul x86_64 (lift_data (sample_net ℝ)).num_output 1 : Nat) : ℝ)) :=
      rfl
    rw [e1, hw, xneuron_sub_nan]
    rfl
  refine ⟨h0, ?_, h1, ?_⟩
  · rw [h0]
    exact fun h => h
  · rw [h1]
    exact fun h => h

/-- On a network of finite numbers whose weights are all zero, `fnnfast_feedforward` over
`xneuron` yields the finite number `1/2` for every hidden activation and every output element,
for any input vector of finite numbers and whatever the `output` buffer held. -/
theorem feedforward_ext_zero_weights {K : Type} [LinearOrderedField K] (exp_neuron : K → K)
    (hexp : ∀ x, 0 ≤ exp_neuron x) (hexp0 : exp_neuron 0 = 1) {abi : Abi}
    {data : fnnfast_data K} (hnet : is_network abi data)
    (hiw : ∀ k, k < (data.num_input + 1) * data.num_hidden → input_weights data k = 0)
    (hhw : ∀ k, k < (data.num_hidden + 1) * data.num_output → hidden_weights data k = 0)
    (input : Nat → K) (output : Nat → xneuron K) :
    (∀ i, i < data.num_hidden →
        hidden_activations (fnnfast_feedforward_ext exp_neuron abi (lift_data data)
          (lift_values input) output).1 i = xneuron.num (1 / 2))
      ∧ (∀ i, i < data.num_output →
        (fnnfast_feedforward_ext exp_neuron abi (lift_data data) (lift_values input) output).2 i
          = xneuron.num (1 / 2)) := by
  obtain ⟨a1, a2⟩ := feedforward_ext_lift exp_neuron hexp abi data input output (fun _ => 0)
  obtain ⟨z1, z2⟩ := feedforward_zero_weights exp_neuron hnet hexp0 hiw hhw input (fun _ => 0)
  constructor
  · intro i hi
    rw [← z1 i hi]
    simp only [hidden_activations]
    rw [a1]
    rfl
  · intro i hi
    rw [a2 i hi, z2 i hi]

/-- Counterexample to claim C8 as stated. The sample `(2, 2, 1)` network is zeroed by
`fnnfast_zero` and run on the input `[inf, 0]`.  For each hidden unit the first product of the
weighted sum is `inf * 0`, a NaN, and a NaN it stays through the sum and the activation; the
output unit multiplies these NaNs by its zero weights.  Both hidden activations and the
output element are NaNs, not `1/2`. -/
theorem feedforward_after_zero_infinite_input :
    ∃ d, fnnfast_zero_ext x86_64 20 (lift_data (sample_net ℝ)) = some d
      ∧ hidden_activations (fnnfast_feedforward_ext Real.exp x86_64 d
          (fun j => if j = 0 then xneuron.inf false else xneuron.num 0)
          (fun _ => xneuron.num 0)).1 0 = xneuron.nan
      ∧ hidden_activations (fnnfast_feedforward_ext Real.exp x86_64 d
          (fun j => if j = 0 then xneuron.inf false else xneuron.num 0)
          (fun _ => xneuron.num 0)).1 1 = xneuron.nan
      ∧ (fnnfast_feedforward_ext Real.exp x86_64 d
          (fun j => if j = 0 then xneuron.inf false else xneuron.num 0)
          (fun _ => xneuron.num 0)).2 0 = xneuron.nan := by
  refine ⟨_, rfl, ?_, ?_, ?_⟩
  · simp [hidden_activations, fnnfast_feedforward_ext, for_loop, feedforward_hidden_unit_ext,
      feedforward_hidden_step_ext, feedforward_output_unit_ext, feedforward_output_step_ext,
      fnnfast_activate_ext, store, lift_data, lift_values, sample_net, fnnfast_fix_pointers,
      header_of, size_add, size_mul, x86_64, xneuron.add, xneuron.mul, xneuron.neg,
      xneuron.exp, xneuron.div]
  · simp [hidden_activations, fnnfast_feedforward_ext, for_loop, feedforward_hidden_unit_ext,
      feedforward_hidden_step_ext, feedforward_output_unit_ext, feedforward_output_step_ext,
      fnnfast_activate_ext, store, lift_data, lift_values, sample_net, fnnfast_fix_pointers,
      header_of, size_add, size_mul, x86_64, xneuron.add, xneuron.mul, xneuron.neg,
      xneuron.exp, xneuron.div]
  · simp [hidden_activations, fnnfast_feedforward_ext, for_loop, feedforward_hidden_unit_ext,
      feedforward_hidden_step_ext, feedforward_output_unit_ext, feedforward_output_step_ext,
      fnnfast_activate_ext, store, lift_data, lift_values, sample_net, fnnfast_fix_pointers,
      header_of, size_add, size_mul, x86_64, xneuron.add, xneuron.mul, xneuron.neg,
      xneuron.exp, xneuron.div]

/-! ## Frame and determinism of the forward engine -/

/-- The hidden activations stored by `fnnfast_feedforward` do not depend on the previous
contents of `hidden_activations` nor on the output buffer. -/
theorem feedforward_hidden_agree {K : Type} [Field K] (exp_neuron : K → K) {abi : Abi}
    {data : fnnfast_data K} (hnet : is_network abi data) (m : Nat → K)
    (hm : ∀ q, ¬ (data.p_hidden_neurons ≤ q ∧ q < data.p_hidden_neurons + data.num_hidden) →
      m q = data.mem q)
    (input out out' : Nat → K) (i : Nat) (hi : i < data.num_hidden) :
    (fnnfast_feedforward exp_neuron abi { data with mem := m } input out).1.mem
        (data.p_hidden_neurons + i)
      = (fnnfast_feedforward exp_neuron abi data input out').1.mem
          (data.p_hidden_neurons + i) := by
  obtain ⟨hP, hDIH, hDHO, hIW, hHW⟩ := is_network_pointers hnet
  obtain ⟨f1, -, -⟩ := feedforward_result exp_neuron (is_network_with_mem hnet m) input out
  obtain ⟨g1, -, -⟩ := feedforward_result exp_neuron hnet input out'
  have c := f1 i hi
  simp only at c
  rw [c, g1 i hi]
  rw [net_input_congr data.num_input data.num_hidden input input
    (fun k => m (data.p_input_weights + k)) (fun k => data.mem (data.p_input_weights + k))
    hi (fun _ _ => rfl) (fun k _ => hm _ (by omega))]

/-- Claim C12. For every network and every input, calling `fnnfast_feedforward` twice in a row
with the same input yields the same output vector and the same stored hidden activations
both times; and the result of a call does not depend on what `hidden_activations` (or the
output buffer) held before it. -/
theorem feedforward_idempotent {K : Type} [Field K] (exp_neuron : K → K) (abi : Abi)
    (data : fnnfast_data K) (hnet : is_network abi data) (input output output' : Nat → K) :
    (∀ j, j < data.num_output →
        (fnnfast_feedforward exp_neuron abi
            (fnnfast_feedforward exp_neuron abi data input output).1 input output').2 j
          = (fnnfast_feedforward exp_neuron abi data input output).2 j)
      ∧ (∀ i, i < data.num_hidden →
        hidden_activations (fnnfast_feedforward exp_neuron abi
            (fnnfast_feedforward exp_neuron abi data input output).1 input output').1 i
          = hidden_activations (fnnfast_feedforward exp_neuron abi data input output).1 i)
      ∧ (∀ m : Nat → K,
        (∀ k, data.num_hidden ≤ k → m (data.p_hidden_neurons + k)
            = data.mem (data.p_hidden_neurons + k)) →
        (∀ j, j < data.num_output →
            (fnnfast_feedforward exp_neuron abi { data with mem := m } input output').2 j
              = (fnnfast_feedforward exp_neuron abi data input output).2 j)
          ∧ (∀ i, i < data.num_hidden →
            hidden_activations
                (fnnfast_feedforward exp_neuron abi { data with mem := m } input output').1 i
              = hidden_activations (fnnfast_feedforward exp_neuron abi data input output).1 i)) := by
  obtain ⟨hP, -, -, -, -⟩ := is_network_pointers hnet
  obtain ⟨-, f2, -⟩ := feedforward_result exp_neuron hnet input output
  refine ⟨?_, ?_, ?_⟩
  · exact (feedforward_agree exp_neuron hnet _ f2 input output' output).2
  · intro i hi
    exact feedforward_hidden_agree exp_neuron hnet _ f2 input output' output i hi
  · intro m hm
    have hm' : ∀ q,
        ¬ (data.p_hidden_neurons ≤ q ∧ q < data.p_hidden_neurons + data.num_hidden) →
        m q = data.mem q := by
      intro q hq
      have e : q = data.p_hidden_neurons + (q - data.p_hidden_neurons) := by omega
      rw [e]
      exact hm _ (by omega)
    exact ⟨(feedforward_agree exp_neuron hnet m hm' input output' output).2,
      fun i hi => feedforward_hidden_agree exp_neuron hnet m hm' input output' output i hi⟩

/-- Witness for claim C12. Two calls on the sample network with the input `[1, 0]`. -/
theorem feedforward_idempotent_witness :
    is_network x86_64 (sample_net ℝ)
      ∧ (fnnfast_feedforward Real.exp x86_64
            (fnnfast_feedforward Real.exp x86_64 (sample_net ℝ) (sample_input ℝ)
              (fun _ => 0)).1 (sample_input ℝ) (fun _ => 1)).2 0
        = (fnnfast_feedforward Real.exp x86_64 (sample_net ℝ) (sample_input ℝ)
            (fun _ => 0)).2 0 :=
  ⟨sample_net_is_network ℝ,
    (feedforward_idempotent Real.exp x86_64 (sample_net ℝ) (sample_net_is_network ℝ)
      (sample_input ℝ) (fun _ => 0) (fun _ => 1)).1 0 (by decide)⟩

/-- Claim C13. For every network, input, target, rate and momentum, `training_output_buf`
after `fnnfast_train` is the output buffer of `fnnfast_feedforward` on the same input from
the network state before the call; its first `O` elements are the prediction, whatever the
buffer held before and whatever target, rate and momentum are. -/
theorem train_output_buffer {K : Type} [Field K] (exp_neuron : K → K) (abi : Abi)
    (data : fnnfast_data K) (hnet : is_network abi data) (input : Nat → K) :
    ∀ (target : Nat → K) (rate momentum : K) (buf buf' : Nat → K),
      (fnnfast_train exp_neuron abi data input target rate momentum buf).2
          = (fnnfast_feedforward exp_neuron abi data input buf).2
        ∧ ∀ j, j < data.num_output →
          (fnnfast_train exp_neuron abi data input target rate momentum buf).2 j
            = (fnnfast_feedforward exp_neuron abi data input buf').2 j := by
  intro target rate momentum buf buf'
  refine ⟨rfl, fun j hj => ?_⟩
  exact (feedforward_agree exp_neuron hnet data.mem (fun _ _ => rfl) input buf buf').2 j hj

/-- Witness for claim C13. Training the sample network with two different scratch buffers,
targets, rates and momenta. -/
theorem train_output_buffer_witness :
    is_network x86_64 (sample_net ℝ)
      ∧ (fnnfast_train Real.exp x86_64 (sample_net ℝ) (sample_input ℝ) (fun _ => 1) (1 / 2) 0
            (fun _ => 7)).2 0
        = (fnnfast_feedforward Real.exp x86_64 (sample_net ℝ) (sample_input ℝ)
            (fun _ => 0)).2 0 :=
  ⟨sample_net_is_network ℝ,
    (train_output_buffer Real.exp x86_64 (sample_net ℝ) (sample_net_is_network ℝ)
      (sample_input ℝ) (fun _ => 1) (1 / 2) 0 (fun _ => 7) (fun _ => 0)).2 0 (by decide)⟩

theorem same_except_of_agree {K : Type} {abi : Abi} {data : fnnfast_data K}
    (hnet : is_network abi data) (m : Nat → K)
    (hm : ∀ q, ¬ (data.p_hidden_neurons ≤ q ∧ q < data.p_hidden_neurons + data.num_hidden) →
      m q = data.mem q) :
    same_except_hidden_activations data { data with mem := m } := by
  obtain ⟨hP, hDIH, hDHO, hIW, hHW⟩ := is_network_pointers hnet
  refine ⟨rfl, rfl, rfl, rfl, ?_, ?_, ?_, ?_, hm⟩ <;>
  · intro k hk
    simp only [delta_input_hidden, delta_hidden_output, input_weights, hidden_weights]
    exact hm _ (by omega)

/-- Claim C20. For every network and input, `fnnfast_feedforward`, and therefore
`fnnfast_mean_squared_deviation` for any example set, leaves `input_weights`,
`hidden_weights`, `delta_input_hidden`, `delta_hidden_output` and the stored dimensions (and
pointers) unchanged; the only storage of the block it modifies is `hidden_activations`. -/
theorem feedforward_frame {K : Type} [Field K] (exp_neuron : K → K) (pow_neuron : K → K → K)
    (abi : Abi) (data : fnnfast_data K) (hnet : is_network abi data) (input output : Nat → K)
    (input_set output_set : Nat → Nat → K) (num : Nat) :
    same_except_hidden_activations data
        (fnnfast_feedforward exp_neuron abi data input output).1
      ∧ same_except_hidden_activations data
        (fnnfast_mean_squared_deviation exp_neuron pow_neuron abi data input_set output_set num
          output).1 := by
  constructor
  · exact same_except_of_agree hnet _ (feedforward_result exp_neuron hnet input output).2.1
  · obtain ⟨m, hs, hag, -⟩ := mean_squared_deviation_loop exp_neuron pow_neuron hnet input_set
      output_set output num
    have e : (fnnfast_mean_squared_deviation exp_neuron pow_neuron abi data input_set
        output_set num output).1 = { data with mem := m } := hs
    rw [e]
    exact same_except_of_agree hnet m hag

/-- Witness for claim C20. The sample network: an input weight after a forward pass and a
hidden weight after a mean squared deviation over three examples. -/
theorem feedforward_frame_witness :
    is_network x86_64 (sample_net ℝ)
      ∧ input_weights (fnnfast_feedforward Real.exp x86_64 (sample_net ℝ) (sample_input ℝ)
            (fun _ => 0)).1 5 = input_weights (sample_net ℝ) 5
      ∧ hidden_weights (fnnfast_mean_squared_deviation Real.exp (fun x y => x ^ y) x86_64
            (sample_net ℝ) (fun _ => sample_input ℝ) (fun _ _ => 1) 3 (fun _ => 0)).1 2
          = hidden_weights (sample_net ℝ) 2 := by
  obtain ⟨h1, h2⟩ := feedforward_frame Real.exp (fun x y => x ^ y) x86_64 (sample_net ℝ)
    (sample_net_is_network ℝ) (sample_input ℝ) (fun _ => 0) (fun _ => sample_input ℝ)
    (fun _ _ => 1) 3
  exact ⟨sample_net_is_network ℝ, h1.2.2.2.2.2.2.1 5 (by decide),
    h2.2.2.2.2.2.2.2.1 2 (by decide)⟩

/-! ## Frame and determinism of `fnnfast_randomize` -/

/-- The weights stored by `fnnfast_randomize`, and the storage it leaves alone. -/
theorem randomize_effect {K : Type} [Field K] {abi : Abi} {data : fnnfast_data K}
    (hnet : is_network abi data) (RAND_MAX : Nat) (rand_stream : Nat → Nat → Nat) (seed : Nat)
    (fuel : Nat)
    (hfuel : (data.num_input + 1) * data.num_hidden + (data.num_hidden + 1) * data.num_output
      ≤ fuel) :
    ∃ d, fnnfast_randomize abi RAND_MAX rand_stream fuel data seed = some d
      ∧ d.num_input = data.num_input ∧ d.num_hidden = data.num_hidden
      ∧ d.num_output = data.num_output ∧ regions d = regions data
      ∧ (∀ q, ¬ (data.p_input_weights ≤ q
            ∧ q < data.p_hidden_weights + (data.num_hidden + 1) * data.num_output) →
          d.mem q = data.mem q)
      ∧ (∀ k, k < (data.num_input + 1) * data.num_hidden →
          input_weights d k = (rand_stream seed k : K) / (RAND_MAX : K) - 1 / 2)
      ∧ (∀ k, k < (data.num_hidden + 1) * data.num_output →
          hidden_weights d k
            = (rand_stream seed ((data.num_input + 1) * data.num_hidden + k) : K)
                / (RAND_MAX : K) - 1 / 2) := by
  obtain ⟨hP, hDIH, hDHO, hIW, hHW⟩ := is_network_pointers hnet
  have e1 : 2 * (data.num_input + 1) * data.num_hidden
      = 2 * ((data.num_input + 1) * data.num_hidden) := Nat.mul_assoc _ _ _
  have e2 : 2 * (data.num_hidden + 1) * data.num_output
      = 2 * ((data.num_hidden + 1) * data.num_output) := Nat.mul_assoc _ _ _
  refine ⟨_, randomize_result hnet RAND_MAX rand_stream seed fuel hfuel, rfl, rfl, rfl, rfl,
    ?_, ?_, ?_⟩
  · intro q hq
    simp only
    rw [if_neg (by unfold region_elems; omega)]
  · intro k hk
    simp only [input_weights]
    rw [if_pos (by unfold region_elems; omega)]
    have e : 0 + (data.p_input_weights + k - data.p_input_weights) = k := by omega
    rw [e]
  · intro k hk
    simp only [hidden_weights]
    rw [if_pos (by unfold region_elems; omega)]
    have e : 0 + (data.p_hidden_weights + k - data.p_input_weights)
        = (data.num_input + 1) * data.num_hidden + k := by omega
    rw [e]

/-- Claim C15. For every network and every seed, `fnnfast_randomize` leaves every element of
`hidden_activations`, `delta_input_hidden` and `delta_hidden_output` and the three stored
dimensions (and the pointers) exactly as they were; no element outside `input_weights` and
`hidden_weights` is written, and every element of those two regions is overwritten with its
draw, whatever it held before. -/
theorem randomize_frame {K : Type} [Field K] (abi : Abi) (data : fnnfast_data K)
    (hnet : is_network abi data) (RAND_MAX : Nat) (rand_stream : Nat → Nat → Nat) (seed : Nat)
    (fuel : Nat)
    (hfuel : (data.num_input + 1) * data.num_hidden + (data.num_hidden + 1) * data.num_output
      ≤ fuel) :
    ∃ d, fnnfast_randomize abi RAND_MAX rand_stream fuel data seed = some d
      ∧ d.num_input = data.num_input ∧ d.num_hidden = data.num_hidden
      ∧ d.num_output = data.num_output ∧ regions d = regions data
      ∧ (∀ k, k < data.num_hidden → hidden_activations d k = hidden_activations data k)
      ∧ (∀ k, k < (data.num_input + 1) * data.num_hidden →
          delta_input_hidden d k = delta_input_hidden data k)
      ∧ (∀ k, k < (data.num_hidden + 1) * data.num_output →
          delta_hidden_output d k = delta_hidden_output data k)
      ∧ (∀ q, ¬ (data.p_input_weights ≤ q
            ∧ q < data.p_hidden_weights + (data.num_hidden + 1) * data.num_output) →
          d.mem q = data.mem q)
      ∧ (∀ k, k < (data.num_input + 1) * data.num_hidden →
          input_weights d k = (rand_stream seed k : K) / (RAND_MAX : K) - 1 / 2)
      ∧ (∀ k, k < (data.num_hidden + 1) * data.num_output →
          hidden_weights d k
            = (rand_stream seed ((data.num_input + 1) * data.num_hidden + k) : K)
                / (RAND_MAX : K) - 1 / 2) := by
  obtain ⟨hP, hDIH, hDHO, hIW, hHW⟩ := is_network_pointers hnet
  obtain ⟨d, h, n1, n2, n3, hr, hout, hiw, hhw⟩ :=
    randomize_effect hnet RAND_MAX rand_stream seed fuel hfuel
  have hp : d.p_hidden_neurons = data.p_hidden_neurons
      ∧ d.p_delta_input_hidden = data.p_delta_input_hidden
      ∧ d.p_delta_hidden_output = data.p_delta_hidden_output := by
    simp only [regions, List.cons.injEq, Prod.mk.injEq] at hr
    exact ⟨hr.1.1, hr.2.1.1, hr.2.2.1.1⟩
  refine ⟨d, h, n1, n2, n3, hr, ?_, ?_, ?_, hout, hiw, hhw⟩
  · intro k hk
    simp only [hidden_activations]
    rw [hp.1]
    exact hout _ (by omega)
  · intro k hk
    simp only [delta_input_hidden]
    rw [hp.2.1]
    exact hout _ (by omega)
  · intro k hk
    simp only [delta_hidden_output]
    rw [hp.2.2]
    exact hout _ (by omega)

/-- Witness for claim C15. Randomising the sample network with `RAND_MAX = 32767` and a
generator whose `k`-th draw for seed `s` is `(s + k) % 32768`. -/
theorem randomize_frame_witness :
    is_network x86_64 (sample_net ℚ)
      ∧ ∃ d, fnnfast_randomize x86_64 32767 (fun s k => (s + k) % 32768) 9 (sample_net ℚ) 7
            = some d
        ∧ hidden_activations d 1 = hidden_activations (sample_net ℚ) 1
        ∧ delta_hidden_output d 2 = delta_hidden_output (sample_net ℚ) 2 := by
  obtain ⟨d, h, -, -, -, -, h1, -, h3, -⟩ := randomize_frame x86_64 (sample_net ℚ)
    (sample_net_is_network ℚ) 32767 (fun s k => (s + k) % 32768) 7 9
    (by decide : (2 + 1) * 2 + (2 + 1) * 1 ≤ 9)
  exact ⟨sample_net_is_network ℚ, d, h, h1 1 (by decide), h3 2 (by decide)⟩

theorem zero_net_is_network_221 (K : Type) [Field K] : is_network x86_64 (zero_net K 2 2 1) :=
  ⟨rfl, (by decide : fits x86_64 2 2 1)⟩

/-- Claim C16. For every seed and every dimension triple, `fnnfast_randomize` with that seed on
two networks of identical dimensions (in particular two freshly created ones) produces
identical `input_weights` and `hidden_weights` regions, element for element; the generator
is a function of the seed and the draw index. -/
theorem randomize_deterministic {K : Type} [Field K] (abi : Abi) (data data' : fnnfast_data K)
    (hnet : is_network abi data) (hnet' : is_network abi data')
    (hI : data'.num_input = data.num_input) (hH : data'.num_hidden = data.num_hidden)
    (hO : data'.num_output = data.num_output) (RAND_MAX : Nat)
    (rand_stream : Nat → Nat → Nat) (seed : Nat) (fuel fuel' : Nat)
    (hfuel : (data.num_input + 1) * data.num_hidden + (data.num_hidden + 1) * data.num_output
      ≤ fuel)
    (hfuel' : (data.num_input + 1) * data.num_hidden + (data.num_hidden + 1) * data.num_output
      ≤ fuel') :
    ∃ d d', fnnfast_randomize abi RAND_MAX rand_stream fuel data seed = some d
      ∧ fnnfast_randomize abi RAND_MAX rand_stream fuel' data' seed = some d'
      ∧ (∀ k, k < (data.num_input + 1) * data.num_hidden →
          input_weights d k = input_weights d' k)
      ∧ (∀ k, k < (data.num_hidden + 1) * data.num_output →
          hidden_weights d k = hidden_weights d' k) := by
  obtain ⟨d, h, -, -, -, -, -, hiw, hhw⟩ :=
    randomize_effect hnet RAND_MAX rand_stream seed fuel hfuel
  obtain ⟨d', h', -, -, -, -, -, hiw', hhw'⟩ :=
    randomize_effect hnet' RAND_MAX rand_stream seed fuel' (by rw [hI, hH, hO]; exact hfuel')
  simp only [hI, hH, hO] at hiw' hhw'
  refine ⟨d, d', h, h', ?_, ?_⟩
  · intro k hk
    rw [hiw k hk, hiw' k hk]
  · intro k hk
    rw [hhw k hk, hhw' k hk]

/-- Witness for claim C16. The sample network and the zero network of the same dimensions
`(2, 2, 1)`, randomised with the same seed. -/
theorem randomize_deterministic_witness :
    is_network x86_64 (sample_net ℚ) ∧ is_network x86_64 (zero_net ℚ 2 2 1)
      ∧ ∃ d d', fnnfast_randomize x86_64 32767 (fun s k => (s + k) % 32768) 9 (sample_net ℚ) 7
            = some d
        ∧ fnnfast_randomize x86_64 32767 (fun s k => (s + k) % 32768) 12 (zero_net ℚ 2 2 1) 7
            = some d'
        ∧ input_weights d 3 = input_weights d' 3 ∧ hidden_weights d 0 = hidden_weights d' 0 := by
  obtain ⟨d, d', h, h', h1, h2⟩ := randomize_deterministic x86_64 (sample_net ℚ)
    (zero_net ℚ 2 2 1) (sample_net_is_network ℚ) (zero_net_is_network_221 ℚ) rfl rfl rfl 32767
    (fun s k => (s + k) % 32768) 7 9 12 (by decide : (2 + 1) * 2 + (2 + 1) * 1 ≤ 9)
    (by decide : (2 + 1) * 2 + (2 + 1) * 1 ≤ 12)
  exact ⟨sample_net_is_network ℚ, zero_net_is_network_221 ℚ, d, d', h, h', h1 3 (by decide),
    h2 0 (by decide)⟩

/-! ## Construction -/

theorem laid_out_net_is_network {K : Type} (abi : Abi) (I H O : Nat) (mem : Nat → K)
    (hfit : fits abi I H O) : is_network abi (laid_out_net I H O mem) :=
  ⟨fix_pointers_offsets abi (laid_out_net I H O mem) hfit, hfit⟩

/-- Result of `fnnfast_new` when the allocator succeeds and the block is representable. -/
theorem new_success {K : Type} [Field K] (abi : Abi) (malloc : Nat → Option (fnnfast_data K))
    (fuel I H O : Nat) (block : fnnfast_data K) (hfit : fits abi I H O)
    (hm : malloc (fnnfast_size abi (header_of K I H O)) = some block)
    (hfuel : region_elems I H O ≤ fuel) :
    fnnfast_new abi malloc fuel I H O
      = Outcome.returned (some
          (laid_out_net I H O (fun q => if q < region_elems I H O then 0 else block.mem q))) := by
  have e : fnnfast_fix_pointers abi
      ({ block with num_input := I, num_hidden := H, num_output := O })
      = laid_out_net I H O block.mem :=
    fix_pointers_offsets abi ({ block with num_input := I, num_hidden := H, num_output := O })
      hfit
  simp only [fnnfast_new, hm]
  rw [e, zero_result (laid_out_net_is_network abi I H O block.mem hfit) fuel hfuel]
  rfl

/-- Claim C17, as amended. `fnnfast_new` does not test the pointer the allocator returns. When
the allocator succeeds (and the byte count is representable), `fnnfast_new` returns a
network storing exactly `(num_input, num_hidden, num_output)` with all regions zero.  When
the allocator cannot satisfy the request, no failure result reaches the caller: the
function stores the dimensions through the null pointer. -/
theorem new_spec {K : Type} [Field K] (abi : Abi) (malloc : Nat → Option (fnnfast_data K))
    (fuel I H O : Nat) (hfit : fits abi I H O) (hfuel : region_elems I H O ≤ fuel) :
    (malloc (fnnfast_size abi (header_of K I H O)) = none →
        fnnfast_new abi malloc fuel I H O = Outcome.null_dereference)
      ∧ (∀ block, malloc (fnnfast_size abi (header_of K I H O)) = some block →
        ∃ d, fnnfast_new abi malloc fuel I H O = Outcome.returned (some d)
          ∧ is_network abi d
          ∧ d.num_input = I ∧ d.num_hidden = H ∧ d.num_output = O
          ∧ (∀ k, k < H → hidden_activations d k = 0)
          ∧ (∀ k, k < (I + 1) * H → delta_input_hidden d k = 0)
          ∧ (∀ k, k < (H + 1) * O → delta_hidden_output d k = 0)
          ∧ (∀ k, k < (I + 1) * H → input_weights d k = 0)
          ∧ (∀ k, k < (H + 1) * O → hidden_weights d k = 0)) := by
  constructor
  · intro hm
    simp only [fnnfast_new, hm]
  · intro block hm
    have e1 : 2 * (I + 1) * H = 2 * ((I + 1) * H) := Nat.mul_assoc _ _ _
    have e2 : 2 * (H + 1) * O = 2 * ((H + 1) * O) := Nat.mul_assoc _ _ _
    refine ⟨_, new_success abi malloc fuel I H O block hfit hm hfuel,
      laid_out_net_is_network abi I H O _ hfit, rfl, rfl, rfl, ?_, ?_, ?_, ?_, ?_⟩ <;>
    · intro k hk
      simp only [hidden_activations, delta_input_hidden, delta_hidden_output, input_weights,
        hidden_weights, laid_out_net]
      apply if_pos
      unfold region_elems
      omega

/-- Witness for claim C17. The allocator hands out the sample block (contents `q / 16`) for
a `(2, 2, 1)` network on `x86_64`. -/
theorem new_spec_witness :
    fits x86_64 2 2 1 ∧ region_elems 2 2 1 ≤ 20
      ∧ ∃ d, fnnfast_new x86_64 (fun _ => some (sample_net ℚ)) 20 2 2 1
            = Outcome.returned (some d)
        ∧ d.num_input = 2 ∧ d.num_hidden = 2 ∧ d.num_output = 1
        ∧ hidden_weights d 2 = 0 := by
  obtain ⟨d, h, -, n1, n2, n3, -, -, -, -, h5⟩ :=
    (new_spec x86_64 (fun _ => some (sample_net ℚ)) 20 2 2 1 (by decide) (by decide)).2
      (sample_net ℚ) rfl
  exact ⟨by decide, by decide, d, h, n1, n2, n3, h5 2 (by decide)⟩

/-- Counterexample to claim C17 as stated. An allocator that fails: `fnnfast_new` does not
return a null (failure) result, it stores `num_input` through the null pointer. -/
theorem new_allocation_failure :
    fnnfast_new x86_64 (fun _ => (none : Option (fnnfast_data ℚ))) 20 2 2 1
        = Outcome.null_dereference
      ∧ fnnfast_new x86_64 (fun _ => (none : Option (fnnfast_data ℚ))) 20 2 2 1
        ≠ Outcome.returned none := by
  have h : fnnfast_new x86_64 (fun _ => (none : Option (fnnfast_data ℚ))) 20 2 2 1
      = Outcome.null_dereference := rfl
  refine ⟨h, ?_⟩
  rw [h]
  intro e
  exact Outcome.noConfusion e

/-! ## Training from zero weights -/

theorem sigmoid_pos (x : ℝ) : 0 < 1 / (1 + Real.exp (-x)) :=
  one_div_pos.mpr (by have := Real.exp_pos (-x); linarith)

theorem sigmoid_gt_half {x : ℝ} (hx : 0 < x) : 1 / 2 < 1 / (1 + Real.exp (-x)) := by
  have h1 : Real.exp (-x) < 1 := by
    have := Real.exp_lt_exp.mpr (show -x < 0 by linarith)
    rwa [Real.exp_zero] at this
  have h2 : 0 < Real.exp (-x) := Real.exp_pos _
  exact one_div_lt_one_div_of_lt (by linarith) (by linarith)

/-- One training step with momentum `0` on a network whose weights are all zero: the new
hidden-to-output weights, and the sign of every later prediction for an output unit whose
target exceeds `1/2`. -/
theorem train_from_zero_weights {abi : Abi} {data : fnnfast_data ℝ}
    (hnet : is_network abi data)
    (hiw : ∀ k, k < (data.num_input + 1) * data.num_hidden → input_weights data k = 0)
    (hhw : ∀ k, k < (data.num_hidden + 1) * data.num_output → hidden_weights data k = 0)
    (input target : Nat → ℝ) (rate : ℝ) (buf : Nat → ℝ) :
    (∀ i, i < data.num_output → ∀ j, j ≤ data.num_hidden →
        hidden_weights (fnnfast_train Real.exp abi data input target rate 0 buf).1 (j * data.num_output + i)
          = rate * (if j < data.num_hidden then 1 / 2 else -1)
              * (1 / 2 * (1 - 1 / 2) * (target i - 1 / 2)))
      ∧ (∀ i, i < data.num_output → 0 < rate → 1 / 2 < target i →
          ∀ input' buf' : Nat → ℝ,
            1 / 2 < (fnnfast_feedforward Real.exp abi (fnnfast_train Real.exp abi data input target rate 0 buf).1 input' buf').2 i) := by
  obtain ⟨fh, fo⟩ := feedforward_zero_weights Real.exp hnet Real.exp_zero hiw hhw input buf
  obtain ⟨t1, -⟩ := train_result Real.exp hnet input target rate 0 buf
  have hw : ∀ i, i < data.num_output → ∀ j, j ≤ data.num_hidden →
      hidden_weights (fnnfast_train Real.exp abi data input target rate 0 buf).1 (j * data.num_output + i)
        = rate * (if j < data.num_hidden then 1 / 2 else -1)
            * (1 / 2 * (1 - 1 / 2) * (target i - 1 / 2)) := by
    intro i hi j hj
    obtain ⟨a, b⟩ := t1 i hi j hj
    rw [b, a, hhw _ (idx_lt hj hi), fo i hi]
    by_cases hjH : j < data.num_hidden
    · rw [if_pos hjH, if_pos hjH, fh j hjH]
      ring
    · rw [if_neg hjH, if_neg hjH]
      ring
  refine ⟨hw, ?_⟩
  intro i hi hrate htarget input' buf'
  have hnetT : is_network abi (fnnfast_train Real.exp abi data input target rate 0 buf).1 :=
    is_network_with_mem hnet (fnnfast_train Real.exp abi data input target rate 0 buf).1.mem
  obtain ⟨f1', -, f3'⟩ := feedforward_result Real.exp hnetT input' buf'
  have f1 : ∀ j, j < data.num_hidden →
      (fnnfast_feedforward Real.exp abi (fnnfast_train Real.exp abi data input target rate 0 buf).1 input' buf').1.mem (data.p_hidden_neurons + j)
        = 1 / (1 + Real.exp (-(net_input data.num_input data.num_hidden input'
            (fun k => (fnnfast_train Real.exp abi data input target rate 0 buf).1.mem (data.p_input_weights + k)) j))) := f1'
  have h3 : (fnnfast_feedforward Real.exp abi (fnnfast_train Real.exp abi data input target rate 0 buf).1 input' buf').2 i
      = if i < data.num_output then
          1 / (1 + Real.exp (-(net_input data.num_hidden data.num_output
            (fun j => (fnnfast_feedforward Real.exp abi (fnnfast_train Real.exp abi data input target rate 0 buf).1 input' buf').1.mem
              (data.p_hidden_neurons + j))
            (fun k => (fnnfast_train Real.exp abi data input target rate 0 buf).1.mem (data.p_hidden_weights + k)) i)))
        else buf' i := f3' i
  rw [if_pos hi] at h3
  rw [h3]
  apply sigmoid_gt_half
  unfold net_input
  have hg : 0 < 1 / 2 * (1 - 1 / 2) * (target i - 1 / 2) := by
    have : 0 < target i - 1 / 2 := by linarith
    positivity
  have hbias : (fnnfast_train Real.exp abi data input target rate 0 buf).1.mem (data.p_hidden_weights + (data.num_hidden * data.num_output + i))
      = rate * (-1) * (1 / 2 * (1 - 1 / 2) * (target i - 1 / 2)) := by
    have := hw i hi data.num_hidden (Nat.le_refl _)
    rw [if_neg (Nat.lt_irrefl _)] at this
    exact this
  have hsum : 0 ≤ ∑ j in Finset.range data.num_hidden,
      (fnnfast_feedforward Real.exp abi (fnnfast_train Real.exp abi data input target rate 0 buf).1 input' buf').1.mem (data.p_hidden_neurons + j)
        * (fnnfast_train Real.exp abi data input target rate 0 buf).1.mem (data.p_hidden_weights + (j * data.num_output + i)) := by
    apply Finset.sum_nonneg
    intro j hj
    have hjH := Finset.mem_range.mp hj
    have hwj : (fnnfast_train Real.exp abi data input target rate 0 buf).1.mem (data.p_hidden_weights + (j * data.num_output + i))
        = rate * (1 / 2) * (1 / 2 * (1 - 1 / 2) * (target i - 1 / 2)) := by
      have := hw i hi j (Nat.le_of_lt hjH)
      rw [if_pos hjH] at this
      exact this
    rw [hwj, f1 j hjH]
    have := sigmoid_pos (net_input data.num_input data.num_hidden input'
      (fun k => (fnnfast_train Real.exp abi data input target rate 0 buf).1.mem (data.p_input_weights + k)) j)
    positivity
  simp only
  rw [hbias]
  have : 0 < rate * (1 / 2 * (1 - 1 / 2) * (target i - 1 / 2)) := mul_pos hrate hg
  linarith

/-- Claim C14. The network `(I=2, H=2, O=1)` created and zero-initialised by `fnnfast_new`
(allocator succeeding with a block of arbitrary contents), real exponential:
`fnnfast_feedforward` on the input `[1, 0]` outputs `[0.5]`; after one `fnnfast_train` call
with input `[1, 0]`, target `[1.0]`, rate `0.5`, momentum `0`, the `hidden_weights` region
is not all zero, and a subsequent `fnnfast_feedforward` on `[1, 0]` outputs a value strictly
greater than `0.5`. -/
theorem zero_network_scenario (block : fnnfast_data ℝ) (buf buf' buf'' : Nat → ℝ) :
    ∃ d0, fnnfast_new x86_64 (fun _ => some block) 20 2 2 1 = Outcome.returned (some d0)
      ∧ (fnnfast_feedforward Real.exp x86_64 d0 (sample_input ℝ) buf).2 0 = 1 / 2
      ∧ (∃ k, k < 3 ∧
          hidden_weights
            (fnnfast_train Real.exp x86_64
              (fnnfast_feedforward Real.exp x86_64 d0 (sample_input ℝ) buf).1
              (sample_input ℝ) (fun _ => 1) (1 / 2) 0 buf').1 k ≠ 0)
      ∧ 1 / 2 < (fnnfast_feedforward Real.exp x86_64
            (fnnfast_train Real.exp x86_64
              (fnnfast_feedforward Real.exp x86_64 d0 (sample_input ℝ) buf).1
              (sample_input ℝ) (fun _ => 1) (1 / 2) 0 buf').1
            (sample_input ℝ) buf'').2 0 := by
  have hfit : fits x86_64 2 2 1 := by decide
  have hnew := new_success x86_64 (fun _ => some block) 20 2 2 1 block hfit rfl (by decide)
  have hnet0 : is_network x86_64 (laid_out_net 2 2 1 (fun q => if q < region_elems 2 2 1 then (0 : ℝ) else block.mem q)) :=
    laid_out_net_is_network x86_64 2 2 1 _ hfit
  have hiw0 : ∀ k, k < (2 + 1) * 2 → input_weights (laid_out_net 2 2 1 (fun q => if q < region_elems 2 2 1 then (0 : ℝ) else block.mem q)) k = 0 := by
    intro k hk
    simp only [input_weights, laid_out_net]
    exact if_pos (by unfold region_elems; omega)
  have hhw0 : ∀ k, k < (2 + 1) * 1 → hidden_weights (laid_out_net 2 2 1 (fun q => if q < region_elems 2 2 1 then (0 : ℝ) else block.mem q)) k = 0 := by
    intro k hk
    simp only [hidden_weights, laid_out_net]
    exact if_pos (by unfold region_elems; omega)
  obtain ⟨-, fo⟩ := feedforward_zero_weights Real.exp hnet0 Real.exp_zero hiw0 hhw0
    (sample_input ℝ) buf
  obtain ⟨-, frame, -⟩ := feedforward_result Real.exp hnet0 (sample_input ℝ) buf
  have hnet1 : is_network x86_64
      (fnnfast_feedforward Real.exp x86_64 (laid_out_net 2 2 1 (fun q => if q < region_elems 2 2 1 then (0 : ℝ) else block.mem q)) (sample_input ℝ) buf).1 :=
    is_network_with_mem hnet0 _
  have hiw1 : ∀ k, k < (2 + 1) * 2 →
      input_weights (fnnfast_feedforward Real.exp x86_64 (laid_out_net 2 2 1 (fun q => if q < region_elems 2 2 1 then (0 : ℝ) else block.mem q)) (sample_input ℝ) buf).1 k
        = 0 := by
    intro k hk
    have h := frame (11 + k) (by simp only [laid_out_net]; omega)
    exact h.trans (hiw0 k hk)
  have hhw1 : ∀ k, k < (2 + 1) * 1 →
      hidden_weights (fnnfast_feedforward Real.exp x86_64 (laid_out_net 2 2 1 (fun q => if q < region_elems 2 2 1 then (0 : ℝ) else block.mem q)) (sample_input ℝ) buf).1 k
        = 0 := by
    intro k hk
    have h := frame (17 + k) (by simp only [laid_out_net]; omega)
    exact h.trans (hhw0 k hk)
  obtain ⟨ta, tb⟩ := train_from_zero_weights hnet1 hiw1 hhw1 (sample_input ℝ) (fun _ => 1)
    (1 / 2) buf'
  refine ⟨_, hnew, fo 0 (by decide : 0 < 1), ⟨0, by decide, ?_⟩, ?_⟩
  · have h : hidden_weights
        (fnnfast_train Real.exp x86_64
          (fnnfast_feedforward Real.exp x86_64 (laid_out_net 2 2 1 (fun q => if q < region_elems 2 2 1 then (0 : ℝ) else block.mem q)) (sample_input ℝ) buf).1
          (sample_input ℝ) (fun _ => 1) (1 / 2) 0 buf').1 0
        = 1 / 2 * (if 0 < 2 then 1 / 2 else -1) * (1 / 2 * (1 - 1 / 2) * (1 - 1 / 2)) :=
      ta 0 (by decide : 0 < 1) 0 (by decide : 0 ≤ 2)
    rw [h, if_pos (by decide : 0 < 2)]
    norm_num
  · exact tb 0 (by decide : 0 < 1) (by norm_num) (by norm_num) (sample_input ℝ) buf''

/-! ## Order of the two loops of `fnnfast_backpropogate` -/

/-- The first `n` iterations of the second loop of `fnnfast_backpropogate` write only
elements of `delta_input_hidden` and `input_weights`. -/
theorem backpropogate_hidden_loop_frame {K : Type} [Field K] {abi : Abi}
    {data : fnnfast_data K} (hnet : is_network abi data)
    (input training_output target_output : Nat → K) (rate momentum : K) (mem : Nat → K)
    (n : Nat) (hn : n ≤ data.num_hidden) :
    agree_outside data.p_delta_input_hidden data.p_input_weights
      ((data.num_input + 1) * data.num_hidden)
      (for_loop n
        (backpropogate_hidden_unit abi data input training_output target_output rate momentum)
        mem) mem := by
  obtain ⟨hP, hDIH, hDHO, hIW, hHW⟩ := is_network_pointers hnet
  have hcorr : ∀ i, i < data.num_hidden → ∀ m m' : Nat → K,
      agree_outside data.p_delta_input_hidden data.p_input_weights
        ((data.num_input + 1) * data.num_hidden) m m' →
      fnnfast_hidden_error_gradient abi { data with mem := m } i target_output training_output
        = fnnfast_hidden_error_gradient abi { data with mem := m' } i target_output
            training_output := by
    intro i hi m m' hag
    rw [hidden_error_gradient_eq (is_network_with_mem hnet m) hi,
      hidden_error_gradient_eq (is_network_with_mem hnet m') hi]
    simp only
    rw [hag (data.p_hidden_neurons + i) (by omega) (by omega)]
    congr 1
    apply Finset.sum_congr rfl
    intro k _
    rw [hag (data.p_hidden_weights + (i * data.num_output + k)) (by omega) (by omega)]
  have e2 : for_loop n
      (backpropogate_hidden_unit abi data input training_output target_output rate momentum) mem
      = for_loop n
          (layer_unit data.p_delta_input_hidden data.p_input_weights data.num_input
            data.num_hidden rate momentum (fun j _ => input j)
            (fun i m => fnnfast_hidden_error_gradient abi { data with mem := m } i
              target_output training_output))
          mem :=
    for_loop_congr _ _ _ _
      (fun i hi t => backpropogate_hidden_unit_eq hnet input training_output target_output rate
        momentum (show i < data.num_hidden by omega) t)
  obtain ⟨-, b2⟩ := layer_loop_spec data.p_delta_input_hidden data.p_input_weights
    data.num_input data.num_hidden rate momentum (fun j _ => input j)
    (fun i m => fnnfast_hidden_error_gradient abi { data with mem := m } i
      target_output training_output)
    (by omega) (fun j _ m m' _ => rfl) hcorr mem n hn
  rw [← e2] at b2
  intro q hq1 hq2
  apply b2
  intro i hi j hj
  have := idx_lt hj (show i < data.num_hidden by omega)
  constructor <;> omega

/-- Claim C18. In every `fnnfast_train` call the hidden-to-output update (all output units,
bias row included) is complete before any hidden-unit gradient is computed: in the state in
which `fnnfast_hidden_error_gradient` is called for hidden unit `h`, every element of
`hidden_weights` and `delta_hidden_output` already has its value of the end of the call,
`hidden_weights[j*O+i]` being the old weight plus its new delta; so the gradient of `h` is
`h[h] * (1 - h[h]) * sum over i < O of (old weight + new delta)[h*O+i] * g_i`, and it is the
gradient used for the input-to-hidden deltas of `h`. -/
theorem train_hidden_gradient_order {K : Type} [Field K] (exp_neuron : K → K) (abi : Abi)
    (data : fnnfast_data K) (hnet : is_network abi data) (input target : Nat → K)
    (rate momentum : K) (buf : Nat → K) :
    state_before_hidden_unit exp_neuron abi data input target rate momentum buf data.num_hidden
        = (fnnfast_train exp_neuron abi data input target rate momentum buf).1
      ∧ ∀ h, h < data.num_hidden →
        (∀ i, i < data.num_output → ∀ j, j ≤ data.num_hidden →
            hidden_weights (state_before_hidden_unit exp_neuron abi data input target rate momentum buf h) (j * data.num_output + i)
                = hidden_weights data (j * data.num_output + i)
                  + delta_hidden_output (fnnfast_train exp_neuron abi data input target rate momentum buf).1 (j * data.num_output + i)
              ∧ hidden_weights (state_before_hidden_unit exp_neuron abi data input target rate momentum buf h) (j * data.num_output + i)
                = hidden_weights (fnnfast_train exp_neuron abi data input target rate momentum buf).1 (j * data.num_output + i)
              ∧ delta_hidden_output (state_before_hidden_unit exp_neuron abi data input target rate momentum buf h) (j * data.num_output + i)
                = delta_hidden_output (fnnfast_train exp_neuron abi data input target rate momentum buf).1 (j * data.num_output + i))
          ∧ fnnfast_hidden_error_gradient abi (state_before_hidden_unit exp_neuron abi data input target rate momentum buf h) h target (fnnfast_feedforward exp_neuron abi data input buf).2
              = hidden_activations (fnnfast_feedforward exp_neuron abi data input buf).1 h * (1 - hidden_activations (fnnfast_feedforward exp_neuron abi data input buf).1 h)
                * ∑ i in Finset.range data.num_output,
                    (hidden_weights data (h * data.num_output + i)
                        + delta_hidden_output (fnnfast_train exp_neuron abi data input target rate momentum buf).1 (h * data.num_output + i))
                      * ((fnnfast_feedforward exp_neuron abi data input buf).2 i * (1 - (fnnfast_feedforward exp_neuron abi data input buf).2 i) * (target i - (fnnfast_feedforward exp_neuron abi data input buf).2 i))
          ∧ (∀ j, j < data.num_input →
              delta_input_hidden (fnnfast_train exp_neuron abi data input target rate momentum buf).1 (j * data.num_hidden + h)
                = rate * input j
                    * fnnfast_hidden_error_gradient abi (state_before_hidden_unit exp_neuron abi data input target rate momentum buf h) h target (fnnfast_feedforward exp_neuron abi data input buf).2
                  + momentum * delta_input_hidden data (j * data.num_hidden + h))
          ∧ delta_input_hidden (fnnfast_train exp_neuron abi data input target rate momentum buf).1 (data.num_input * data.num_hidden + h)
              = rate * (-1) * fnnfast_hidden_error_gradient abi (state_before_hidden_unit exp_neuron abi data input target rate momentum buf h) h target (fnnfast_feedforward exp_neuron abi data input buf).2
                + momentum * delta_input_hidden data (data.num_input * data.num_hidden + h) := by
  obtain ⟨hP, hDIH, hDHO, hIW, hHW⟩ := is_network_pointers hnet
  refine ⟨rfl, ?_⟩
  intro h hh
  have hnet1 : is_network abi (fnnfast_feedforward exp_neuron abi data input buf).1 := is_network_with_mem hnet _
  obtain ⟨t1, t2⟩ := train_result exp_neuron hnet input target rate momentum buf
  obtain ⟨-, -, b3⟩ := backpropogate_result hnet1 input (fnnfast_feedforward exp_neuron abi data input buf).2 target rate momentum
  have frh := backpropogate_hidden_loop_frame hnet1 input (fnnfast_feedforward exp_neuron abi data input buf).2 target rate momentum
    (for_loop data.num_output
      (backpropogate_output_unit abi (fnnfast_feedforward exp_neuron abi data input buf).1 (fnnfast_feedforward exp_neuron abi data input buf).2 target rate momentum) (fnnfast_feedforward exp_neuron abi data input buf).1.mem)
    h (Nat.le_of_lt hh)
  have frH := backpropogate_hidden_loop_frame hnet1 input (fnnfast_feedforward exp_neuron abi data input buf).2 target rate momentum
    (for_loop data.num_output
      (backpropogate_output_unit abi (fnnfast_feedforward exp_neuron abi data input buf).1 (fnnfast_feedforward exp_neuron abi data input buf).2 target rate momentum) (fnnfast_feedforward exp_neuron abi data input buf).1.mem)
    data.num_hidden (Nat.le_refl _)
  -- outside `delta_input_hidden` and `input_weights` the state of unit `h` is the final one
  have same : ∀ q, ¬ (data.p_delta_input_hidden ≤ q
        ∧ q < data.p_delta_input_hidden + (data.num_input + 1) * data.num_hidden) →
      ¬ (data.p_input_weights ≤ q
        ∧ q < data.p_input_weights + (data.num_input + 1) * data.num_hidden) →
      (state_before_hidden_unit exp_neuron abi data input target rate momentum buf h).mem q = (fnnfast_train exp_neuron abi data input target rate momentum buf).1.mem q := by
    intro q hq1 hq2
    exact (frh q hq1 hq2).trans (frH q hq1 hq2).symm
  have hwS : ∀ i, i < data.num_output → ∀ j, j ≤ data.num_hidden →
      hidden_weights (state_before_hidden_unit exp_neuron abi data input target rate momentum buf h) (j * data.num_output + i)
        = hidden_weights (fnnfast_train exp_neuron abi data input target rate momentum buf).1 (j * data.num_output + i) := by
    intro i hi j hj
    have := idx_lt hj hi
    show (state_before_hidden_unit exp_neuron abi data input target rate momentum buf h).mem (data.p_hidden_weights + (j * data.num_output + i))
      = (fnnfast_train exp_neuron abi data input target rate momentum buf).1.mem (data.p_hidden_weights + (j * data.num_output + i))
    exact same _ (by omega) (by omega)
  have hact : (state_before_hidden_unit exp_neuron abi data input target rate momentum buf h).mem (data.p_hidden_neurons + h) = hidden_activations (fnnfast_feedforward exp_neuron abi data input buf).1 h := by
    rw [same _ (by omega) (by omega)]
    exact b3 h hh
  have hgrad : fnnfast_hidden_error_gradient abi (state_before_hidden_unit exp_neuron abi data input target rate momentum buf h) h target (fnnfast_feedforward exp_neuron abi data input buf).2
      = hidden_activations (fnnfast_feedforward exp_neuron abi data input buf).1 h * (1 - hidden_activations (fnnfast_feedforward exp_neuron abi data input buf).1 h)
        * ∑ i in Finset.range data.num_output,
            hidden_weights (fnnfast_train exp_neuron abi data input target rate momentum buf).1 (h * data.num_output + i) * ((fnnfast_feedforward exp_neuron abi data input buf).2 i * (1 - (fnnfast_feedforward exp_neuron abi data input buf).2 i) * (target i - (fnnfast_feedforward exp_neuron abi data input buf).2 i)) := by
    have e := hidden_error_gradient_eq (is_network_with_mem hnet (state_before_hidden_unit exp_neuron abi data input target rate momentum buf h).mem) hh target (fnnfast_feedforward exp_neuron abi data input buf).2
    refine e.trans ?_
    simp only
    rw [hact]
    congr 1
    apply Finset.sum_congr rfl
    intro i hi
    have e' : (state_before_hidden_unit exp_neuron abi data input target rate momentum buf h).mem (data.p_hidden_weights + (h * data.num_output + i))
        = hidden_weights (fnnfast_train exp_neuron abi data input target rate momentum buf).1 (h * data.num_output + i) :=
      hwS i (Finset.mem_range.mp hi) h (Nat.le_of_lt hh)
    rw [e']
  refine ⟨?_, ?_, ?_, ?_⟩
  · intro i hi j hj
    have hk := idx_lt hj hi
    refine ⟨(hwS i hi j hj).trans (t1 i hi j hj).2, hwS i hi j hj, ?_⟩
    show (state_before_hidden_unit exp_neuron abi data input target rate momentum buf h).mem (data.p_delta_hidden_output + (j * data.num_output + i))
      = (fnnfast_train exp_neuron abi data input target rate momentum buf).1.mem (data.p_delta_hidden_output + (j * data.num_output + i))
    exact same _ (by omega) (by omega)
  · rw [hgrad]
    congr 1
    apply Finset.sum_congr rfl
    intro i hi
    rw [(t1 i (Finset.mem_range.mp hi) h (Nat.le_of_lt hh)).2]
  · intro j hj
    have x := (t2 h hh j (Nat.le_of_lt hj)).1
    rw [if_pos hj] at x
    rw [x, hgrad]
  · have x := (t2 h hh data.num_input (Nat.le_refl _)).1
    rw [if_neg (Nat.lt_irrefl _)] at x
    rw [x, hgrad]

/-- Witness for claim C18. The sample network, one training step with target `1`, rate `1/2`
and momentum `1/4`: the hidden weight `0` seen when the gradient of hidden unit `0` is
computed. -/
theorem train_hidden_gradient_order_witness :
    is_network x86_64 (sample_net ℝ)
      ∧ hidden_weights (state_before_hidden_unit Real.exp x86_64 (sample_net ℝ) (sample_input ℝ) (fun _ => 1) (1 / 2) (1 / 4) (fun _ => 0) 0) (0 * (sample_net ℝ).num_output + 0)
        = hidden_weights (sample_net ℝ) (0 * (sample_net ℝ).num_output + 0)
          + delta_hidden_output (fnnfast_train Real.exp x86_64 (sample_net ℝ) (sample_input ℝ) (fun _ => 1) (1 / 2) (1 / 4) (fun _ => 0)).1 (0 * (sample_net ℝ).num_output + 0) :=
  ⟨sample_net_is_network ℝ,
    (((train_hidden_gradient_order Real.exp x86_64 (sample_net ℝ) (sample_net_is_network ℝ)
      (sample_input ℝ) (fun _ => 1) (1 / 2) (1 / 4) (fun _ => 0)).2 0 (by decide)).1 0
        (by decide) 0 (by decide)).1⟩

/-! ## Bounds-checked indexing never fails on a network -/

theorem for_loop_checked_eq_some {σ : Type} (n : Nat) (body : Nat → σ → Option σ)
    (body' : Nat → σ → σ) (s : σ) (h : ∀ j, j < n → ∀ t, body j t = some (body' j t)) :
    for_loop_checked n body s = some (for_loop n body' s) := by
  induction n with
  | zero => rfl
  | succ n ih =>
    simp only [for_loop_checked, for_loop]
    rw [ih (fun j hj => h j (Nat.lt_succ_of_lt hj)), Option.some_bind, h n (Nat.lt_succ_self n)]

theorem idx_wrap_lt (abi : Abi) {M N j i : Nat} (h : (M + 1) * N < 2 ^ abi.size_bits)
    (hj : j ≤ M) (hi : i < N) : size_add abi (size_mul abi j N) i < (M + 1) * N := by
  rw [idx_wrap_eq abi h hj hi]
  exact idx_lt hj hi

theorem load_checked_some {K : Type} (mem : Nat → K) (p len k : Nat) (h : k < len) :
    load_checked mem p len k = some (mem (p + k)) := if_pos h

theorem store_checked_some {K : Type} (mem : Nat → K) (p len k : Nat) (v : K) (h : k < len) :
    store_checked mem p len k v = some (store mem (p + k) v) := if_pos h

theorem buffer_load_some {K : Type} (buf : Nat → K) (len k : Nat) (h : k < len) :
    buffer_load buf len k = some (buf k) := if_pos h

theorem buffer_store_some {K : Type} (buf : Nat → K) (len k : Nat) (v : K) (h : k < len) :
    buffer_store buf len k v = some (store buf k v) := if_pos h

theorem feedforward_hidden_unit_checked_eq {K : Type} [Field K] (exp_neuron : K → K)
    {abi : Abi} {data : fnnfast_data K} (hnet : is_network abi data) (input : Nat → K)
    {i : Nat} (hi : i < data.num_hidden) (mem : Nat → K) :
    feedforward_hidden_unit_checked exp_neuron abi data input i mem
      = some (feedforward_hidden_unit exp_neuron abi data input i mem) := by
  have hfit := fits_input_layer hnet.2
  have hstep : ∀ j, j < data.num_input → ∀ m,
      feedforward_hidden_step_checked abi data input i j m
        = some (store m (data.p_hidden_neurons + i)
            (m (data.p_hidden_neurons + i)
              + input j * m (data.p_input_weights
                  + size_add abi (size_mul abi j data.num_hidden) i))) := by
    intro j hj m
    simp only [feedforward_hidden_step_checked, load_checked_some _ _ _ _ hi,
      buffer_load_some _ _ _ hj,
      load_checked_some _ _ _ _ (idx_wrap_lt abi hfit (Nat.le_of_lt hj) hi),
      store_checked_some _ _ _ _ _ hi, Option.some_bind]
  simp only [feedforward_hidden_unit_checked, store_checked_some _ _ _ _ _ hi,
    load_checked_some _ _ _ _ hi,
    load_checked_some _ _ _ _ (idx_wrap_lt abi hfit (Nat.le_refl _) hi),
    for_loop_checked_eq_some _ _ _ _ hstep, Option.some_bind]
  rfl

theorem feedforward_output_unit_checked_eq {K : Type} [Field K] (exp_neuron : K → K)
    {abi : Abi} {data : fnnfast_data K} (hnet : is_network abi data) (mem : Nat → K)
    {i : Nat} (hi : i < data.num_output) (output : Nat → K) :
    feedforward_output_unit_checked exp_neuron abi data mem i output
      = some (feedforward_output_unit exp_neuron abi data mem i output) := by
  have hfit := fits_output_layer hnet.2
  have hstep : ∀ j, j < data.num_hidden → ∀ o,
      feedforward_output_step_checked abi data mem i j o
        = some (store o i
            (o i + mem (data.p_hidden_neurons + j)
              * mem (data.p_hidden_weights
                  + size_add abi (size_mul abi j data.num_output) i))) := by
    intro j hj o
    simp only [feedforward_output_step_checked, buffer_load_some _ _ _ hi,
      load_checked_some _ _ _ _ hj,
      load_checked_some _ _ _ _ (idx_wrap_lt abi hfit (Nat.le_of_lt hj) hi),
      buffer_store_some _ _ _ _ hi, Option.some_bind]
  simp only [feedforward_output_unit_checked, buffer_store_some _ _ _ _ hi,
    buffer_load_some _ _ _ hi,
    load_checked_some _ _ _ _ (idx_wrap_lt abi hfit (Nat.le_refl _) hi),
    for_loop_checked_eq_some _ _ _ _ hstep, Option.some_bind]
  rfl

theorem feedforward_checked_eq {K : Type} [Field K] (exp_neuron : K → K) {abi : Abi}
    {data : fnnfast_data K} (hnet : is_network abi data) (input output : Nat → K) :
    fnnfast_feedforward_checked exp_neuron abi data input output
      = some (fnnfast_feedforward exp_neuron abi data input output) := by
  simp only [fnnfast_feedforward_checked,
    for_loop_checked_eq_some _ _ _ _
      (fun i hi t => feedforward_hidden_unit_checked_eq exp_neuron hnet input hi t),
    for_loop_checked_eq_some _ _ _ _
      (fun i hi t => feedforward_output_unit_checked_eq exp_neuron hnet _ hi t),
    Option.some_bind]
  rfl

theorem weight_step_checked_eq {K : Type} [Field K] (pd pw len k : Nat)
    (rate momentum s c : K) (mem : Nat → K) (hk : k < len) :
    weight_step_checked pd pw len k rate momentum s c mem
      = some (weight_step pd pw k rate momentum s c mem) := by
  simp only [weight_step_checked, load_checked_some _ _ _ _ hk,
    store_checked_some _ _ _ _ _ hk, Option.some_bind]
  rfl

theorem hidden_error_gradient_checked_eq {K : Type} [Field K] {abi : Abi}
    {data : fnnfast_data K} (hnet : is_network abi data) {h : Nat} (hh : h < data.num_hidden)
    (target output : Nat → K) :
    fnnfast_hidden_error_gradient_checked abi data h target output
      = some (fnnfast_hidden_error_gradient abi data h target output) := by
  have hfit := fits_output_layer hnet.2
  have hstep : ∀ i, i < data.num_output → ∀ sum : K,
      hidden_error_gradient_step_checked abi data h target output i sum
        = some (sum + data.mem (data.p_hidden_weights
              + size_add abi (size_mul abi h data.num_output) i)
            * fnnfast_output_error_gradient (target i) (output i)) := by
    intro i hi sum
    simp only [hidden_error_gradient_step_checked,
      load_checked_some _ _ _ _ (idx_wrap_lt abi hfit (Nat.le_of_lt hh) hi),
      buffer_load_some _ _ _ hi, Option.some_bind]
  simp only [fnnfast_hidden_error_gradient_checked, load_checked_some _ _ _ _ hh,
    for_loop_checked_eq_some _ _ _ _ hstep, Option.some_bind]
  rfl

theorem backpropogate_output_unit_checked_eq {K : Type} [Field K] {abi : Abi}
    {data : fnnfast_data K} (hnet : is_network abi data)
    (training_output target_output : Nat → K) (rate momentum : K) {i : Nat}
    (hi : i < data.num_output) (mem : Nat → K) :
    backpropogate_output_unit_checked abi data training_output target_output rate momentum i
        mem
      = some (backpropogate_output_unit abi data training_output target_output rate momentum
          i mem) := by
  have hfit := fits_output_layer hnet.2
  have hstep : ∀ j, j < data.num_hidden → ∀ m,
      backpropogate_output_step_checked abi data rate momentum
          (fnnfast_output_error_gradient (target_output i) (training_output i)) i j m
        = some (weight_step data.p_delta_hidden_output data.p_hidden_weights
            (size_add abi (size_mul abi j data.num_output) i) rate momentum
            (m (data.p_hidden_neurons + j))
            (fnnfast_output_error_gradient (target_output i) (training_output i)) m) := by
    intro j hj m
    simp only [backpropogate_output_step_checked, load_checked_some _ _ _ _ hj,
      weight_step_checked_eq _ _ _ _ _ _ _ _ _
        (idx_wrap_lt abi hfit (Nat.le_of_lt hj) hi), Option.some_bind]
  simp only [backpropogate_output_unit_checked, buffer_load_some _ _ _ hi,
    for_loop_checked_eq_some _ _ _ _ hstep,
    weight_step_checked_eq _ _ _ _ _ _ _ _ _ (idx_wrap_lt abi hfit (Nat.le_refl _) hi),
    Option.some_bind]
  rfl

theorem backpropogate_hidden_unit_checked_eq {K : Type} [Field K] {abi : Abi}
    {data : fnnfast_data K} (hnet : is_network abi data)
    (input training_output target_output : Nat → K) (rate momentum : K) {i : Nat}
    (hi : i < data.num_hidden) (mem : Nat → K) :
    backpropogate_hidden_unit_checked abi data input training_output target_output rate
        momentum i mem
      = some (backpropogate_hidden_unit abi data input training_output target_output rate
          momentum i mem) := by
  have hfit := fits_input_layer hnet.2
  have hstep : ∀ c : K, ∀ j, j < data.num_input → ∀ m,
      backpropogate_hidden_step_checked abi data input rate momentum c i j m
        = some (weight_step data.p_delta_input_hidden data.p_input_weights
            (size_add abi (size_mul abi j data.num_hidden) i) rate momentum (input j) c m) := by
    intro c j hj m
    simp only [backpropogate_hidden_step_checked, buffer_load_some _ _ _ hj,
      weight_step_checked_eq _ _ _ _ _ _ _ _ _
        (idx_wrap_lt abi hfit (Nat.le_of_lt hj) hi), Option.some_bind]
  have hg := hidden_error_gradient_checked_eq (is_network_with_mem hnet mem) hi target_output
    training_output
  simp only [backpropogate_hidden_unit_checked, hg,
    for_loop_checked_eq_some _ _ _ _ (hstep _),
    weight_step_checked_eq _ _ _ _ _ _ _ _ _ (idx_wrap_lt abi hfit (Nat.le_refl _) hi),
    Option.some_bind]
  rfl

theorem backpropogate_checked_eq {K : Type} [Field K] {abi : Abi} {data : fnnfast_data K}
    (hnet : is_network abi data) (input training_output target_output : Nat → K)
    (rate momentum : K) :
    fnnfast_backpropogate_checked abi data input training_output target_output rate momentum
      = some (fnnfast_backpropogate abi data input training_output target_output rate
          momentum) := by
  simp only [fnnfast_backpropogate_checked,
    for_loop_checked_eq_some _ _ _ _
      (fun i hi t => backpropogate_output_unit_checked_eq hnet training_output target_output
        rate momentum hi t),
    for_loop_checked_eq_some _ _ _ _
      (fun i hi t => backpropogate_hidden_unit_checked_eq hnet input training_output
        target_output rate momentum hi t),
    Option.some_bind]
  rfl

/-- Claim C19. For every network with dimensions `(I, H, O)` laid out by
`fnnfast_fix_pointers`, every index used by `fnnfast_feedforward` and `fnnfast_train` lies
inside the array it indexes: `j*H+i < (I+1)*H` for `j <= I`, `i < H` (computed in `size_t`
without wrap-around) for `input_weights` and `delta_input_hidden`, `j*O+i < (H+1)*O` for
`j <= H`, `i < O` for `hidden_weights` and `delta_hidden_output`; so with bounds-checked
indexing of the five regions and of the caller's buffers (`input` of length `I`, outputs and
targets of length `O`) the out-of-bounds branch is never taken, and the checked functions
return the results of the unchecked ones. -/
theorem indices_in_bounds {K : Type} [Field K] (exp_neuron : K → K) (abi : Abi)
    (data : fnnfast_data K) (hnet : is_network abi data) :
    (∀ j i, j ≤ data.num_input → i < data.num_hidden →
        size_add abi (size_mul abi j data.num_hidden) i = j * data.num_hidden + i
          ∧ j * data.num_hidden + i < (data.num_input + 1) * data.num_hidden)
      ∧ (∀ j i, j ≤ data.num_hidden → i < data.num_output →
        size_add abi (size_mul abi j data.num_output) i = j * data.num_output + i
          ∧ j * data.num_output + i < (data.num_hidden + 1) * data.num_output)
      ∧ (∀ input output : Nat → K,
        fnnfast_feedforward_checked exp_neuron abi data input output
          = some (fnnfast_feedforward exp_neuron abi data input output))
      ∧ (∀ (input target : Nat → K) (rate momentum : K) (buf : Nat → K),
        fnnfast_train_checked exp_neuron abi data input target rate momentum buf
          = some (fnnfast_train exp_neuron abi data input target rate momentum buf)) := by
  refine ⟨fun j i hj hi => ⟨idx_wrap_eq abi (fits_input_layer hnet.2) hj hi, idx_lt hj hi⟩,
    fun j i hj hi => ⟨idx_wrap_eq abi (fits_output_layer hnet.2) hj hi, idx_lt hj hi⟩,
    fun input output => feedforward_checked_eq exp_neuron hnet input output, ?_⟩
  intro input target rate momentum buf
  have hnet1 : is_network abi (fnnfast_feedforward exp_neuron abi data input buf).1 :=
    is_network_with_mem hnet _
  simp only [fnnfast_train_checked, feedforward_checked_eq exp_neuron hnet input buf,
    backpropogate_checked_eq hnet1, Option.some_bind]
  rfl

/-- Witness for claim C19. The sample network: the last index of `input_weights`, and a
checked forward pass. -/
theorem indices_in_bounds_witness :
    is_network x86_64 (sample_net ℚ)
      ∧ size_add x86_64 (size_mul x86_64 2 (sample_net ℚ).num_hidden) 1
          < ((sample_net ℚ).num_input + 1) * (sample_net ℚ).num_hidden
      ∧ fnnfast_feedforward_checked (fun _ => 1) x86_64 (sample_net ℚ) (sample_input ℚ)
            (fun _ => 0)
          = some (fnnfast_feedforward (fun _ => 1) x86_64 (sample_net ℚ) (sample_input ℚ)
              (fun _ => 0)) := by
  obtain ⟨-, -, h3, -⟩ := indices_in_bounds (fun _ => (1 : ℚ)) x86_64 (sample_net ℚ)
    (sample_net_is_network ℚ)
  exact ⟨sample_net_is_network ℚ, by decide, h3 (sample_input ℚ) (fun _ => 0)⟩

end Fnnfast
